import Mathlib

/-!
# pico-sdk: register access, SPI, spin locks and the async context

A shallow embedding of parts of `hardware_base` (`address_mapped.h`),
`hardware_spi` (`spi.c`, `spi.h`), `hardware_sync` (`sync.h`), `hardware_resets`
(`resets.h`), `hardware_irq` (`irq.h`), `pico_stdlib` (`stdlib.h`) and
`pico_async_context` (`async_context.h`), followed by theorems about them.  Machine words are natural numbers; every theorem that depends on
the 32-bit width carries the bound as a hypothesis.
-/

namespace PicoSdk

/-! ## Definitions -/

/-! ### hardware_base: `address_mapped.h` -/

/-- The alias offsets `REG_ALIAS_*_BITS` are defined in
`hardware/regs/addressmap.h`, outside the files embedded here: they are
parameters of the model. -/
structure AddressMap where
  REG_ALIAS_XOR_BITS : Nat
  REG_ALIAS_SET_BITS : Nat
  REG_ALIAS_CLR_BITS : Nat
deriving DecidableEq, Repr

/-- The register address and its three alias addresses are four different
addresses, so that the bus can tell which access is meant. -/
def AddressMap.Separates (am : AddressMap) (addr : Nat) : Prop :=
  am.REG_ALIAS_XOR_BITS ||| addr ≠ addr ∧
  am.REG_ALIAS_SET_BITS ||| addr ≠ addr ∧
  am.REG_ALIAS_SET_BITS ||| addr ≠ am.REG_ALIAS_XOR_BITS ||| addr ∧
  am.REG_ALIAS_CLR_BITS ||| addr ≠ addr ∧
  am.REG_ALIAS_CLR_BITS ||| addr ≠ am.REG_ALIAS_XOR_BITS ||| addr ∧
  am.REG_ALIAS_CLR_BITS ||| addr ≠ am.REG_ALIAS_SET_BITS ||| addr

instance (am : AddressMap) (addr : Nat) : Decidable (am.Separates addr) := by
  unfold AddressMap.Separates
  infer_instance

/-- Bitwise complement of a 32-bit word. -/
def not32 (x : Nat) : Nat := x ^^^ 0xFFFFFFFF

/-- One access on the peripheral bus. -/
inductive BusOp where
  | load (addr : Nat)
  | store (addr data : Nat)
deriving DecidableEq, Repr

/-- A 32-bit read-write register (`io_rw_32`) at address `addr`, holding `val`,
together with the bus accesses made to it so far (oldest first). -/
structure IoReg where
  addr : Nat
  val : Nat
  log : List BusOp
deriving DecidableEq, Repr

/-- A load `*(io_rw_32 *) a`: the value read and the register afterwards.
Only a load from the register address itself is modelled as returning its
contents. -/
def IoReg.load (r : IoReg) (a : Nat) : Nat × IoReg :=
  (if a = r.addr then r.val else 0, { r with log := r.log ++ [BusOp.load a] })

/-- A store `*(io_rw_32 *) a = d`.  The hardware turns a store to an alias
address into an atomic xor, set or clear of the register; a store to the
register address itself replaces the contents. -/
def IoReg.store (am : AddressMap) (r : IoReg) (a d : Nat) : IoReg :=
  { r with
    val :=
      if a = r.addr then d
      else if a = am.REG_ALIAS_XOR_BITS ||| r.addr then r.val ^^^ d
      else if a = am.REG_ALIAS_SET_BITS ||| r.addr then r.val ||| d
      else if a = am.REG_ALIAS_CLR_BITS ||| r.addr then r.val &&& not32 d
      else r.val
    log := r.log ++ [BusOp.store a d] }

/-- `#define hw_alias_check_addr(addr) ((uintptr_t)(addr))` -/
def hw_alias_check_addr (addr : Nat) : Nat := addr

/-- `#define hw_set_alias_untyped(addr) (REG_ALIAS_SET_BITS | hw_alias_check_addr(addr))` -/
def hw_set_alias_untyped (am : AddressMap) (addr : Nat) : Nat :=
  am.REG_ALIAS_SET_BITS ||| hw_alias_check_addr addr

/-- `#define hw_clear_alias_untyped(addr) (REG_ALIAS_CLR_BITS | hw_alias_check_addr(addr))` -/
def hw_clear_alias_untyped (am : AddressMap) (addr : Nat) : Nat :=
  am.REG_ALIAS_CLR_BITS ||| hw_alias_check_addr addr

/-- `#define hw_xor_alias_untyped(addr) (REG_ALIAS_XOR_BITS | hw_alias_check_addr(addr))` -/
def hw_xor_alias_untyped (am : AddressMap) (addr : Nat) : Nat :=
  am.REG_ALIAS_XOR_BITS ||| hw_alias_check_addr addr

/-- `hw_set_bits(addr, mask)`: `*(io_rw_32 *) hw_set_alias_untyped(addr) = mask;` -/
def hw_set_bits (am : AddressMap) (r : IoReg) (addr mask : Nat) : IoReg :=
  r.store am (hw_set_alias_untyped am addr) mask

/-- `hw_clear_bits(addr, mask)`: `*(io_rw_32 *) hw_clear_alias_untyped(addr) = mask;` -/
def hw_clear_bits (am : AddressMap) (r : IoReg) (addr mask : Nat) : IoReg :=
  r.store am (hw_clear_alias_untyped am addr) mask

/-- `hw_xor_bits(addr, mask)`: `*(io_rw_32 *) hw_xor_alias_untyped(addr) = mask;` -/
def hw_xor_bits (am : AddressMap) (r : IoReg) (addr mask : Nat) : IoReg :=
  r.store am (hw_xor_alias_untyped am addr) mask

/-- `hw_write_masked(addr, values, write_mask)`:
`hw_xor_bits(addr, (*addr ^ values) & write_mask);` -/
def hw_write_masked (am : AddressMap) (r : IoReg) (addr values write_mask : Nat) : IoReg :=
  let (cur, r1) := r.load addr
  hw_xor_bits am r1 addr ((cur ^^^ values) &&& write_mask)

/-- An aliased store made by the other core: `hw_set_bits`, `hw_clear_bits` or
`hw_xor_bits` with the given mask. -/
inductive AliasStore where
  | set (mask : Nat)
  | clr (mask : Nat)
  | xor (mask : Nat)
deriving DecidableEq, Repr

/-- The mask of an aliased store: the bits it touches. -/
def AliasStore.mask : AliasStore → Nat
  | .set m => m
  | .clr m => m
  | .xor m => m

/-- The other core performs its aliased store on the register at `addr`. -/
def AliasStore.run (am : AddressMap) (r : IoReg) (addr : Nat) : AliasStore → IoReg
  | .set m => hw_set_bits am r addr m
  | .clr m => hw_clear_bits am r addr m
  | .xor m => hw_xor_bits am r addr m

/-- `hw_write_masked` on one core with an aliased store of the other core landing
between its load `*addr` and its store to the XOR alias. -/
def hw_write_masked_raced (am : AddressMap) (r : IoReg) (addr values write_mask : Nat)
    (other : AliasStore) : IoReg :=
  let (cur, r1) := r.load addr
  let r2 := other.run am r1 addr
  hw_xor_bits am r2 addr ((cur ^^^ values) &&& write_mask)

/-- The RP2040 values of the alias offsets, used for concrete evaluation. -/
def rp2040Map : AddressMap :=
  { REG_ALIAS_XOR_BITS := 0x1000, REG_ALIAS_SET_BITS := 0x2000, REG_ALIAS_CLR_BITS := 0x3000 }

/-! ### hardware_spi: `spi.c` -/

/-- Field constants defined in `hardware/regs/spi.h`, outside the files embedded
here: they are parameters of the model. -/
structure SpiConsts where
  SPI_SSPCR0_SCR_LSB : Nat
  SPI_SSPCR0_SCR_BITS : Nat
  SPI_SSPCR1_SSE_BITS : Nat
  SPI_SSPCR0_DSS_LSB : Nat
  SPI_SSPCR0_DSS_BITS : Nat
  SPI_SSPCR0_SPO_LSB : Nat
  SPI_SSPCR0_SPO_BITS : Nat
  SPI_SSPCR0_SPH_LSB : Nat
  SPI_SSPCR0_SPH_BITS : Nat
  SPI_SSPDMACR_TXDMAE_BITS : Nat
  SPI_SSPDMACR_RXDMAE_BITS : Nat
  SPI_SSPSR_TNF_BITS : Nat
  SPI_SSPSR_RNE_BITS : Nat
deriving DecidableEq, Repr

/-- The clock-rate field SCR of CR0 is eight bits wide, starts at bit
`SPI_SSPCR0_SCR_LSB` and lies inside the 32-bit register. -/
def SpiConsts.ScrField (k : SpiConsts) : Prop :=
  k.SPI_SSPCR0_SCR_BITS = 0xff <<< k.SPI_SSPCR0_SCR_LSB ∧ k.SPI_SSPCR0_SCR_LSB ≤ 24

instance (k : SpiConsts) : Decidable k.ScrField := by
  unfold SpiConsts.ScrField
  infer_instance

/-- The registers of one SPI block (`spi_hw_t`) that the baud-rate code uses. -/
structure SpiHw where
  cr0 : IoReg
  cr1 : IoReg
  cpsr : IoReg
  dmacr : IoReg
deriving DecidableEq, Repr

/-- The prescale search of `spi_set_baudrate`:
`for (prescale = 2; prescale <= 254; prescale += 2)
   if (freq_in < (prescale + 2) * 256 * (uint64_t) baudrate) break;`
The first argument bounds the number of loop tests and `prescale` is the loop
variable; the value returned is `prescale` after the loop.  The product is
computed in 64 bits and is below `2 ^ 48` for 32-bit operands, so it does not
wrap. -/
def spi_prescale_loop (freq_in baudrate : Nat) : Nat → Nat → Nat
  | 0, prescale => prescale
  | fuel + 1, prescale =>
    if prescale ≤ 254 then
      if freq_in < (prescale + 2) * 256 * baudrate then prescale
      else spi_prescale_loop freq_in baudrate fuel (prescale + 2)
    else prescale

/-- The post-divide search of `spi_set_baudrate`:
`for (postdiv = 256; postdiv > 1; --postdiv)
   if (freq_in / (prescale * (postdiv - 1)) > baudrate) break;`
The argument is the loop variable `postdiv`; the value returned is `postdiv`
after the loop. -/
def spi_postdiv_loop (freq_in baudrate prescale : Nat) : Nat → Nat
  | 0 => 0
  | 1 => 1
  | postdiv + 2 =>
    if freq_in / (prescale * (postdiv + 2 - 1)) > baudrate then postdiv + 2
    else spi_postdiv_loop freq_in baudrate prescale (postdiv + 1)

/-- The value of `prescale` after the first loop of `spi_set_baudrate`. -/
def spi_prescale (freq_in baudrate : Nat) : Nat :=
  spi_prescale_loop freq_in baudrate 128 2

/-- The value of `postdiv` after the second loop of `spi_set_baudrate`. -/
def spi_postdiv (freq_in baudrate : Nat) : Nat :=
  spi_postdiv_loop freq_in baudrate (spi_prescale freq_in baudrate) 256

/-- `uint spi_set_baudrate(spi_inst_t *spi, uint baudrate)`.
`freq_in` is the value of `clock_get_hz(clk_peri)`.  `paramAssertions` is
`PARAM_ASSERTIONS_ENABLED_SPI` (off by default): when it is on, a failing
`invalid_params_if` stops the program, modelled as `none`. -/
def spi_set_baudrate (paramAssertions : Bool) (am : AddressMap) (k : SpiConsts)
    (freq_in : Nat) (spi : SpiHw) (baudrate : Nat) : Option (SpiHw × Nat) :=
  if paramAssertions = true ∧ baudrate > freq_in then none
  else
    -- Disable the SPI
    let (cr1v, cr1a) := spi.cr1.load spi.cr1.addr
    let enable_mask := cr1v &&& k.SPI_SSPCR1_SSE_BITS
    let cr1b := hw_clear_bits am cr1a spi.cr1.addr k.SPI_SSPCR1_SSE_BITS
    let prescale := spi_prescale_loop freq_in baudrate 128 2
    if paramAssertions = true ∧ prescale > 254 then none
    else
      let postdiv := spi_postdiv_loop freq_in baudrate prescale 256
      let cpsr1 := spi.cpsr.store am spi.cpsr.addr prescale
      let cr0a := hw_write_masked am spi.cr0 spi.cr0.addr
        (((postdiv - 1) <<< k.SPI_SSPCR0_SCR_LSB) % 2 ^ 32) k.SPI_SSPCR0_SCR_BITS
      -- Re-enable the SPI
      let cr1c := hw_set_bits am cr1b spi.cr1.addr enable_mask
      -- Return the frequency we were able to achieve
      some ({ spi with cr0 := cr0a, cr1 := cr1c, cpsr := cpsr1 },
        freq_in / (prescale * postdiv))

/-- `uint spi_get_baudrate(const spi_inst_t *spi)`; `freq_in` is the value of
`clock_get_hz(clk_peri)`.  The product `prescale * postdiv` is a 32-bit `uint`;
a zero divisor has no defined result, modelled as `none`. -/
def spi_get_baudrate (k : SpiConsts) (freq_in : Nat) (spi : SpiHw) : Option Nat :=
  let prescale := (spi.cpsr.load spi.cpsr.addr).1
  let postdiv :=
    ((((spi.cr0.load spi.cr0.addr).1 &&& k.SPI_SSPCR0_SCR_BITS) >>> k.SPI_SSPCR0_SCR_LSB)
      + 1) % 2 ^ 32
  let divisor := (prescale * postdiv) % 2 ^ 32
  if divisor = 0 then none else some (freq_in / divisor)

/-- The RP2040 values of the SPI field constants, used for concrete evaluation. -/
def rp2040Spi : SpiConsts :=
  { SPI_SSPCR0_SCR_LSB := 8, SPI_SSPCR0_SCR_BITS := 0xff00, SPI_SSPCR1_SSE_BITS := 0x2,
    SPI_SSPCR0_DSS_LSB := 0, SPI_SSPCR0_DSS_BITS := 0xf,
    SPI_SSPCR0_SPO_LSB := 6, SPI_SSPCR0_SPO_BITS := 0x40,
    SPI_SSPCR0_SPH_LSB := 7, SPI_SSPCR0_SPH_BITS := 0x80,
    SPI_SSPDMACR_TXDMAE_BITS := 0x2, SPI_SSPDMACR_RXDMAE_BITS := 0x1,
    SPI_SSPSR_TNF_BITS := 0x2, SPI_SSPSR_RNE_BITS := 0x4 }

/-- An SPI block at the RP2040 addresses of SPI0, with the given register
contents and empty access logs. -/
def spiAt (cr0 cr1 cpsr dmacr : Nat) : SpiHw :=
  { cr0 := ⟨0x4003c000, cr0, []⟩, cr1 := ⟨0x4003c004, cr1, []⟩,
    cpsr := ⟨0x4003c010, cpsr, []⟩, dmacr := ⟨0x4003c024, dmacr, []⟩ }

/-! ### hardware_sync: `sync.h`, one core -/

/-- What one core does, in program order: the instructions of the inline
assembly and the accesses to the spin lock register. -/
inductive SyncEvent where
  | mrs_primask (v : Nat)
  | cpsid_i
  | msr_primask (v : Nat)
  | dmb
  | lock_load (v : Nat)
  | lock_store (v : Nat)
deriving DecidableEq, Repr

/-- One core: its PRIMASK register (0: interrupts enabled, 1: disabled), the
number of loads of the lock register it has made, and what it has done so far
(oldest first). -/
structure CoreState where
  primask : Nat
  lockLoads : Nat
  trace : List SyncEvent
deriving DecidableEq, Repr

/-- `__dmb()`: `dmb` -/
def dmb (s : CoreState) : CoreState :=
  { s with trace := s.trace ++ [SyncEvent.dmb] }

/-- `__mem_fence_acquire()`: `__dmb();` -/
def mem_fence_acquire (s : CoreState) : CoreState := dmb s

/-- `__mem_fence_release()`: `__dmb();` -/
def mem_fence_release (s : CoreState) : CoreState := dmb s

/-- `save_and_disable_interrupts()`: `mrs %0, PRIMASK` then `cpsid i`; returns
the value read. -/
def save_and_disable_interrupts (s : CoreState) : Nat × CoreState :=
  let status := s.primask
  (status,
    { s with
      primask := 1
      trace := s.trace ++ [SyncEvent.mrs_primask status, SyncEvent.cpsid_i] })

/-- `restore_interrupts(status)`: `msr PRIMASK, %0`.  PRIMASK has one bit, taken
from bit 0 of the operand. -/
def restore_interrupts (s : CoreState) (status : Nat) : CoreState :=
  { s with primask := status % 2, trace := s.trace ++ [SyncEvent.msr_primask status] }

/-- `spin_lock_unsafe_blocking(lock)`:
`while (__builtin_expect(!*lock, 0)); __mem_fence_acquire();`
`hw n` is the value the `n`-th load of the lock register returns to this core;
the first argument bounds the number of loads, and `none` means the bound was
reached while still spinning. -/
def spin_lock_unsafe_blocking (hw : Nat → Nat) : Nat → CoreState → Option CoreState
  | 0, _ => none
  | fuel + 1, s =>
    let v := hw s.lockLoads
    let s1 := { s with lockLoads := s.lockLoads + 1,
                       trace := s.trace ++ [SyncEvent.lock_load v] }
    if v = 0 then spin_lock_unsafe_blocking hw fuel s1
    else some (mem_fence_acquire s1)

/-- `spin_unlock_unsafe(lock)`: `__mem_fence_release(); *lock = 0;` -/
def spin_unlock_unsafe (s : CoreState) : CoreState :=
  let s1 := mem_fence_release s
  { s1 with trace := s1.trace ++ [SyncEvent.lock_store 0] }

/-- `spin_lock_blocking(lock)`:
`uint32_t save = save_and_disable_interrupts(); spin_lock_unsafe_blocking(lock); return save;` -/
def spin_lock_blocking (hw : Nat → Nat) (fuel : Nat) (s : CoreState) :
    Option (Nat × CoreState) :=
  let (save, s1) := save_and_disable_interrupts s
  match spin_lock_unsafe_blocking hw fuel s1 with
  | none => none
  | some s2 => some (save, s2)

/-- `spin_unlock(lock, saved_irq)`:
`spin_unlock_unsafe(lock); restore_interrupts(saved_irq);` -/
def spin_unlock (s : CoreState) (saved_irq : Nat) : CoreState :=
  restore_interrupts ( spin_unlock_unsafe s) saved_irq

/-- The values stored to the lock register in a trace, oldest first. -/
def lockStores : List SyncEvent → List Nat
  | [] => []
  | SyncEvent.lock_store v :: rest => v :: lockStores rest
  | _ :: rest => lockStores rest

/-! ### hardware_sync: one spin lock shared by two cores -/

/-- What a core can do next to the shared lock: call
`spin_lock_unsafe_blocking`, make the next load `*lock` of its spin loop, or
call `spin_unlock_unsafe` (its store `*lock = 0`). -/
inductive LockAction where
  | call_lock
  | load_lock
  | unlock
deriving DecidableEq, Repr

/-- The hardware lock register: a load returns `tok` when the lock is free and
0 when it is taken, and leaves the lock taken. -/
def lockRegLoad (tok : Nat) (free : Bool) : Nat × Bool :=
  (if free then tok else 0, false)

/-- Where a core is: outside the two functions, in the state `st`; or inside
`spin_lock_unsafe_blocking`, which it called in the state `entry`, with the
values that its loads of `*lock` have returned since the call (oldest
first). -/
inductive CoreMode where
  | outside (st : CoreState)
  | in_lock (entry : CoreState) (loaded : List Nat)
deriving DecidableEq, Repr

/-- The values loaded since the call, as the load oracle of
`spin_lock_unsafe_blocking`: the load number `entry.lockLoads + i` of the core
returns the `i`-th of them. -/
def loadOracle (entry : CoreState) (loaded : List Nat) (n : Nat) : Nat :=
  loaded.getD (n - entry.lockLoads) 0

/-- `spin_lock_unsafe_blocking` run from its call over the loads made so far:
`some st` when the function has returned, in the state `st`; `none` when it is
still in its loop and needs another load. -/
def lock_progress (entry : CoreState) (loaded : List Nat) : Option CoreState :=
  spin_lock_unsafe_blocking (loadOracle entry loaded) loaded.length entry

/-- One spin lock and two cores, named `false` and `true`.  `free` is the state
of the hardware lock, `core c` says where core `c` is, and `returned c` says
that core `c` has returned from `spin_lock_unsafe_blocking` and neither core has
called `spin_unlock_unsafe` since. -/
structure LockSys where
  free : Bool
  core : Bool → CoreMode
  returned : Bool → Bool

/-- Core `c` moves to `m`. -/
def LockSys.setCore (s : LockSys) (c : Bool) (m : CoreMode) : LockSys :=
  { s with core := fun d => if d = c then m else s.core d }

/-- Core `c`, inside `spin_lock_unsafe_blocking` called in the state `entry`,
goes on with the loads made so far: the function returns, or it stays in its
loop. -/
def LockSys.advance (s : LockSys) (c : Bool) (entry : CoreState) (loaded : List Nat) :
    LockSys :=
  match lock_progress entry loaded with
  | some st =>
    { s.setCore c (CoreMode.outside st) with
      returned := fun d => if d = c then true else s.returned d }
  | none => s.setCore c (CoreMode.in_lock entry loaded)

/-- One step of core `c`.  `call_lock` enters `spin_lock_unsafe_blocking`.
`load_lock` is the next load `*lock` of the function: the hardware gives the
value and the function goes on with it.  `unlock` is a call of
`spin_unlock_unsafe`, whose store to the lock register frees the lock.  A core
inside `spin_lock_unsafe_blocking` can only load; an action that is not
possible leaves the state as it is. -/
def LockSys.step (tok : Nat) (s : LockSys) (c : Bool) : LockAction → LockSys
  | LockAction.call_lock =>
    match s.core c with
    | CoreMode.outside st => s.advance c st []
    | CoreMode.in_lock _ _ => s
  | LockAction.load_lock =>
    match s.core c with
    | CoreMode.in_lock entry loaded =>
      let (v, free1) := lockRegLoad tok s.free
      LockSys.advance { s with free := free1 } c entry (loaded ++ [v])
    | CoreMode.outside _ => s
  | LockAction.unlock =>
    match s.core c with
    | CoreMode.outside st =>
      let st1 := spin_unlock_unsafe st
      let stores := lockStores (st1.trace.drop st.trace.length)
      LockSys.setCore
        { s with free := s.free || !stores.isEmpty, returned := fun _ => false }
        c (CoreMode.outside st1)
    | CoreMode.in_lock _ _ => s

/-- Run an interleaving: a list of (core, action) pairs, first step first. -/
def LockSys.run (tok : Nat) (s : LockSys) : List (Bool × LockAction) → LockSys
  | [] => s
  | (c, a) :: rest => LockSys.run tok (s.step tok c a) rest

/-- The start: both cores are outside the two functions, in the states `st0`
and `st1`, and neither has acquired the lock. -/
def LockSys.init (free : Bool) (st0 st1 : CoreState) : LockSys :=
  { free := free
    core := fun c => if c then CoreMode.outside st1 else CoreMode.outside st0
    returned := fun _ => false }

/-- The invariant behind mutual exclusion: a core that has returned from
`spin_lock_unsafe_blocking` with no unlock since keeps the hardware lock taken,
at most one core is in that position, and a core inside the spin loop has
loaded only zeros. -/
def LockSys.Inv (s : LockSys) : Prop :=
  (∀ c, s.returned c = true → s.free = false)
  ∧ (∀ c d, s.returned c = true → s.returned d = true → c = d)
  ∧ (∀ c entry loaded, s.core c = CoreMode.in_lock entry loaded → ∀ v ∈ loaded, v = 0)

/-! ### hardware_irq: `irq.h`, priority constants -/

/-- `#define PICO_DEFAULT_IRQ_PRIORITY 0x80` -/
def PICO_DEFAULT_IRQ_PRIORITY : Nat := 0x80

/-- `#define PICO_LOWEST_IRQ_PRIORITY 0xff` -/
def PICO_LOWEST_IRQ_PRIORITY : Nat := 0xff

/-- `#define PICO_HIGHEST_IRQ_PRIORITY 0x00` -/
def PICO_HIGHEST_IRQ_PRIORITY : Nat := 0x00

/-- `#define PICO_SHARED_IRQ_HANDLER_DEFAULT_ORDER_PRIORITY 0x80` -/
def PICO_SHARED_IRQ_HANDLER_DEFAULT_ORDER_PRIORITY : Nat := 0x80

/-- `#define PICO_SHARED_IRQ_HANDLER_HIGHEST_ORDER_PRIORITY 0xff` -/
def PICO_SHARED_IRQ_HANDLER_HIGHEST_ORDER_PRIORITY : Nat := 0xff

/-- `#define PICO_SHARED_IRQ_HANDLER_LOWEST_ORDER_PRIORITY 0x00` -/
def PICO_SHARED_IRQ_HANDLER_LOWEST_ORDER_PRIORITY : Nat := 0x00

/-! ### hardware_sync: `sync.h`, spin lock numbering -/

/-- `#define PICO_SPINLOCK_ID_IRQ 9` -/
def PICO_SPINLOCK_ID_IRQ : Nat := 9

/-- `#define PICO_SPINLOCK_ID_TIMER 10` -/
def PICO_SPINLOCK_ID_TIMER : Nat := 10

/-- `#define PICO_SPINLOCK_ID_HARDWARE_CLAIM 11` -/
def PICO_SPINLOCK_ID_HARDWARE_CLAIM : Nat := 11

/-- `#define PICO_SPINLOCK_ID_RAND 12` -/
def PICO_SPINLOCK_ID_RAND : Nat := 12

/-- `#define PICO_SPINLOCK_ID_OS1 14` -/
def PICO_SPINLOCK_ID_OS1 : Nat := 14

/-- `#define PICO_SPINLOCK_ID_OS2 15` -/
def PICO_SPINLOCK_ID_OS2 : Nat := 15

/-- `#define PICO_SPINLOCK_ID_STRIPED_FIRST 16` -/
def PICO_SPINLOCK_ID_STRIPED_FIRST : Nat := 16

/-- `#define PICO_SPINLOCK_ID_STRIPED_LAST 23` -/
def PICO_SPINLOCK_ID_STRIPED_LAST : Nat := 23

/-- `#define PICO_SPINLOCK_ID_CLAIM_FREE_FIRST 24` -/
def PICO_SPINLOCK_ID_CLAIM_FREE_FIRST : Nat := 24

/-- `#define PICO_SPINLOCK_ID_CLAIM_FREE_LAST 31` -/
def PICO_SPINLOCK_ID_CLAIM_FREE_LAST : Nat := 31

/-- The individually reserved spin lock IDs, in the order of `sync.h`. -/
def reservedSpinLockIds : List Nat :=
  [PICO_SPINLOCK_ID_IRQ, PICO_SPINLOCK_ID_TIMER, PICO_SPINLOCK_ID_HARDWARE_CLAIM,
   PICO_SPINLOCK_ID_RAND, PICO_SPINLOCK_ID_OS1, PICO_SPINLOCK_ID_OS2]

/-- Constants used by `spin_lock_instance` and `spin_lock_get_num` that are
defined in `hardware/regs/addressmap.h`, `hardware/regs/sio.h` and the platform
headers, outside the files embedded here: they are parameters of the model. -/
structure SioConsts where
  SIO_BASE : Nat
  SIO_SPINLOCK0_OFFSET : Nat
  NUM_SPIN_LOCKS : Nat
deriving DecidableEq, Repr

/-- The spin lock registers are word aligned from the start of the SIO block,
the address just after the last of them is a 32-bit address, and the block of
lock registers is not longer than the largest positive `ptrdiff_t`. -/
def SioConsts.Layout (c : SioConsts) : Prop :=
  c.SIO_SPINLOCK0_OFFSET % 4 = 0
  ∧ c.SIO_BASE + c.SIO_SPINLOCK0_OFFSET + c.NUM_SPIN_LOCKS * 4 < 2 ^ 32
  ∧ c.NUM_SPIN_LOCKS * 4 ≤ 2 ^ 31

instance (c : SioConsts) : Decidable c.Layout := by
  unfold SioConsts.Layout
  infer_instance

/-- `sizeof(spin_lock_t)`; `is_spin_locked` asserts `check_hw_size(spin_lock_t, 4)`. -/
def sizeof_spin_lock_t : Nat := 4

/-- `spin_lock_instance(lock_num)`:
`invalid_params_if(SYNC, lock_num >= NUM_SPIN_LOCKS);
 return (spin_lock_t *) (SIO_BASE + SIO_SPINLOCK0_OFFSET + lock_num * 4);`
The pointer is its 32-bit address.  `paramAssertions` is
`PARAM_ASSERTIONS_ENABLED_SYNC`; a failing check stops the program (`none`). -/
def spin_lock_instance (paramAssertions : Bool) (c : SioConsts) (lock_num : Nat) : Option Nat :=
  if paramAssertions = true ∧ lock_num ≥ c.NUM_SPIN_LOCKS then none
  else some ((c.SIO_BASE + c.SIO_SPINLOCK0_OFFSET + lock_num * 4) % 2 ^ 32)

/-- The three conditions of the `invalid_params_if` of `spin_lock_get_num`, in
32-bit unsigned arithmetic:
`(uint) lock < SIO_BASE + SIO_SPINLOCK0_OFFSET`,
`(uint) lock >= NUM_SPIN_LOCKS * sizeof(spin_lock_t) + SIO_BASE + SIO_SPINLOCK0_OFFSET`,
`((uint) lock - SIO_BASE + SIO_SPINLOCK0_OFFSET) % sizeof(spin_lock_t) != 0`. -/
def spin_lock_get_num_invalid (c : SioConsts) (lock : Nat) : Bool × Bool × Bool :=
  (decide (lock < (c.SIO_BASE + c.SIO_SPINLOCK0_OFFSET) % 2 ^ 32),
   decide (lock ≥ (c.NUM_SPIN_LOCKS * sizeof_spin_lock_t + c.SIO_BASE
              + c.SIO_SPINLOCK0_OFFSET) % 2 ^ 32),
   decide (((lock + 2 ^ 32 - c.SIO_BASE % 2 ^ 32 + c.SIO_SPINLOCK0_OFFSET) % 2 ^ 32)
              % sizeof_spin_lock_t ≠ 0))

/-- The difference of two pointers to `spin_lock_t` on the 32-bit target, as
the `uint` it is converted to: the difference of the two addresses is taken in
32 bits and read as a signed value (`ptrdiff_t`), divided by
`sizeof(spin_lock_t)` (the division of C, which truncates toward zero), and the
quotient is converted to a 32-bit unsigned value. -/
def spin_lock_ptr_diff (lock base : Nat) : Nat :=
  let d := (lock % 2 ^ 32 + 2 ^ 32 - base % 2 ^ 32) % 2 ^ 32
  if d < 2 ^ 31 then d / sizeof_spin_lock_t
  else (2 ^ 32 - (2 ^ 32 - d) / sizeof_spin_lock_t) % 2 ^ 32

/-- `spin_lock_get_num(lock)`: the parameter check, then
`return (uint) (lock - (spin_lock_t *) (SIO_BASE + SIO_SPINLOCK0_OFFSET));` -/
def spin_lock_get_num (paramAssertions : Bool) (c : SioConsts) (lock : Nat) : Option Nat :=
  let bad := spin_lock_get_num_invalid c lock
  if paramAssertions = true ∧ (bad.1 || bad.2.1 || bad.2.2) = true then none
  else some (spin_lock_ptr_diff lock ((c.SIO_BASE + c.SIO_SPINLOCK0_OFFSET) % 2 ^ 32))

/-- The RP2040 values of the SIO constants, used for concrete evaluation. -/
def rp2040Sio : SioConsts :=
  { SIO_BASE := 0xd0000000, SIO_SPINLOCK0_OFFSET := 0x100, NUM_SPIN_LOCKS := 32 }

/-! ### pico_stdlib: `stdlib.h`, `set_sys_clock_khz` -/

/-- What a call of `set_sys_clock_khz` ends in: it returns a value, or the
program stops in `panic`. -/
inductive CallOutcome (α : Type) where
  | returned (a : α)
  | panicked
deriving DecidableEq, Repr

/-- A call `set_sys_clock_pll(vco_freq, post_div1, post_div2)`. -/
structure PllCall where
  vco_freq : Nat
  post_div1 : Nat
  post_div2 : Nat
deriving DecidableEq, Repr

/-- `set_sys_clock_khz(freq_khz, required)`.
`check_sys_clock_khz` is only declared in `stdlib.h`: it is a parameter, giving
its result and the three values it leaves in `vco`, `postdiv1`, `postdiv2`.
`set_sys_clock_pll` is only declared as well: a call of it is recorded.  The
value returned comes with the list of `set_sys_clock_pll` calls made. -/
def set_sys_clock_khz (check_sys_clock_khz : Nat → Bool × Nat × Nat × Nat)
    (freq_khz : Nat) (required : Bool) : CallOutcome (Bool × List PllCall) :=
  let (ok, vco, postdiv1, postdiv2) := check_sys_clock_khz freq_khz
  if ok then
    CallOutcome.returned (true, [⟨vco, postdiv1, postdiv2⟩])
  else if required then
    CallOutcome.panicked
  else
    CallOutcome.returned (false, [])

/-! ### pico_async_context: `async_context.h`, the inline wrappers -/

/-- `async_at_time_worker_t` (`struct async_work_on_timeout`).  Pointers are
addresses and `next_time` is an `absolute_time_t`. -/
structure async_at_time_worker_t where
  next : Nat
  do_work : Nat
  next_time : Nat
  user_data : Nat
deriving DecidableEq, Repr

/-- The memory the wrappers and a backend work on: the at-time workers by
address, and everything else (contexts, worker lists, the backend's own data). -/
structure AsyncMem (β : Type) where
  at_time_workers : Nat → async_at_time_worker_t
  rest : β

/-- `async_context_type_t`: the functions of a backend.  `self`, workers and
the function given to `execute_sync` are addresses; each function gets the
memory and gives back the memory it leaves.  `poll` may be NULL (`none`). -/
structure async_context_type_t (β : Type) where
  type : Nat
  acquire_lock_blocking : Nat → AsyncMem β → AsyncMem β
  release_lock : Nat → AsyncMem β → AsyncMem β
  lock_check : Nat → AsyncMem β → AsyncMem β
  execute_sync : Nat → Nat → Nat → AsyncMem β → Nat × AsyncMem β
  add_at_time_worker : Nat → Nat → AsyncMem β → Bool × AsyncMem β
  remove_at_time_worker : Nat → Nat → AsyncMem β → Bool × AsyncMem β
  add_when_pending_worker : Nat → Nat → AsyncMem β → Bool × AsyncMem β
  remove_when_pending_worker : Nat → Nat → AsyncMem β → Bool × AsyncMem β
  set_work_pending : Nat → Nat → AsyncMem β → AsyncMem β
  poll : Option (Nat → AsyncMem β → AsyncMem β)
  wait_until : Nat → Nat → AsyncMem β → AsyncMem β
  wait_for_work_until : Nat → Nat → AsyncMem β → AsyncMem β
  deinit : Nat → AsyncMem β → AsyncMem β

/-- A call of a backend function made by a wrapper, with its arguments. -/
inductive BackendCall where
  | add_at_time_worker (self worker : Nat)
  | poll (self : Nat)
  | wait_for_work_until (self until_time : Nat)
deriving DecidableEq, Repr

/-- The store `worker->next_time = at;`. -/
def AsyncMem.store_next_time {β : Type} (m : AsyncMem β) (worker at_ : Nat) : AsyncMem β :=
  { m with
    at_time_workers := fun w =>
      if w = worker then { m.at_time_workers worker with next_time := at_ }
      else m.at_time_workers w }

/-- `async_context_add_at_time_worker(context, worker)`:
`return context->type->add_at_time_worker(context, worker);`
`t` is `context->type`.  The result comes with the backend calls made. -/
def async_context_add_at_time_worker {β : Type} (t : async_context_type_t β)
    (context worker : Nat) (m : AsyncMem β) : List BackendCall × Bool × AsyncMem β :=
  ([BackendCall.add_at_time_worker context worker], t.add_at_time_worker context worker m)

/-- `async_context_add_at_time_worker_at(context, worker, at)`:
`worker->next_time = at; return context->type->add_at_time_worker(context, worker);` -/
def async_context_add_at_time_worker_at {β : Type} (t : async_context_type_t β)
    (context worker at_ : Nat) (m : AsyncMem β) : List BackendCall × Bool × AsyncMem β :=
  let m1 := m.store_next_time worker at_
  ([BackendCall.add_at_time_worker context worker], t.add_at_time_worker context worker m1)

/-- `async_context_poll(context)`:
`if (context->type->poll) context->type->poll(context);` -/
def async_context_poll {β : Type} (t : async_context_type_t β) (context : Nat)
    (m : AsyncMem β) : List BackendCall × AsyncMem β :=
  match t.poll with
  | none => ([], m)
  | some poll => ([BackendCall.poll context], poll context m)

/-- A backend for concrete evaluation.  It keeps the addresses of the
registered at-time workers: adding a worker that is in the list is refused
with nothing changed, any other worker is put in front.  Its `poll` is NULL
when `polled` is false and otherwise counts its calls in the `type` slot of the
list (a number put in front).  The other functions do nothing. -/
def listBackend (polled : Bool) : async_context_type_t (List Nat) :=
  { type := 1
    acquire_lock_blocking := fun _ m => m
    release_lock := fun _ m => m
    lock_check := fun _ m => m
    execute_sync := fun _ _ _ m => (0, m)
    add_at_time_worker := fun _ worker m =>
      if worker ∈ m.rest then (false, m) else (true, { m with rest := worker :: m.rest })
    remove_at_time_worker := fun _ worker m =>
      if worker ∈ m.rest then (true, { m with rest := m.rest.erase worker }) else (false, m)
    add_when_pending_worker := fun _ _ m => (false, m)
    remove_when_pending_worker := fun _ _ m => (false, m)
    set_work_pending := fun _ _ m => m
    poll := if polled then some (fun self m => { m with rest := self :: m.rest }) else none
    wait_until := fun _ _ m => m
    wait_for_work_until := fun _ _ m => m
    deinit := fun _ m => m }

/-- A memory for concrete evaluation: every at-time worker has the deadline
`deadline`, and the workers in `registered` are in the backend's list. -/
def asyncMemAt (deadline : Nat) (registered : List Nat) : AsyncMem (List Nat) :=
  { at_time_workers := fun _ => ⟨0, 0, deadline, 0⟩, rest := registered }

/-! ### hardware_spi: `spi.c`, the blocking transfers -/

/-- `spi_is_writable(spi)`: `return (spi_get_const_hw(spi)->sr & SPI_SSPSR_TNF_BITS);`
as a `bool`, given the value read from SR. -/
def spi_is_writable (k : SpiConsts) (sr : Nat) : Bool :=
  decide (sr &&& k.SPI_SSPSR_TNF_BITS ≠ 0)

/-- `spi_is_readable(spi)`: `return (spi_get_const_hw(spi)->sr & SPI_SSPSR_RNE_BITS);`
as a `bool`, given the value read from SR. -/
def spi_is_readable (k : SpiConsts) (sr : Nat) : Bool :=
  decide (sr &&& k.SPI_SSPSR_RNE_BITS ≠ 0)

/-- The local state of a write/read transfer: the two counters, how far `src`
has advanced, how many loads of SR and of DR have been made, the values stored
to DR and the values stored through `dst` (oldest first). -/
structure SpiXfer where
  tx_remaining : Nat
  rx_remaining : Nat
  src_pos : Nat
  sr_loads : Nat
  dr_loads : Nat
  dr_stores : List Nat
  dst : List Nat
deriving DecidableEq, Repr

/-- `const size_t fifo_depth = 8;` -/
def fifo_depth : Nat := 8

/-- The first statement of the loop body of `spi_write_read_blocking` and of
`spi_write16_read16_blocking`:
`if (tx_remaining && spi_is_writable(spi) && rx_remaining < tx_remaining + fifo_depth) {
     spi_get_hw(spi)->dr = (uint32_t) *src++; --tx_remaining; }`
`sr n` is the value the `n`-th load of SR returns and `src i` is `src[i]`.  SR
is loaded only when `tx_remaining` is non-zero, and the sum
`tx_remaining + fifo_depth` is a 32-bit `size_t`. -/
def spi_write_step (k : SpiConsts) (sr src : Nat → Nat) (s : SpiXfer) : SpiXfer :=
  if s.tx_remaining ≠ 0 then
    let writable := spi_is_writable k (sr s.sr_loads)
    let s0 := { s with sr_loads := s.sr_loads + 1 }
    if writable = true ∧ s0.rx_remaining < (s0.tx_remaining + fifo_depth) % 2 ^ 32 then
      { s0 with dr_stores := s0.dr_stores ++ [src s0.src_pos]
                src_pos := s0.src_pos + 1
                tx_remaining := s0.tx_remaining - 1 }
    else s0
  else s

/-- The second statement of the loop body (`cast` = 256 for the `uint8_t` of
`spi_write_read_blocking`, 65536 for the `uint16_t` of
`spi_write16_read16_blocking`):
`if (rx_remaining && spi_is_readable(spi)) {
     *dst++ = (uint8_t) spi_get_hw(spi)->dr; --rx_remaining; }`
`dr n` is the value the `n`-th load of DR returns.  SR is loaded only when
`rx_remaining` is non-zero. -/
def spi_read_step (k : SpiConsts) (cast : Nat) (sr dr : Nat → Nat) (s : SpiXfer) : SpiXfer :=
  if s.rx_remaining ≠ 0 then
    let readable := spi_is_readable k (sr s.sr_loads)
    let s0 := { s with sr_loads := s.sr_loads + 1 }
    if readable = true then
      { s0 with dst := s0.dst ++ [dr s0.dr_loads % cast]
                dr_loads := s0.dr_loads + 1
                rx_remaining := s0.rx_remaining - 1 }
    else s0
  else s

/-- The body of the loop: the two statements in order. -/
def spi_write_read_body (k : SpiConsts) (cast : Nat) (sr dr src : Nat → Nat)
    (s : SpiXfer) : SpiXfer :=
  spi_read_step k cast sr dr (spi_write_step k sr src s)

/-- The loop `while (rx_remaining || tx_remaining) { ... }`.  The first
argument bounds the number of iterations; `none` means the bound was reached
with the loop still running. -/
def spi_write_read_loop (k : SpiConsts) (cast : Nat) (sr dr src : Nat → Nat) :
    Nat → SpiXfer → Option SpiXfer
  | 0, _ => none
  | fuel + 1, s =>
    if s.rx_remaining ≠ 0 ∨ s.tx_remaining ≠ 0 then
      spi_write_read_loop k cast sr dr src fuel (spi_write_read_body k cast sr dr src s)
    else some s

/-- The state of the loop after `n` iterations (or at its end, if it ends
before that). -/
def spi_write_read_after (k : SpiConsts) (cast : Nat) (sr dr src : Nat → Nat) :
    Nat → SpiXfer → SpiXfer
  | 0, s => s
  | n + 1, s =>
    if s.rx_remaining ≠ 0 ∨ s.tx_remaining ≠ 0 then
      spi_write_read_after k cast sr dr src n (spi_write_read_body k cast sr dr src s)
    else s

/-- `size_t rx_remaining = len, tx_remaining = len;` -/
def spiXferStart (len : Nat) : SpiXfer :=
  { tx_remaining := len, rx_remaining := len, src_pos := 0, sr_loads := 0, dr_loads := 0,
    dr_stores := [], dst := [] }

/-- The conversion `(int) len` of a 32-bit `size_t`. -/
def int_of_size_t (len : Nat) : Int :=
  if len % 2 ^ 32 < 2 ^ 31 then (len % 2 ^ 32 : Nat) else (len % 2 ^ 32 : Nat) - 2 ^ 32

/-- `INT_MAX` for a 32-bit `int`. -/
def INT_MAX : Nat := 2 ^ 31 - 1

/-- `int spi_write_read_blocking(spi, src, dst, len)`: the value returned and the
final local state.  `none` means that the call does not return within `fuel`
iterations, or that the parameter assertion `invalid_params_if(SPI, 0 > (int)len)`
(compiled in when `paramAssertions`) stopped the program. -/
def spi_write_read_blocking (paramAssertions : Bool) (k : SpiConsts) (sr dr src : Nat → Nat)
    (len fuel : Nat) : Option (Int × SpiXfer) :=
  if paramAssertions = true ∧ 0 > int_of_size_t len then none
  else
    match spi_write_read_loop k 256 sr dr src fuel (spiXferStart len) with
    | none => none
    | some s => some (int_of_size_t len, s)

/-- `int spi_write16_read16_blocking(spi, src, dst, len)`: as
`spi_write_read_blocking`, with halfwords. -/
def spi_write16_read16_blocking (paramAssertions : Bool) (k : SpiConsts)
    (sr dr src : Nat → Nat) (len fuel : Nat) : Option (Int × SpiXfer) :=
  if paramAssertions = true ∧ 0 > int_of_size_t len then none
  else
    match spi_write_read_loop k 65536 sr dr src fuel (spiXferStart len) with
    | none => none
    | some s => some (int_of_size_t len, s)

/-- What holds of the local state throughout a transfer of `len` items. -/
def SpiXfer.Inv (cast : Nat) (dr src : Nat → Nat) (len : Nat) (s : SpiXfer) : Prop :=
  s.tx_remaining + s.dr_stores.length = len
  ∧ s.rx_remaining + s.dst.length = len
  ∧ s.src_pos = s.dr_stores.length
  ∧ s.dr_loads = s.dst.length
  ∧ s.dr_stores = (List.range s.src_pos).map src
  ∧ s.dst = (List.range s.dr_loads).map (fun i => dr i % cast)
  ∧ s.rx_remaining ≤ s.tx_remaining + fifo_depth

/-! ### hardware_resets: `resets.h`, and hardware_spi: `spi_init` -/

/-- Reset bits defined in `hardware/regs/resets.h`, outside the files embedded
here: they are parameters of the model. -/
structure ResetsConsts where
  RESETS_RESET_SPI0_BITS : Nat
  RESETS_RESET_SPI1_BITS : Nat
deriving DecidableEq, Repr

/-- The registers of `resets_hw` that the reset functions use: the read-write
register `reset`, and the number of loads made of the read-only `reset_done`. -/
structure ResetsHw where
  reset : IoReg
  reset_done_loads : Nat
deriving DecidableEq, Repr

/-- `reset_block(bits)`: `hw_set_bits(&resets_hw->reset, bits);` -/
def reset_block (am : AddressMap) (r : ResetsHw) (bits : Nat) : ResetsHw :=
  { r with reset := hw_set_bits am r.reset r.reset.addr bits }

/-- `unreset_block(bits)`: `hw_clear_bits(&resets_hw->reset, bits);` -/
def unreset_block (am : AddressMap) (r : ResetsHw) (bits : Nat) : ResetsHw :=
  { r with reset := hw_clear_bits am r.reset r.reset.addr bits }

/-- The loop `while (~resets_hw->reset_done & bits) tight_loop_contents();`.
`done n` is the value the `n`-th load of `reset_done` returns; the first
argument bounds the number of loads, and `none` means the bound was reached
while still waiting. -/
def unreset_wait_loop (done : Nat → Nat) (bits : Nat) : Nat → ResetsHw → Option ResetsHw
  | 0, _ => none
  | fuel + 1, r =>
    let v := done r.reset_done_loads
    let r1 := { r with reset_done_loads := r.reset_done_loads + 1 }
    if not32 v &&& bits ≠ 0 then unreset_wait_loop done bits fuel r1
    else some r1

/-- `unreset_block_wait(bits)`:
`hw_clear_bits(&resets_hw->reset, bits);
 while (~resets_hw->reset_done & bits) tight_loop_contents();` -/
def unreset_block_wait (am : AddressMap) (done : Nat → Nat) (fuel : Nat) (r : ResetsHw)
    (bits : Nat) : Option ResetsHw :=
  unreset_wait_loop done bits fuel (unreset_block am r bits)

/-- The two SPI instances `spi0` and `spi1`. -/
inductive spi_inst_t where
  | spi0
  | spi1
deriving DecidableEq, Repr

/-- `spi_reset(spi)`:
`reset_block(spi == spi0 ? RESETS_RESET_SPI0_BITS : RESETS_RESET_SPI1_BITS);`
The check `invalid_params_if(SPI, spi != spi0 && spi != spi1)` cannot fail for
the two instances. -/
def spi_reset (am : AddressMap) (rk : ResetsConsts) (r : ResetsHw) (spi : spi_inst_t) :
    ResetsHw :=
  reset_block am r
    (if spi = spi_inst_t.spi0 then rk.RESETS_RESET_SPI0_BITS else rk.RESETS_RESET_SPI1_BITS)

/-- `spi_unreset(spi)`:
`unreset_block_wait(spi == spi0 ? RESETS_RESET_SPI0_BITS : RESETS_RESET_SPI1_BITS);` -/
def spi_unreset (am : AddressMap) (rk : ResetsConsts) (done : Nat → Nat) (fuel : Nat)
    (r : ResetsHw) (spi : spi_inst_t) : Option ResetsHw :=
  unreset_block_wait am done fuel r
    (if spi = spi_inst_t.spi0 then rk.RESETS_RESET_SPI0_BITS else rk.RESETS_RESET_SPI1_BITS)

/-- `SPI_CPHA_0 = 0` -/
def SPI_CPHA_0 : Nat := 0

/-- `SPI_CPHA_1 = 1` -/
def SPI_CPHA_1 : Nat := 1

/-- `SPI_CPOL_0 = 0` -/
def SPI_CPOL_0 : Nat := 0

/-- `SPI_CPOL_1 = 1` -/
def SPI_CPOL_1 : Nat := 1

/-- `SPI_LSB_FIRST = 0` -/
def SPI_LSB_FIRST : Nat := 0

/-- `SPI_MSB_FIRST = 1` -/
def SPI_MSB_FIRST : Nat := 1

/-- `spi_set_format(spi, data_bits, cpol, cpha, order)`.  The four
`invalid_params_if` checks stop the program (`none`) when `paramAssertions` is
on.  The value written is computed in 32-bit unsigned arithmetic. -/
def spi_set_format (paramAssertions : Bool) (am : AddressMap) (k : SpiConsts) (spi : SpiHw)
    (data_bits cpol cpha order : Nat) : Option SpiHw :=
  if paramAssertions = true ∧ (data_bits < 4 ∨ data_bits > 16) then none
  else if paramAssertions = true ∧ order ≠ SPI_MSB_FIRST then none
  else if paramAssertions = true ∧ (cpol ≠ SPI_CPOL_0 ∧ cpol ≠ SPI_CPOL_1) then none
  else if paramAssertions = true ∧ (cpha ≠ SPI_CPHA_0 ∧ cpha ≠ SPI_CPHA_1) then none
  else
    -- Disable the SPI
    let (cr1v, cr1a) := spi.cr1.load spi.cr1.addr
    let enable_mask := cr1v &&& k.SPI_SSPCR1_SSE_BITS
    let cr1b := hw_clear_bits am cr1a spi.cr1.addr k.SPI_SSPCR1_SSE_BITS
    let cr0a := hw_write_masked am spi.cr0 spi.cr0.addr
      ((((data_bits + 2 ^ 32 - 1) % 2 ^ 32) <<< k.SPI_SSPCR0_DSS_LSB) % 2 ^ 32
        ||| (cpol <<< k.SPI_SSPCR0_SPO_LSB) % 2 ^ 32
        ||| (cpha <<< k.SPI_SSPCR0_SPH_LSB) % 2 ^ 32)
      (k.SPI_SSPCR0_DSS_BITS ||| k.SPI_SSPCR0_SPO_BITS ||| k.SPI_SSPCR0_SPH_BITS)
    -- Re-enable the SPI
    let cr1c := hw_set_bits am cr1b spi.cr1.addr enable_mask
    some { spi with cr0 := cr0a, cr1 := cr1c }

/-- The reset bit of an SPI instance in `RESETS.reset`, as `spi_reset` and
`spi_unreset` choose it:
`spi == spi0 ? RESETS_RESET_SPI0_BITS : RESETS_RESET_SPI1_BITS`. -/
def spi_reset_bits (rk : ResetsConsts) (spi : spi_inst_t) : Nat :=
  if spi = spi_inst_t.spi0 then rk.RESETS_RESET_SPI0_BITS else rk.RESETS_RESET_SPI1_BITS

/-- The values the registers of an SPI block hold when the block is in reset
and when it comes out of it.  The hardware fixes them, not the files embedded
here: they are parameters of the model. -/
structure SpiResetValues where
  cr0 : Nat
  cr1 : Nat
  cpsr : Nat
  dmacr : Nat
deriving DecidableEq, Repr

/-- The reset controller acting on an SPI block: when the reset bits of the
block are set in `RESETS.reset`, the block is held in reset and its registers
take their reset values, whatever they held before; otherwise they are left as
they are.  The bus accesses made so far stay on record. -/
def spi_held_in_reset (bits : Nat) (r : ResetsHw) (rst : SpiResetValues) (spi : SpiHw) :
    SpiHw :=
  if r.reset.val &&& bits = bits then
    { cr0 := { spi.cr0 with val := rst.cr0 }
      cr1 := { spi.cr1 with val := rst.cr1 }
      cpsr := { spi.cpsr with val := rst.cpsr }
      dmacr := { spi.dmacr with val := rst.dmacr } }
  else spi

/-- Two registers at the same address with the same contents (their records of
bus accesses may differ). -/
def IoReg.Same (a b : IoReg) : Prop := a.addr = b.addr ∧ a.val = b.val

/-- Two SPI blocks at the same addresses with the same register contents. -/
def SpiHw.Same (a b : SpiHw) : Prop :=
  a.cr0.Same b.cr0 ∧ a.cr1.Same b.cr1 ∧ a.cpsr.Same b.cpsr ∧ a.dmacr.Same b.dmacr

/-- `uint spi_init(spi_inst_t *spi, uint baudrate)`.  `spi` holds the registers
of the block before the call and `rst` the values the hardware gives them in
reset; `done` and `fuel` are those of `unreset_block_wait`, `freq_in` is
`clock_get_hz(clk_peri)`.  The result is the reset registers, the SPI registers
and the value returned; `none` means that the call does not return. -/
def spi_init (paramAssertions : Bool) (am : AddressMap) (k : SpiConsts) (rk : ResetsConsts)
    (freq_in : Nat) (done : Nat → Nat) (fuel : Nat) (rst : SpiResetValues) (inst : spi_inst_t)
    (r : ResetsHw) (spi : SpiHw) (baudrate : Nat) : Option (ResetsHw × SpiHw × Nat) :=
  let r1 := spi_reset am rk r inst
  -- the hardware holds the block in reset
  let spi0 := spi_held_in_reset (spi_reset_bits rk inst) r1 rst spi
  match spi_unreset am rk done fuel r1 inst with
  | none => none
  | some r2 =>
    match spi_set_baudrate paramAssertions am k freq_in spi0 baudrate with
    | none => none
    | some (spi1, baud) =>
      match spi_set_format paramAssertions am k spi1 8 SPI_CPOL_0 SPI_CPHA_0 SPI_MSB_FIRST with
      | none => none
      | some spi2 =>
        -- Always enable DREQ signals -- harmless if DMA is not listening
        let dmacr1 := hw_set_bits am spi2.dmacr spi2.dmacr.addr
          (k.SPI_SSPDMACR_TXDMAE_BITS ||| k.SPI_SSPDMACR_RXDMAE_BITS)
        -- Finally enable the SPI
        let cr1a := hw_set_bits am spi2.cr1 spi2.cr1.addr k.SPI_SSPCR1_SSE_BITS
        some (r2, { spi2 with dmacr := dmacr1, cr1 := cr1a }, baud)

/-- The fields DSS, SPO and SPH of CR0: DSS is four bits wide, SPO and SPH are
one bit each, they lie inside the 32-bit register and DSS shares no bit with
SPO or SPH. -/
def SpiConsts.FormatFields (k : SpiConsts) : Prop :=
  k.SPI_SSPCR0_DSS_BITS = 0xf <<< k.SPI_SSPCR0_DSS_LSB ∧ k.SPI_SSPCR0_DSS_LSB ≤ 28
  ∧ k.SPI_SSPCR0_SPO_BITS = 1 <<< k.SPI_SSPCR0_SPO_LSB ∧ k.SPI_SSPCR0_SPO_LSB ≤ 31
  ∧ k.SPI_SSPCR0_SPH_BITS = 1 <<< k.SPI_SSPCR0_SPH_LSB ∧ k.SPI_SSPCR0_SPH_LSB ≤ 31
  ∧ k.SPI_SSPCR0_DSS_BITS &&& k.SPI_SSPCR0_SPO_BITS = 0
  ∧ k.SPI_SSPCR0_DSS_BITS &&& k.SPI_SSPCR0_SPH_BITS = 0

instance (k : SpiConsts) : Decidable k.FormatFields := by
  unfold SpiConsts.FormatFields
  infer_instance

/-- The RP2040 values of the reset bits, used for concrete evaluation. -/
def rp2040Resets : ResetsConsts :=
  { RESETS_RESET_SPI0_BITS := 0x10000, RESETS_RESET_SPI1_BITS := 0x20000 }

/-- The reset registers at the RP2040 address of `resets_hw->reset`, with the
given contents and nothing done yet. -/
def resetsAt (reset : Nat) : ResetsHw :=
  { reset := ⟨0x4000c000, reset, []⟩, reset_done_loads := 0 }

/-! ### pico_async_context: the context lock and the dispatch pass -/

/-- Modelled from the spec: what a party (a thread of control: code on the
owning core, an interrupt handler, the dispatch interrupt or task of a backend,
a foreign core or task) is doing with respect to one context.  The backends
that decide this (`async_context_poll.c`,
`async_context_threadsafe_background.c`, `async_context_freertos.c`,
`async_context_base.c`) are outside the files embedded here.  A party is
outside the context, suspended in `wait_until` or `wait_for_work_until`, inside
a dispatch pass between two callbacks (`timers` says that the pass has come to
the timed workers), inside the `do_work` of a when-pending worker or of an
at-time worker, or inside the function given to `execute_sync`. -/
inductive PartyMode where
  | outside
  | waiting (until_time : Nat)
  | dispatching (timers : Bool)
  | in_when_pending (worker : Nat)
  | in_at_time (worker : Nat)
  | in_sync (func : Nat)
deriving DecidableEq, Repr

/-- Inside a dispatch pass or a function run by the context. -/
def PartyMode.inside : PartyMode → Bool
  | PartyMode.dispatching _ => true
  | PartyMode.in_when_pending _ => true
  | PartyMode.in_at_time _ => true
  | PartyMode.in_sync _ => true
  | _ => false

/-- Executing a callback: the `do_work` of a worker or the function given to
`execute_sync`. -/
def PartyMode.in_callback : PartyMode → Bool
  | PartyMode.in_when_pending _ => true
  | PartyMode.in_at_time _ => true
  | PartyMode.in_sync _ => true
  | _ => false

/-- Inside the dispatch pass itself: between callbacks or in the `do_work` of a
worker. -/
def PartyMode.in_pass : PartyMode → Bool
  | PartyMode.dispatching _ => true
  | PartyMode.in_when_pending _ => true
  | PartyMode.in_at_time _ => true
  | _ => false

/-- Modelled from the spec: the calls a party can make on a context, the steps
of a dispatch pass, and the passing of time (sections 4.4 and 5 of the spec; the
backend sources are outside the files embedded here).  `backend_dispatch` is the
interrupt or task of a backend that dispatches on its own starting a pass;
`begin_when_pending`, `begin_at_time` and `end_callback` carry a pass through
worker by worker until `end_dispatch`; `end_execute_sync` is the return of the
function given to `execute_sync`; `wake` ends a wait; `tick` is time passing. -/
inductive CtxAction where
  | add_when_pending_worker (worker : Nat)
  | remove_when_pending_worker (worker : Nat)
  | set_work_pending (worker : Nat)
  | add_at_time_worker (worker next_time : Nat)
  | remove_at_time_worker (worker : Nat)
  | acquire_lock
  | release_lock
  | lock_check
  | execute_sync (func : Nat)
  | end_execute_sync
  | poll
  | backend_dispatch
  | begin_when_pending (worker : Nat)
  | begin_at_time (worker : Nat)
  | end_callback
  | end_dispatch
  | wait_until (until_time : Nat)
  | wait_for_work_until (until_time : Nat)
  | wake
  | tick
  | deinit
deriving DecidableEq, Repr

/-- Modelled from the spec: what is fixed when a context is made (sections 3,
4.5 and 5; the backend sources are outside the files embedded here): which
parties run on the core the context is bound to, which parties are interrupt
handlers, and whether the backend is the polling one (`poll` is then the
dispatch pass) or dispatches on its own. -/
structure CtxConfig where
  onOwningCore : Nat → Bool
  interrupt : Nat → Bool
  polled : Bool

/-- Modelled from the spec: the state of one context (section 3: "lock nesting
depth + owner identity; a collection of pending-work workers; a collection of
timed workers"; the backend sources are outside the files embedded here).
`alive` is false after `deinit`; `owner` and `depth` are the context lock;
`base` is the nesting depth at which the running dispatch pass, or the running
`execute_sync`, holds the lock; `when_pending_list` are the registered
when-pending workers and `pending` the workers whose pending flag is set;
`at_time_list` are the registered timed workers with their deadlines; `now` is
the time; `mode` says what each party is doing. -/
structure CtxSys where
  alive : Bool
  owner : Option Nat
  depth : Nat
  base : Nat
  when_pending_list : List Nat
  pending : List Nat
  at_time_list : List (Nat × Nat)
  now : Nat
  mode : Nat → PartyMode

/-- Set the mode of one party. -/
def CtxSys.setMode (s : CtxSys) (p : Nat) (m : PartyMode) : CtxSys :=
  { s with mode := fun q => if q = p then m else s.mode q }

/-- There is work to dispatch: a registered when-pending worker has its flag
set, or the deadline of a timed worker has elapsed. -/
def CtxSys.hasWork (s : CtxSys) : Bool :=
  s.when_pending_list.any (fun w => decide (w ∈ s.pending))
    || s.at_time_list.any (fun x => decide (x.2 ≤ s.now))

/-- The lock is free, or party `p` holds it. -/
def CtxSys.lockFreeFor (s : CtxSys) (p : Nat) : Bool :=
  decide (s.owner = none ∨ s.owner = some p)

/-- Party `p` may make a call of the API: the context is alive, and `p` is
inside a callback or is a party outside the context that is not an interrupt
handler. -/
def CtxSys.mayCall (cfg : CtxConfig) (s : CtxSys) (p : Nat) : Bool :=
  s.alive && ((s.mode p).in_callback
    || (!cfg.interrupt p && decide (s.mode p = PartyMode.outside)))

/-- Party `p` starts a dispatch pass: it takes the lock, nested when it holds
it already. -/
def CtxSys.beginPass (s : CtxSys) (p : Nat) : CtxSys :=
  CtxSys.setMode { s with owner := some p, depth := s.depth + 1, base := s.depth + 1 } p
    (PartyMode.dispatching false)

/-- Party `p` ends its dispatch pass or its `execute_sync` and gives up the
level of the lock taken for it. -/
def CtxSys.leave (s : CtxSys) (p : Nat) : CtxSys :=
  CtxSys.setMode
    { s with owner := if s.depth ≤ 1 then none else s.owner, depth := s.depth - 1 } p
    PartyMode.outside

/-- Modelled from the spec: one step of party `p` (sections 4.4 and 5; the
backend sources are outside the files embedded here).  A call that is not
permitted, or that has to wait (a lock held by another party), leaves the state
as it is.

* `add_when_pending_worker`, `add_at_time_worker`: reject (no mutation) if the
  worker is already registered.  `remove_...`: detach.  They may be called from
  a callback or from a context that is not an interrupt handler, and work under
  the lock.
* `set_work_pending`: callable from any context, including interrupt handlers;
  sets the flag; idempotent.
* `acquire_lock`: the lock is free or held by the caller; nests by a counter.
* `release_lock`: the caller holds the lock.  Inside a callback only a level
  acquired inside it can be released.  The outermost release on the owning
  core, with work to do, dispatches that work inline before the lock is given
  up.
* `lock_check`: assert-only.
* `execute_sync`: for code outside the context, not an interrupt handler, that
  does not hold the lock: the function runs under the lock, once the lock is
  free; `end_execute_sync` is its return.
* `poll`: a no-op for backends that dispatch on their own; for the polling
  backend this call is the dispatch pass.  `backend_dispatch`: the other
  backends start a pass from their interrupt or task.  A dispatch pass is always
  run under lock and always on the owning core.
* `begin_when_pending`: the pass invokes a pending worker whose flag is set,
  clearing the flag first; `begin_at_time`: then the pass invokes a timed worker
  whose deadline has elapsed, detached immediately before; once it has come to
  the timed workers it invokes no pending worker.
* `end_callback`: the callback returns, with the lock levels it took released.
* `end_dispatch`: the pass is over and gives up its level of the lock.
* `wait_until`, `wait_for_work_until`: suspend the caller until the time or
  until work appears (`wake`); not from inside a callback.
* `deinit`: from outside the context, once no pass is running: afterwards the
  context is dead and no callback runs again. -/
def CtxSys.step (cfg : CtxConfig) (s : CtxSys) (p : Nat) : CtxAction → CtxSys
  | CtxAction.add_when_pending_worker w =>
    if s.mayCall cfg p = true ∧ s.lockFreeFor p = true ∧ w ∉ s.when_pending_list then
      { s with when_pending_list := w :: s.when_pending_list }
    else s
  | CtxAction.remove_when_pending_worker w =>
    if s.mayCall cfg p = true ∧ s.lockFreeFor p = true then
      { s with when_pending_list := s.when_pending_list.erase w }
    else s
  | CtxAction.set_work_pending w =>
    if s.alive = true ∧ w ∉ s.pending then { s with pending := w :: s.pending } else s
  | CtxAction.add_at_time_worker w t =>
    if s.mayCall cfg p = true ∧ s.lockFreeFor p = true
        ∧ w ∉ s.at_time_list.map Prod.fst then
      { s with at_time_list := (w, t) :: s.at_time_list }
    else s
  | CtxAction.remove_at_time_worker w =>
    if s.mayCall cfg p = true ∧ s.lockFreeFor p = true then
      { s with at_time_list := s.at_time_list.filter (fun x => decide (x.1 ≠ w)) }
    else s
  | CtxAction.acquire_lock =>
    if s.mayCall cfg p = true then
      if s.owner = none then { s with owner := some p, depth := 1 }
      else if s.owner = some p then { s with depth := s.depth + 1 }
      else s
    else s
  | CtxAction.release_lock =>
    if s.mayCall cfg p = true ∧ s.owner = some p then
      if (s.mode p).in_callback = true then
        if s.base < s.depth then { s with depth := s.depth - 1 } else s
      else if 1 < s.depth then { s with depth := s.depth - 1 }
      else if cfg.onOwningCore p = true ∧ s.hasWork = true then
        CtxSys.setMode { s with base := s.depth } p (PartyMode.dispatching false)
      else { s with owner := none, depth := 0 }
    else s
  | CtxAction.lock_check => s
  | CtxAction.execute_sync f =>
    if s.alive = true ∧ cfg.interrupt p = false ∧ s.mode p = PartyMode.outside
        ∧ s.owner = none then
      CtxSys.setMode { s with owner := some p, depth := 1, base := 1 } p (PartyMode.in_sync f)
    else s
  | CtxAction.end_execute_sync =>
    match s.mode p with
    | PartyMode.in_sync _ => if s.depth = s.base then s.leave p else s
    | _ => s
  | CtxAction.poll =>
    if s.alive = true ∧ cfg.polled = true ∧ cfg.interrupt p = false
        ∧ cfg.onOwningCore p = true ∧ s.mode p = PartyMode.outside
        ∧ s.lockFreeFor p = true then
      s.beginPass p
    else s
  | CtxAction.backend_dispatch =>
    if s.alive = true ∧ cfg.polled = false ∧ cfg.onOwningCore p = true
        ∧ s.mode p = PartyMode.outside ∧ s.lockFreeFor p = true then
      s.beginPass p
    else s
  | CtxAction.begin_when_pending w =>
    if s.mode p = PartyMode.dispatching false ∧ w ∈ s.when_pending_list ∧ w ∈ s.pending then
      CtxSys.setMode { s with pending := s.pending.erase w } p (PartyMode.in_when_pending w)
    else s
  | CtxAction.begin_at_time w =>
    if (s.mode p).in_pass = true ∧ (s.mode p).in_callback = false
        ∧ s.at_time_list.any (fun x => decide (x.1 = w ∧ x.2 ≤ s.now)) = true then
      CtxSys.setMode
        { s with at_time_list := s.at_time_list.filter (fun x => decide (x.1 ≠ w)) } p
        (PartyMode.in_at_time w)
    else s
  | CtxAction.end_callback =>
    match s.mode p with
    | PartyMode.in_when_pending _ =>
      if s.depth = s.base then s.setMode p (PartyMode.dispatching false) else s
    | PartyMode.in_at_time _ =>
      if s.depth = s.base then s.setMode p (PartyMode.dispatching true) else s
    | _ => s
  | CtxAction.end_dispatch =>
    match s.mode p with
    | PartyMode.dispatching _ => s.leave p
    | _ => s
  | CtxAction.wait_until t =>
    if s.alive = true ∧ cfg.interrupt p = false ∧ s.mode p = PartyMode.outside then
      s.setMode p (PartyMode.waiting t)
    else s
  | CtxAction.wait_for_work_until t =>
    if s.alive = true ∧ cfg.interrupt p = false ∧ s.mode p = PartyMode.outside then
      s.setMode p (PartyMode.waiting t)
    else s
  | CtxAction.wake =>
    match s.mode p with
    | PartyMode.waiting t =>
      if t ≤ s.now ∨ s.hasWork = true then s.setMode p PartyMode.outside else s
    | _ => s
  | CtxAction.tick => { s with now := s.now + 1 }
  | CtxAction.deinit =>
    if s.alive = true ∧ cfg.interrupt p = false ∧ s.mode p = PartyMode.outside
        ∧ s.lockFreeFor p = true then
      { s with alive := false, owner := none, depth := 0, when_pending_list := [],
               pending := [], at_time_list := [] }
    else s

/-- Run an interleaving of calls: a list of (party, action) pairs, first step
first. -/
def CtxSys.run (cfg : CtxConfig) (s : CtxSys) : List (Nat × CtxAction) → CtxSys
  | [] => s
  | (p, a) :: rest => CtxSys.run cfg (s.step cfg p a) rest

/-- The start, at time `now`: the context is alive, the lock is free, no worker
is registered and every party is outside the context. -/
def CtxSys.init (now : Nat) : CtxSys :=
  { alive := true, owner := none, depth := 0, base := 0, when_pending_list := [],
    pending := [], at_time_list := [], now := now, mode := fun _ => PartyMode.outside }

/-- The invariant behind the mutual exclusion of callbacks: the lock is free
exactly at depth 0; a party inside a dispatch pass or a function run by the
context holds the lock at the depth of the pass or deeper, in a context that is
alive; and a party inside a dispatch pass runs on the owning core. -/
def CtxSys.Inv (cfg : CtxConfig) (s : CtxSys) : Prop :=
  (s.owner = none → s.depth = 0)
  ∧ (∀ p, s.owner = some p → 1 ≤ s.depth)
  ∧ (∀ p, (s.mode p).inside = true →
      s.owner = some p ∧ 1 ≤ s.base ∧ s.base ≤ s.depth ∧ s.alive = true)
  ∧ (∀ p, (s.mode p).in_pass = true → cfg.onOwningCore p = true)

/-! ### hardware_irq: `irq.h`, `irq_clear` -/

/-- Constants used by `irq_clear` that are defined in
`hardware/regs/addressmap.h` and `hardware/regs/m0plus.h`, outside the files
embedded here: they are parameters of the model. -/
structure PpbConsts where
  PPB_BASE : Nat
  M0PLUS_NVIC_ICPR_OFFSET : Nat
deriving DecidableEq, Repr

/-- The interrupt controller of the calling core: the pending bits of its 32
interrupt lines, and the stores made to its registers (address and data, oldest
first). -/
structure Nvic where
  pending : Nat
  stores : List (Nat × Nat)
deriving DecidableEq, Repr

/-- A 32-bit store to the interrupt controller.  A store to the
interrupt-clear-pending register (ICPR) clears the pending bit of every line
whose bit in the data is 1 and leaves the other lines alone. -/
def Nvic.store (c : PpbConsts) (n : Nvic) (addr data : Nat) : Nvic :=
  { pending :=
      if addr = (c.PPB_BASE + c.M0PLUS_NVIC_ICPR_OFFSET) % 2 ^ 32 then n.pending &&& not32 data
      else n.pending
    stores := n.stores ++ [(addr, data)] }

/-- `irq_clear(int_num)`:
`*((volatile uint32_t *) (PPB_BASE + M0PLUS_NVIC_ICPR_OFFSET))
   = (1u << ((uint32_t) (int_num & 0x1F)));`
`int_num` is a 32-bit `uint`. -/
def irq_clear (c : PpbConsts) (n : Nvic) (int_num : Nat) : Nvic :=
  n.store c ((c.PPB_BASE + c.M0PLUS_NVIC_ICPR_OFFSET) % 2 ^ 32)
    ((1 <<< ((int_num % 2 ^ 32) &&& 0x1F)) % 2 ^ 32)

/-- The RP2040 values of the constants of `irq_clear`, used for concrete
evaluation. -/
def rp2040Ppb : PpbConsts :=
  { PPB_BASE := 0xe0000000, M0PLUS_NVIC_ICPR_OFFSET := 0xe280 }

/-! ### pico_async_context: `async_context.h`, the wrappers that take a delay -/

/-- `async_context_add_at_time_worker_in_ms(context, worker, ms)`:
`worker->next_time = make_timeout_time_ms(ms);
 return context->type->add_at_time_worker(context, worker);`
`make_timeout_time_ms` is declared in `pico/time.h`, outside the files embedded
here: it is a parameter, giving the absolute time that lies `ms` milliseconds
after the time of the call. -/
def async_context_add_at_time_worker_in_ms {β : Type} (t : async_context_type_t β)
    (make_timeout_time_ms : Nat → Nat) (context worker ms : Nat) (m : AsyncMem β) :
    List BackendCall × Bool × AsyncMem β :=
  let m1 := m.store_next_time worker (make_timeout_time_ms ms)
  ([BackendCall.add_at_time_worker context worker], t.add_at_time_worker context worker m1)

/-- `async_context_wait_for_work_until(context, until)`:
`context->type->wait_for_work_until(context, until);` -/
def async_context_wait_for_work_until {β : Type} (t : async_context_type_t β)
    (context until_time : Nat) (m : AsyncMem β) : List BackendCall × AsyncMem β :=
  ([BackendCall.wait_for_work_until context until_time],
    t.wait_for_work_until context until_time m)

/-- `async_context_wait_for_work_ms(context, ms)`:
`async_context_wait_for_work_until(context, make_timeout_time_ms(ms));` -/
def async_context_wait_for_work_ms {β : Type} (t : async_context_type_t β)
    (make_timeout_time_ms : Nat → Nat) (context ms : Nat) (m : AsyncMem β) :
    List BackendCall × AsyncMem β :=
  async_context_wait_for_work_until t context (make_timeout_time_ms ms) m

/-- The fields of CR0 that `spi_set_format` writes do not overlap each other
beyond what `FormatFields` says, and none of them overlaps the clock-rate field
SCR. -/
def SpiConsts.FormatFrame (k : SpiConsts) : Prop :=
  k.SPI_SSPCR0_SPO_BITS &&& k.SPI_SSPCR0_SPH_BITS = 0
  ∧ k.SPI_SSPCR0_SCR_BITS
      &&& (k.SPI_SSPCR0_DSS_BITS ||| k.SPI_SSPCR0_SPO_BITS ||| k.SPI_SSPCR0_SPH_BITS) = 0

instance (k : SpiConsts) : Decidable k.FormatFrame := by
  unfold SpiConsts.FormatFrame
  infer_instance

/-! ### pico_async_context: the worker lists and the dispatch pass -/

/-- Modelled from the spec: a call of the context's API on a worker, as a
worker's `do_work` or the application may make it (section 4.4:
`add_pending_worker`, `remove_pending_worker`, `set_work_pending`,
`add_timed_worker(w, deadline)`, `remove_timed_worker`).  The backend functions
behind these calls are outside the files embedded here; workers are addresses. -/
inductive WorkerCall where
  | add_when_pending_worker (worker : Nat)
  | remove_when_pending_worker (worker : Nat)
  | set_work_pending (worker : Nat)
  | add_at_time_worker_at (worker at_ : Nat)
  | remove_at_time_worker (worker : Nat)
deriving DecidableEq, Repr

/-- What can be observed of a context at work: an API call with its result
(`true` for a call without one), the call and the return of the `do_work` of a
when-pending worker, and the call and the return of the `do_work` of an at-time
worker; the call of the latter comes with the `at_time_list` of the context at
that moment. -/
inductive DispatchEvent where
  | call (c : WorkerCall) (result : Bool)
  | when_pending_begin (worker : Nat)
  | when_pending_end (worker : Nat)
  | at_time_begin (worker : Nat) (at_time_list : List Nat)
  | at_time_end (worker : Nat)
deriving DecidableEq, Repr

/-- The members `when_pending_list` and `at_time_list` of `struct async_context`
as lists of worker addresses in link order, the member `work_pending` of each
`async_when_pending_worker_t` and the member `next_time` of each
`async_at_time_worker_t` by address, and the events so far, oldest first. -/
structure DispatchMem where
  when_pending_list : List Nat
  at_time_list : List Nat
  work_pending : Nat → Bool
  next_time : Nat → Nat
  trace : List DispatchEvent

/-- Put an event at the end of the trace. -/
def DispatchMem.log (m : DispatchMem) (e : DispatchEvent) : DispatchMem :=
  { m with trace := m.trace ++ [e] }

/-- No worker is linked twice into a list of the context. -/
def DispatchMem.WF (m : DispatchMem) : Prop :=
  m.when_pending_list.Nodup ∧ m.at_time_list.Nodup

/-- Modelled from the spec: the effect of one API call (section 4.4; the backend
functions are outside the files embedded here).

* `add_pending_worker(w)` / `add_timed_worker(w, deadline)`: reject (return
  false, no mutation) if `w` is already registered; otherwise `w` is linked in.
  The deadline goes through `async_context_add_at_time_worker_at`, which stores
  `worker->next_time = at` before it calls the backend.
* `set_work_pending(w)`: sets the pending flag; idempotent.
* `remove_pending_worker(w)` / `remove_timed_worker(w)`: detach; return false
  if absent. -/
def DispatchMem.apply_call (m : DispatchMem) (c : WorkerCall) : DispatchMem :=
  match c with
  | WorkerCall.add_when_pending_worker w =>
    if w ∈ m.when_pending_list then m.log (DispatchEvent.call c false)
    else DispatchMem.log { m with when_pending_list := w :: m.when_pending_list }
      (DispatchEvent.call c true)
  | WorkerCall.remove_when_pending_worker w =>
    if w ∈ m.when_pending_list then
      DispatchMem.log { m with when_pending_list := m.when_pending_list.erase w }
        (DispatchEvent.call c true)
    else m.log (DispatchEvent.call c false)
  | WorkerCall.set_work_pending w =>
    DispatchMem.log { m with work_pending := fun x => if x = w then true else m.work_pending x }
      (DispatchEvent.call c true)
  | WorkerCall.add_at_time_worker_at w at_ =>
    let m1 : DispatchMem := { m with next_time := fun x => if x = w then at_ else m.next_time x }
    if w ∈ m1.at_time_list then m1.log (DispatchEvent.call c false)
    else DispatchMem.log { m1 with at_time_list := w :: m1.at_time_list }
      (DispatchEvent.call c true)
  | WorkerCall.remove_at_time_worker w =>
    if w ∈ m.at_time_list then
      DispatchMem.log { m with at_time_list := m.at_time_list.erase w }
        (DispatchEvent.call c true)
    else m.log (DispatchEvent.call c false)

/-- A sequence of API calls, in order. -/
def DispatchMem.apply_calls (m : DispatchMem) (cs : List WorkerCall) : DispatchMem :=
  cs.foldl DispatchMem.apply_call m

/-- The `do_work` functions of the workers, by the address of the worker: the
API calls the function makes, given the context it is called with. -/
structure Workers where
  when_pending_do_work : Nat → DispatchMem → List WorkerCall
  at_time_do_work : Nat → DispatchMem → List WorkerCall

/-- Modelled from the spec: the dispatch pass comes to the when-pending worker
`w` (section 4.4: "invoke every pending worker whose flag is set, clearing the
flag such that a worker re-marking itself during its own callback is serviced
again on the next pass, never re-entered immediately"; the backend functions
are outside the files embedded here). -/
def run_when_pending_worker (W : Workers) (m : DispatchMem) (w : Nat) : DispatchMem :=
  if w ∈ m.when_pending_list ∧ m.work_pending w = true then
    let m1 := DispatchMem.log
      { m with work_pending := fun x => if x = w then false else m.work_pending x }
      (DispatchEvent.when_pending_begin w)
    (m1.apply_calls (W.when_pending_do_work w m1)).log (DispatchEvent.when_pending_end w)
  else m

/-- Modelled from the spec: the dispatch pass comes to the at-time worker `w`
at the time `now` (section 4.4: "invoke every timed worker whose deadline has
elapsed, each detached immediately before its callback runs"; the backend
functions are outside the files embedded here). -/
def run_at_time_worker (W : Workers) (now : Nat) (m : DispatchMem) (w : Nat) : DispatchMem :=
  if w ∈ m.at_time_list ∧ m.next_time w ≤ now then
    let m1 : DispatchMem := { m with at_time_list := m.at_time_list.erase w }
    let m2 := m1.log (DispatchEvent.at_time_begin w m1.at_time_list)
    (m2.apply_calls (W.at_time_do_work w m2)).log (DispatchEvent.at_time_end w)
  else m

/-- Modelled from the spec: the first part of a dispatch pass (section 4.4:
"first invoke every pending worker whose flag is set"; the backend functions are
outside the files embedded here).  It goes once through the workers that are in
the list when it starts. -/
def dispatch_when_pending (W : Workers) (m : DispatchMem) : DispatchMem :=
  m.when_pending_list.foldl (run_when_pending_worker W) m

/-- Modelled from the spec: the second part of a dispatch pass at the time `now`
(section 4.4: "then invoke every timed worker whose deadline has elapsed"; the
backend functions are outside the files embedded here).  It goes once through
the workers that are in the list when it starts. -/
def dispatch_at_time (W : Workers) (now : Nat) (m : DispatchMem) : DispatchMem :=
  m.at_time_list.foldl (run_at_time_worker W now) m

/-- Modelled from the spec: one dispatch pass at the time `now` (section 4.4;
the backend functions are outside the files embedded here): the pending work,
then the timers. -/
def dispatch_pass (W : Workers) (now : Nat) (m : DispatchMem) : DispatchMem :=
  dispatch_at_time W now (dispatch_when_pending W m)

/-- The events the first part of a dispatch pass adds to the trace. -/
def dispatch_when_pending_events (W : Workers) (m : DispatchMem) : List DispatchEvent :=
  (dispatch_when_pending W m).trace.drop m.trace.length

/-- The events the second part of a dispatch pass adds to the trace. -/
def dispatch_at_time_events (W : Workers) (now : Nat) (m : DispatchMem) : List DispatchEvent :=
  (dispatch_at_time W now m).trace.drop m.trace.length

/-- The events a dispatch pass adds to the trace. -/
def dispatch_pass_events (W : Workers) (now : Nat) (m : DispatchMem) : List DispatchEvent :=
  (dispatch_pass W now m).trace.drop m.trace.length

/-- The calls that act on the at-time worker `T`. -/
def WorkerCall.touches_at_time (T : Nat) : WorkerCall → Bool
  | WorkerCall.add_at_time_worker_at w _ => decide (w = T)
  | WorkerCall.remove_at_time_worker w => decide (w = T)
  | _ => false

/-- No `do_work` other than that of the at-time worker `T` itself makes a call
on `T`. -/
def Workers.LeavesAlone (W : Workers) (T : Nat) : Prop :=
  (∀ w m c, c ∈ W.when_pending_do_work w m → c.touches_at_time T = false)
  ∧ (∀ w m c, w ≠ T → c ∈ W.at_time_do_work w m → c.touches_at_time T = false)

/-- How often the `do_work` of the at-time worker `T` is called in a trace. -/
def at_time_fires (T : Nat) (tr : List DispatchEvent) : Nat :=
  tr.countP (fun e => match e with
    | DispatchEvent.at_time_begin w _ => decide (w = T)
    | _ => false)

/-- How often the at-time worker `T` is added with success in a trace. -/
def at_time_adds (T : Nat) (tr : List DispatchEvent) : Nat :=
  tr.countP (fun e => match e with
    | DispatchEvent.call (WorkerCall.add_at_time_worker_at w _) true => decide (w = T)
    | _ => false)

/-- Events of the `do_work` of a when-pending worker. -/
def DispatchEvent.isWhenPending : DispatchEvent → Bool
  | DispatchEvent.when_pending_begin _ => true
  | DispatchEvent.when_pending_end _ => true
  | _ => false

/-- Events of the `do_work` of an at-time worker. -/
def DispatchEvent.isAtTime : DispatchEvent → Bool
  | DispatchEvent.at_time_begin _ _ => true
  | DispatchEvent.at_time_end _ => true
  | _ => false

/-- A context for concrete evaluation: the when-pending workers `ps` with the
flag of those in `flagged` set, the at-time workers `ts` with the deadline
`deadline w` each, and no events yet. -/
def dispatchMemAt (ps flagged ts : List Nat) (deadline : Nat → Nat) : DispatchMem :=
  { when_pending_list := ps, at_time_list := ts,
    work_pending := fun w => decide (w ∈ flagged), next_time := deadline, trace := [] }

/-- Workers for concrete evaluation.  The when-pending worker 1 adds the at-time
worker 20 for the time 5 and marks itself pending again; the at-time worker 10
adds itself again for the time `next_time + 100`; the at-time worker 11 marks
the when-pending worker 2 pending; every other worker makes no call. -/
def demoWorkers : Workers :=
  { when_pending_do_work := fun w _ =>
      if w = 1 then [WorkerCall.add_at_time_worker_at 20 5, WorkerCall.set_work_pending 1]
      else []
    at_time_do_work := fun w m =>
      if w = 10 then [WorkerCall.add_at_time_worker_at 10 (m.next_time 10 + 100)]
      else if w = 11 then [WorkerCall.set_work_pending 2]
      else [] }

/-- From the state `m0` to the state `m` of a context, the at-time worker `T`
has fired at most as often as it was in the list at first and added with
success since, less what is still in the list. -/
def AtTimeBalance (T : Nat) (m0 m : DispatchMem) : Prop :=
  at_time_fires T m.trace + m.at_time_list.count T + at_time_adds T m0.trace
    ≤ at_time_adds T m.trace + at_time_fires T m0.trace + m0.at_time_list.count T

/-- What happens to a context from outside a pass: an API call of the
application, or the backend running a dispatch pass at some time. -/
inductive ContextStep where
  | call (c : WorkerCall)
  | pass (now : Nat)
deriving DecidableEq, Repr

/-- One step of a context. -/
def DispatchMem.step (W : Workers) (m : DispatchMem) : ContextStep → DispatchMem
  | ContextStep.call c => m.apply_call c
  | ContextStep.pass now => dispatch_pass W now m

/-- A sequence of API calls and dispatch passes, in order. -/
def DispatchMem.run (W : Workers) (m : DispatchMem) (steps : List ContextStep) : DispatchMem :=
  steps.foldl (DispatchMem.step W) m

/-- The `do_work` of the at-time worker `T`, called with `next_time` still at
`d` and `T` out of the list, adds `T` again for the time `d2`, and the other
calls it makes are not on `T`. -/
def Workers.Readds (W : Workers) (T d d2 : Nat) : Prop :=
  ∀ m1 : DispatchMem, m1.next_time T = d → T ∉ m1.at_time_list →
    ∃ pre post, W.at_time_do_work T m1 = pre ++ WorkerCall.add_at_time_worker_at T d2 :: post
      ∧ (∀ c ∈ pre, c.touches_at_time T = false)
      ∧ (∀ c ∈ post, c.touches_at_time T = false)

/-! ## Theorems -/

/-! ### Bitwise facts about 32-bit words -/

theorem testBit_ones32 (i : Nat) : (0xFFFFFFFF : Nat).testBit i = decide (i < 32) := by
  have h : (0xFFFFFFFF : Nat) = 2 ^ 32 - 1 := by norm_num
  rw [h, Nat.testBit_two_pow_sub_one]

theorem testBit_not32 (x i : Nat) : (not32 x).testBit i = (x.testBit i ^^ decide (i < 32)) := by
  unfold not32
  rw [Nat.testBit_xor, testBit_ones32]

theorem testBit_high_of_lt {x i : Nat} (hx : x < 2 ^ 32) (hi : 32 ≤ i) : x.testBit i = false :=
  Nat.testBit_eq_false_of_lt (lt_of_lt_of_le hx (Nat.pow_le_pow_right (by norm_num) hi))

theorem not32_lt (x : Nat) (hx : x < 2 ^ 32) : not32 x < 2 ^ 32 := by
  unfold not32
  exact Nat.xor_lt_two_pow hx (by norm_num)

/-- The word written by the XOR trick is the masked merge of old and new. -/
theorem xor_masked_merge (old values mask : Nat) (hold : old < 2 ^ 32) :
    old ^^^ ((old ^^^ values) &&& mask) = (old &&& not32 mask) ||| (values &&& mask) := by
  apply Nat.eq_of_testBit_eq
  intro i
  simp only [Nat.testBit_xor, Nat.testBit_and, Nat.testBit_or, testBit_not32]
  by_cases hi : i < 32
  · simp only [hi, decide_True]
    cases old.testBit i <;> cases values.testBit i <;> cases mask.testBit i <;> rfl
  · have ho : old.testBit i = false := testBit_high_of_lt hold (by omega)
    simp only [hi, decide_False, ho]
    cases values.testBit i <;> cases mask.testBit i <;> rfl

/-! ### Aliased register stores -/

theorem store_xor_val (am : AddressMap) (r : IoReg) (d : Nat) (h : am.Separates r.addr) :
    (hw_xor_bits am r r.addr d).val = r.val ^^^ d := by
  obtain ⟨h1, -⟩ := h
  simp [hw_xor_bits, hw_xor_alias_untyped, hw_alias_check_addr, IoReg.store, h1]

theorem store_set_val (am : AddressMap) (r : IoReg) (d : Nat) (h : am.Separates r.addr) :
    (hw_set_bits am r r.addr d).val = r.val ||| d := by
  obtain ⟨-, h2, h3, -⟩ := h
  simp [hw_set_bits, hw_set_alias_untyped, hw_alias_check_addr, IoReg.store, h2, h3]

theorem store_clr_val (am : AddressMap) (r : IoReg) (d : Nat) (h : am.Separates r.addr) :
    (hw_clear_bits am r r.addr d).val = r.val &&& not32 d := by
  obtain ⟨-, -, -, h4, h5, h6⟩ := h
  simp [hw_clear_bits, hw_clear_alias_untyped, hw_alias_check_addr, IoReg.store, h4, h5, h6]

theorem write_masked_val (am : AddressMap) (r : IoReg) (values write_mask : Nat)
    (h : am.Separates r.addr) :
    (hw_write_masked am r r.addr values write_mask).val
      = r.val ^^^ ((r.val ^^^ values) &&& write_mask) := by
  obtain ⟨h1, -⟩ := h
  simp [hw_write_masked, IoReg.load, hw_xor_bits, hw_xor_alias_untyped, hw_alias_check_addr,
    IoReg.store, h1]

/-- C1: with a store to the XOR alias acting as `reg := reg XOR data` and no
other writer, `hw_write_masked(addr, values, write_mask)` makes one load of the
register and one store to the XOR alias, and leaves the register equal to
`(old AND NOT write_mask) OR (values AND write_mask)`: each bit selected by
`write_mask` takes the bit of `values`, every other bit keeps its old value. -/
theorem hw_write_masked_spec (am : AddressMap) (r : IoReg) (values write_mask : Nat)
    (hsep : am.Separates r.addr) (hold : r.val < 2 ^ 32) (hm : write_mask < 2 ^ 32) :
    (hw_write_masked am r r.addr values write_mask).val
        = (r.val &&& not32 write_mask) ||| (values &&& write_mask)
    ∧ (∀ i, (hw_write_masked am r r.addr values write_mask).val.testBit i
        = if write_mask.testBit i then values.testBit i else r.val.testBit i)
    ∧ (hw_write_masked am r r.addr values write_mask).val < 2 ^ 32
    ∧ (hw_write_masked am r r.addr values write_mask).log
        = r.log ++ [BusOp.load r.addr,
            BusOp.store (am.REG_ALIAS_XOR_BITS ||| r.addr)
              ((r.val ^^^ values) &&& write_mask)] := by
  have hval := write_masked_val am r values write_mask hsep
  refine ⟨?_, ?_, ?_, ?_⟩
  · rw [hval, xor_masked_merge _ _ _ hold]
  · intro i
    rw [hval]
    simp only [Nat.testBit_xor, Nat.testBit_and]
    cases write_mask.testBit i <;> cases values.testBit i <;> cases r.val.testBit i <;> rfl
  · rw [hval]
    exact Nat.xor_lt_two_pow hold (Nat.and_lt_two_pow _ hm)
  · simp [hw_write_masked, IoReg.load, hw_xor_bits, hw_xor_alias_untyped, hw_alias_check_addr,
      IoReg.store]

/-- Witness for C1 on the RP2040 alias offsets: writing `0x00a0` under mask
`0x00f0` into a register holding `0x1234` gives `0x12a4`. -/
theorem hw_write_masked_spec_witness :
    (hw_write_masked rp2040Map ⟨0x4003c000, 0x1234, []⟩ 0x4003c000 0x00a0 0x00f0).val = 0x12a4
    ∧ (hw_write_masked rp2040Map ⟨0x4003c000, 0x1234, []⟩ 0x4003c000 0x00a0 0x00f0).val
        = (0x1234 &&& not32 0x00f0) ||| (0x00a0 &&& 0x00f0) :=
  ⟨by decide,
   (hw_write_masked_spec rp2040Map ⟨0x4003c000, 0x1234, []⟩ 0x00a0 0x00f0
      (by decide) (by decide) (by decide)).1⟩

/-- C2: `hw_set_bits`, `hw_clear_bits` and `hw_xor_bits` each make exactly one
bus access, a store of `mask` to `REG_ALIAS_SET_BITS | addr`,
`REG_ALIAS_CLR_BITS | addr`, `REG_ALIAS_XOR_BITS | addr` respectively (no load);
the register becomes `old OR mask`, `old AND NOT mask`, `old XOR mask`, and every
bit outside `mask` is unchanged. -/
theorem hw_alias_bits_spec (am : AddressMap) (r : IoReg) (mask : Nat)
    (hsep : am.Separates r.addr) (hold : r.val < 2 ^ 32) :
    ((hw_set_bits am r r.addr mask).log
        = r.log ++ [BusOp.store (am.REG_ALIAS_SET_BITS ||| r.addr) mask]
      ∧ (hw_set_bits am r r.addr mask).val = r.val ||| mask
      ∧ ∀ i, mask.testBit i = false →
          (hw_set_bits am r r.addr mask).val.testBit i = r.val.testBit i)
    ∧ ((hw_clear_bits am r r.addr mask).log
        = r.log ++ [BusOp.store (am.REG_ALIAS_CLR_BITS ||| r.addr) mask]
      ∧ (hw_clear_bits am r r.addr mask).val = r.val &&& not32 mask
      ∧ ∀ i, mask.testBit i = false →
          (hw_clear_bits am r r.addr mask).val.testBit i = r.val.testBit i)
    ∧ ((hw_xor_bits am r r.addr mask).log
        = r.log ++ [BusOp.store (am.REG_ALIAS_XOR_BITS ||| r.addr) mask]
      ∧ (hw_xor_bits am r r.addr mask).val = r.val ^^^ mask
      ∧ ∀ i, mask.testBit i = false →
          (hw_xor_bits am r r.addr mask).val.testBit i = r.val.testBit i) := by
  refine ⟨⟨?_, store_set_val am r mask hsep, ?_⟩, ⟨?_, store_clr_val am r mask hsep, ?_⟩,
    ⟨?_, store_xor_val am r mask hsep, ?_⟩⟩
  · simp [hw_set_bits, hw_set_alias_untyped, hw_alias_check_addr, IoReg.store]
  · intro i hi
    rw [store_set_val am r mask hsep, Nat.testBit_or, hi, Bool.or_false]
  · simp [hw_clear_bits, hw_clear_alias_untyped, hw_alias_check_addr, IoReg.store]
  · intro i hi
    rw [store_clr_val am r mask hsep, Nat.testBit_and, testBit_not32, hi]
    by_cases h32 : i < 32
    · simp [h32]
    · simp [h32, testBit_high_of_lt hold (Nat.le_of_not_lt h32)]
  · simp [hw_xor_bits, hw_xor_alias_untyped, hw_alias_check_addr, IoReg.store]
  · intro i hi
    rw [store_xor_val am r mask hsep, Nat.testBit_xor, hi, Bool.xor_false]

/-- Witness for C2 on the RP2040 alias offsets: register `0x1234`, mask `0x00f0`. -/
theorem hw_alias_bits_spec_witness :
    (hw_set_bits rp2040Map ⟨0x4003c004, 0x1234, []⟩ 0x4003c004 0x00f0).val = 0x12f4
    ∧ (hw_clear_bits rp2040Map ⟨0x4003c004, 0x1234, []⟩ 0x4003c004 0x00f0).val = 0x1204
    ∧ (hw_xor_bits rp2040Map ⟨0x4003c004, 0x1234, []⟩ 0x4003c004 0x00f0).val = 0x12c4
    ∧ (hw_set_bits rp2040Map ⟨0x4003c004, 0x1234, []⟩ 0x4003c004 0x00f0).log
        = [BusOp.store 0x4003e004 0x00f0] :=
  ⟨by decide, by decide, by decide,
   (hw_alias_bits_spec rp2040Map ⟨0x4003c004, 0x1234, []⟩ 0x00f0
      (by decide) (by decide)).1.1⟩

/-! ### `hw_write_masked` racing with the other core -/

theorem raced_val (am : AddressMap) (r : IoReg) (values write_mask : Nat) (other : AliasStore)
    (h : am.Separates r.addr) :
    (hw_write_masked_raced am r r.addr values write_mask other).val
      = (other.run am r r.addr).val ^^^ ((r.val ^^^ values) &&& write_mask) := by
  obtain ⟨h1, h2, h3, h4, h5, h6⟩ := h
  cases other <;>
    simp [hw_write_masked_raced, AliasStore.run, IoReg.load, hw_xor_bits, hw_set_bits,
      hw_clear_bits, hw_xor_alias_untyped, hw_set_alias_untyped, hw_clear_alias_untyped,
      hw_alias_check_addr, IoReg.store, h1, h2, h3, h4, h5, h6]

theorem other_run_bit (am : AddressMap) (r : IoReg) (other : AliasStore)
    (h : am.Separates r.addr) (hold : r.val < 2 ^ 32) (i : Nat)
    (hi : other.mask.testBit i = false) :
    (other.run am r r.addr).val.testBit i = r.val.testBit i := by
  cases other with
  | set m =>
    simp only [AliasStore.mask] at hi
    simp [AliasStore.run, store_set_val am r m h, hi]
  | clr m =>
    simp only [AliasStore.mask] at hi
    simp only [AliasStore.run, store_clr_val am r m h, Nat.testBit_and, testBit_not32, hi]
    by_cases h32 : i < 32
    · simp [h32]
    · simp [h32, testBit_high_of_lt hold (Nat.le_of_not_lt h32)]
  | xor m =>
    simp only [AliasStore.mask] at hi
    simp [AliasStore.run, store_xor_val am r m h, hi]

/-- C9: when an aliased set, clear or xor store of the other core, with a mask
disjoint from `write_mask`, lands between the load and the XOR store of
`hw_write_masked`, the final register has every `write_mask` bit equal to the
bit of `values` and every other bit equal to what the other core's store
produced. -/
theorem hw_write_masked_disjoint_race (am : AddressMap) (r : IoReg) (values write_mask : Nat)
    (other : AliasStore) (hsep : am.Separates r.addr) (hold : r.val < 2 ^ 32)
    (hdisj : other.mask &&& write_mask = 0) :
    ∀ i, (hw_write_masked_raced am r r.addr values write_mask other).val.testBit i
      = if write_mask.testBit i then values.testBit i
        else (other.run am r r.addr).val.testBit i := by
  intro i
  rw [raced_val am r values write_mask other hsep]
  simp only [Nat.testBit_xor, Nat.testBit_and]
  by_cases hw : write_mask.testBit i = true
  · have hbit : (other.mask &&& write_mask).testBit i = false := by
      rw [hdisj]; exact Nat.zero_testBit i
    rw [Nat.testBit_and, hw, Bool.and_true] at hbit
    rw [other_run_bit am r other hsep hold i hbit]
    simp only [hw, if_true, Bool.and_true]
    cases r.val.testBit i <;> cases values.testBit i <;> rfl
  · simp [hw]

/-- Witness for C9: register `0x1234`, this core writes `0x00a0` under mask
`0x00f0` while the other core sets bit 0 in between; the result is `0x12a5`. -/
theorem hw_write_masked_disjoint_race_witness :
    (hw_write_masked_raced rp2040Map ⟨0x4003c000, 0x1234, []⟩ 0x4003c000 0x00a0 0x00f0
        (AliasStore.set 0x0001)).val = 0x12a5
    ∧ ∀ i, (hw_write_masked_raced rp2040Map ⟨0x4003c000, 0x1234, []⟩ 0x4003c000 0x00a0 0x00f0
        (AliasStore.set 0x0001)).val.testBit i
      = if (0x00f0 : Nat).testBit i then (0x00a0 : Nat).testBit i
        else ((AliasStore.set 0x0001).run rp2040Map ⟨0x4003c000, 0x1234, []⟩
          0x4003c000).val.testBit i :=
  ⟨by decide,
   hw_write_masked_disjoint_race rp2040Map ⟨0x4003c000, 0x1234, []⟩ 0x00a0 0x00f0
      (AliasStore.set 0x0001) (by decide) (by decide) (by decide)⟩

/-- C10: `hw_write_masked` is not atomic as a whole.  For every register whose
aliases are decoded, there are a register value, `values`, `write_mask` and an
aliased store of the other core touching a bit inside `write_mask` and landing
between the load and the XOR store, such that the `write_mask` bits of the final
register differ from those of `values`. -/
theorem hw_write_masked_not_atomic (am : AddressMap) (addr : Nat) (hsep : am.Separates addr) :
    ∃ (old values write_mask : Nat) (other : AliasStore),
      old < 2 ^ 32 ∧ values < 2 ^ 32 ∧ write_mask < 2 ^ 32 ∧ other.mask < 2 ^ 32 ∧
      other.mask &&& write_mask ≠ 0 ∧
      (hw_write_masked_raced am ⟨addr, old, []⟩ addr values write_mask other).val &&& write_mask
        ≠ values &&& write_mask := by
  refine ⟨0, 1, 1, AliasStore.set 1, by norm_num, by norm_num, by norm_num, by decide,
    by decide, ?_⟩
  have h := raced_val am ⟨addr, 0, []⟩ 1 1 (AliasStore.set 1) hsep
  have hs := store_set_val am ⟨addr, 0, []⟩ 1 hsep
  simp only [AliasStore.run] at h
  rw [h, hs]
  show ((0 ||| 1) ^^^ ((0 ^^^ 1) &&& 1)) &&& 1 ≠ 1 &&& 1
  decide

/-- Witness for C10 on the RP2040 alias offsets, and the run behind it: the
register holds 0, this core writes 1 under mask 1, the other core sets bit 0 in
between, and the register ends as 0. -/
theorem hw_write_masked_not_atomic_witness :
    (hw_write_masked_raced rp2040Map ⟨0x4003c000, 0, []⟩ 0x4003c000 1 1
        (AliasStore.set 1)).val = 0
    ∧ ∃ (old values write_mask : Nat) (other : AliasStore),
      old < 2 ^ 32 ∧ values < 2 ^ 32 ∧ write_mask < 2 ^ 32 ∧ other.mask < 2 ^ 32 ∧
      other.mask &&& write_mask ≠ 0 ∧
      (hw_write_masked_raced rp2040Map ⟨0x4003c000, old, []⟩ 0x4003c000 values write_mask
          other).val &&& write_mask
        ≠ values &&& write_mask :=
  ⟨by decide, hw_write_masked_not_atomic rp2040Map 0x4003c000 (by decide)⟩

/-! ### The two searches of `spi_set_baudrate` -/

/-- What the prescale loop guarantees about its result when the bound on the
number of tests is large enough to reach `prescale > 254`. -/
theorem spi_prescale_loop_spec (freq_in baudrate : Nat) :
    ∀ (fuel s : Nat), 256 ≤ s + 2 * fuel →
      s ≤ spi_prescale_loop freq_in baudrate fuel s
      ∧ spi_prescale_loop freq_in baudrate fuel s % 2 = s % 2
      ∧ (s ≤ 256 → spi_prescale_loop freq_in baudrate fuel s ≤ 256)
      ∧ (spi_prescale_loop freq_in baudrate fuel s ≤ 254 →
          freq_in < (spi_prescale_loop freq_in baudrate fuel s + 2) * 256 * baudrate)
      ∧ (s < spi_prescale_loop freq_in baudrate fuel s →
          spi_prescale_loop freq_in baudrate fuel s * 256 * baudrate ≤ freq_in) := by
  intro fuel
  induction fuel with
  | zero =>
    intro s hs
    have e : spi_prescale_loop freq_in baudrate 0 s = s := rfl
    rw [e]
    refine ⟨le_refl _, rfl, fun h => h, fun h => ?_, fun h => ?_⟩ <;> omega
  | succ n ih =>
    intro s hs
    by_cases h254 : s ≤ 254
    · by_cases hbrk : freq_in < (s + 2) * 256 * baudrate
      · have e : spi_prescale_loop freq_in baudrate (n + 1) s = s := by
          simp [spi_prescale_loop, h254, hbrk]
        rw [e]
        refine ⟨le_refl _, rfl, fun h => h, fun _ => hbrk, fun h => ?_⟩
        omega
      · have e : spi_prescale_loop freq_in baudrate (n + 1) s
            = spi_prescale_loop freq_in baudrate n (s + 2) := by
          simp [spi_prescale_loop, h254, hbrk]
        rw [e]
        obtain ⟨h1, h2, h3, h4, h5⟩ := ih (s + 2) (by omega)
        refine ⟨by omega, by omega, fun _ => h3 (by omega), h4, fun _ => ?_⟩
        by_cases hlt : s + 2 < spi_prescale_loop freq_in baudrate n (s + 2)
        · exact h5 hlt
        · have heq : spi_prescale_loop freq_in baudrate n (s + 2) = s + 2 := by omega
          rw [heq]
          exact Nat.le_of_not_lt hbrk
    · have e : spi_prescale_loop freq_in baudrate (n + 1) s = s := by
        simp [spi_prescale_loop, h254]
      rw [e]
      refine ⟨le_refl _, rfl, fun h => h, fun h => ?_, fun h => ?_⟩ <;> omega

/-- The prescale loop stops at the first value whose test succeeds: the test
failed for every value the loop variable took before the result. -/
theorem spi_prescale_loop_first (freq_in baudrate : Nat) :
    ∀ (fuel s : Nat), 256 ≤ s + 2 * fuel →
      ∀ t, s ≤ t → t < spi_prescale_loop freq_in baudrate fuel s → t % 2 = s % 2 →
        (t + 2) * 256 * baudrate ≤ freq_in := by
  intro fuel
  induction fuel with
  | zero =>
    intro s _ t h1 h2 _
    have e : spi_prescale_loop freq_in baudrate 0 s = s := rfl
    rw [e] at h2
    omega
  | succ n ih =>
    intro s hs t h1 h2 h3
    by_cases h254 : s ≤ 254
    · by_cases hbrk : freq_in < (s + 2) * 256 * baudrate
      · have e : spi_prescale_loop freq_in baudrate (n + 1) s = s := by
          simp [spi_prescale_loop, h254, hbrk]
        rw [e] at h2
        omega
      · have e : spi_prescale_loop freq_in baudrate (n + 1) s
            = spi_prescale_loop freq_in baudrate n (s + 2) := by
          simp [spi_prescale_loop, h254, hbrk]
        rw [e] at h2
        by_cases hts : t = s
        · rw [hts]
          exact Nat.le_of_not_lt hbrk
        · exact ih (s + 2) (by omega) t (by omega) h2 (by omega)
    · have e : spi_prescale_loop freq_in baudrate (n + 1) s = s := by
        simp [spi_prescale_loop, h254]
      rw [e] at h2
      omega

/-- The prescale found is an even number from 2 to 256; when it is at most 254
the loop stopped on its test, and when it is above 2 the test failed for the
value before it. -/
theorem spi_prescale_spec (freq_in baudrate : Nat) :
    2 ≤ spi_prescale freq_in baudrate
    ∧ spi_prescale freq_in baudrate % 2 = 0
    ∧ spi_prescale freq_in baudrate ≤ 256
    ∧ (spi_prescale freq_in baudrate ≤ 254 →
        freq_in < (spi_prescale freq_in baudrate + 2) * 256 * baudrate)
    ∧ (2 < spi_prescale freq_in baudrate →
        spi_prescale freq_in baudrate * 256 * baudrate ≤ freq_in) := by
  obtain ⟨h1, h2, h3, h4, h5⟩ := spi_prescale_loop_spec freq_in baudrate 128 2 (by norm_num)
  exact ⟨h1, h2, h3 (by norm_num), h4, h5⟩

/-- What the post-divide loop guarantees about its result. -/
theorem spi_postdiv_loop_spec (freq_in baudrate prescale : Nat) :
    ∀ n : Nat, 1 ≤ n →
      1 ≤ spi_postdiv_loop freq_in baudrate prescale n
      ∧ spi_postdiv_loop freq_in baudrate prescale n ≤ n
      ∧ (spi_postdiv_loop freq_in baudrate prescale n = 1
          ∨ baudrate < freq_in
              / (prescale * (spi_postdiv_loop freq_in baudrate prescale n - 1)))
      ∧ (∀ q, spi_postdiv_loop freq_in baudrate prescale n ≤ q → q < n →
          freq_in / (prescale * q) ≤ baudrate) := by
  intro n
  induction n with
  | zero => intro h; omega
  | succ m ih =>
    intro _
    cases m with
    | zero =>
      have e : spi_postdiv_loop freq_in baudrate prescale (0 + 1) = 1 := rfl
      rw [e]
      refine ⟨le_refl _, le_refl _, Or.inl rfl, fun q h1 h2 => ?_⟩
      omega
    | succ j =>
      by_cases hbrk : freq_in / (prescale * (j + 2 - 1)) > baudrate
      · have e : spi_postdiv_loop freq_in baudrate prescale (j + 1 + 1) = j + 2 := by
          simp only [spi_postdiv_loop, hbrk, if_true]
        rw [e]
        refine ⟨by omega, le_refl _, Or.inr hbrk, fun q h1 h2 => ?_⟩
        omega
      · have e : spi_postdiv_loop freq_in baudrate prescale (j + 1 + 1)
            = spi_postdiv_loop freq_in baudrate prescale (j + 1) := by
          simp only [spi_postdiv_loop, hbrk, if_false]
        rw [e]
        obtain ⟨h1, h2, h3, h4⟩ := ih (by omega)
        refine ⟨h1, by omega, h3, fun q hq1 hq2 => ?_⟩
        by_cases hq : q < j + 1
        · exact h4 q hq1 hq
        · have hqe : q = j + 2 - 1 := by omega
          rw [hqe]
          exact Nat.le_of_not_lt hbrk

/-- The post-divide found is in the range 1 to 256. -/
theorem spi_postdiv_range (freq_in baudrate : Nat) :
    1 ≤ spi_postdiv freq_in baudrate ∧ spi_postdiv freq_in baudrate ≤ 256 := by
  obtain ⟨h1, h2, -⟩ :=
    spi_postdiv_loop_spec freq_in baudrate (spi_prescale freq_in baudrate) 256 (by norm_num)
  exact ⟨h1, h2⟩

/-- The result of `spi_set_baudrate` when it returns. -/
theorem spi_set_baudrate_eq (pa : Bool) (am : AddressMap) (k : SpiConsts) (freq_in : Nat)
    (spi : SpiHw) (baudrate : Nat)
    (hok : pa = false ∨ (baudrate ≤ freq_in ∧ spi_prescale freq_in baudrate ≤ 254)) :
    spi_set_baudrate pa am k freq_in spi baudrate
      = some ({ spi with
                cr0 := hw_write_masked am spi.cr0 spi.cr0.addr
                  (((spi_postdiv freq_in baudrate - 1) <<< k.SPI_SSPCR0_SCR_LSB) % 2 ^ 32)
                  k.SPI_SSPCR0_SCR_BITS
                cr1 := hw_set_bits am
                  (hw_clear_bits am (spi.cr1.load spi.cr1.addr).2 spi.cr1.addr
                    k.SPI_SSPCR1_SSE_BITS)
                  spi.cr1.addr
                  ((spi.cr1.load spi.cr1.addr).1 &&& k.SPI_SSPCR1_SSE_BITS)
                cpsr := spi.cpsr.store am spi.cpsr.addr (spi_prescale freq_in baudrate) },
              freq_in / (spi_prescale freq_in baudrate * spi_postdiv freq_in baudrate)) := by
  unfold spi_set_baudrate
  have h1 : ¬ (pa = true ∧ baudrate > freq_in) := by
    rcases hok with h | ⟨h, -⟩
    · simp [h]
    · intro hc; omega
  have h2 : ¬ (pa = true ∧ spi_prescale_loop freq_in baudrate 128 2 > 254) := by
    rcases hok with h | ⟨-, h⟩
    · simp [h]
    · intro hc
      have := hc.2
      unfold spi_prescale at h
      omega
  simp only [h1, h2, if_false]
  rfl

/-! ### Baud rate: what is returned and what is read back -/

/-- C3 (failing input): with `freq_in` = 125 MHz and `baudrate` = 125 kHz the
prescale search stops at 2 (within the range 2..254), the post-divide search
stops at once at 256, and `spi_set_baudrate` returns 244140, which is above the
requested 125000, whether parameter assertions are compiled in or not. -/
theorem spi_set_baudrate_exceeds_request :
    0 < 125000 ∧ 125000 ≤ 125000000
    ∧ spi_prescale 125000000 125000 = 2
    ∧ spi_postdiv 125000000 125000 = 256
    ∧ (spi_set_baudrate false rp2040Map rp2040Spi 125000000 (spiAt 0 0 0 0) 125000).map
        Prod.snd = some 244140
    ∧ (spi_set_baudrate true rp2040Map rp2040Spi 125000000 (spiAt 0 0 0 0) 125000).map
        Prod.snd = some 244140
    ∧ ¬ (244140 ≤ 125000) := by
  refine ⟨by decide, by decide, by decide, by decide, by decide, by decide, by decide⟩

/-- C4 (counterexample): with `freq_in` = 125 MHz and `baudrate` = 50 MHz the
prescale found is 2 and `spi_set_baudrate` returns 31250000, at distance
18750000 from the request, while prescale 2 with post-divide 1 gives 62500000,
at distance 12500000: a pair in range is strictly closer. -/
theorem spi_set_baudrate_not_closest :
    0 < 50000000 ∧ 50000000 ≤ 125000000
    ∧ spi_prescale 125000000 50000000 ≤ 254
    ∧ (spi_set_baudrate false rp2040Map rp2040Spi 125000000 (spiAt 0 0 0 0) 50000000).map
        Prod.snd = some 31250000
    ∧ ∃ prescale postdiv : Nat,
        2 ≤ prescale ∧ prescale ≤ 254 ∧ prescale % 2 = 0 ∧ 1 ≤ postdiv ∧ postdiv ≤ 256
        ∧ Nat.dist (125000000 / (prescale * postdiv)) 50000000
            < Nat.dist 31250000 50000000 := by
  refine ⟨by decide, by decide, by decide, ?_, 2, 1, by decide, by decide, by decide,
    by decide, by decide, by decide⟩
  rw [spi_set_baudrate_eq false rp2040Map rp2040Spi 125000000 (spiAt 0 0 0 0) 50000000
    (Or.inl rfl)]
  have hp : spi_prescale 125000000 50000000 = 2 := by decide
  have hq : spi_postdiv 125000000 50000000 = 2 := by
    unfold spi_postdiv
    rw [hp]
    obtain ⟨h1, h2, h3, h4⟩ := spi_postdiv_loop_spec 125000000 50000000 2 256 (by norm_num)
    by_contra hne
    rcases h3 with h3 | h3
    · have := h4 1 (by omega) (by norm_num)
      omega
    · have hne1 : spi_postdiv_loop 125000000 50000000 2 256 ≠ 1 := by
        intro h1e
        rw [h1e] at h3
        norm_num at h3
      have hge : 3 ≤ spi_postdiv_loop 125000000 50000000 2 256 := by omega
      have hle : 125000000 / (2 * (spi_postdiv_loop 125000000 50000000 2 256 - 1))
          ≤ 125000000 / (2 * 2) := Nat.div_le_div_left (by omega) (by norm_num)
      have hlt := lt_of_lt_of_le h3 hle
      norm_num at hlt
  simp only [Option.map_some', hp, hq]

/-- C4 (amended): `spi_set_baudrate` returns, and whenever the frequency it
returns does not exceed `baudrate`, no pair (even prescale in 2..254, post-divide
in 1..256) gives a frequency that does not exceed `baudrate` and is strictly
closer to it: every such frequency is at most the returned one. -/
theorem spi_set_baudrate_closest_from_below (pa : Bool) (am : AddressMap) (k : SpiConsts)
    (freq_in : Nat) (spi : SpiHw) (baudrate : Nat)
    (hb : baudrate ≤ freq_in) (hp : spi_prescale freq_in baudrate ≤ 254) :
    ∃ spi1 r, spi_set_baudrate pa am k freq_in spi baudrate = some (spi1, r)
      ∧ (r ≤ baudrate →
          ∀ prescale postdiv : Nat, 2 ≤ prescale → prescale ≤ 254 → prescale % 2 = 0 →
            1 ≤ postdiv → postdiv ≤ 256 →
            freq_in / (prescale * postdiv) ≤ baudrate →
            freq_in / (prescale * postdiv) ≤ r) := by
  refine ⟨_, _, spi_set_baudrate_eq pa am k freq_in spi baudrate (Or.inr ⟨hb, hp⟩), ?_⟩
  intro hr P q hP2 _ hPe hq1 _ hle
  obtain ⟨hs2, _, _, _, hs5⟩ := spi_prescale_spec freq_in baudrate
  obtain ⟨hq1', hq256, hbrk, -⟩ :=
    spi_postdiv_loop_spec freq_in baudrate (spi_prescale freq_in baudrate) 256 (by norm_num)
  change 1 ≤ spi_postdiv freq_in baudrate at hq1'
  change spi_postdiv freq_in baudrate ≤ 256 at hq256
  change spi_postdiv freq_in baudrate = 1 ∨ baudrate < freq_in
    / (spi_prescale freq_in baudrate * (spi_postdiv freq_in baudrate - 1)) at hbrk
  by_cases h2 : spi_prescale freq_in baudrate = 2
  · rw [h2] at hr hbrk ⊢
    by_cases hd : 2 * spi_postdiv freq_in baudrate ≤ P * q
    · exact Nat.div_le_div_left hd (by omega)
    · -- a smaller even divisor was already rejected by the post-divide search
      exfalso
      obtain ⟨t, ht⟩ : ∃ t, P = 2 * t := ⟨P / 2, by omega⟩
      have hpos : 0 < P * q := Nat.mul_pos (by omega) (by omega)
      have hd2 : P * q ≤ 2 * (spi_postdiv freq_in baudrate - 1) := by
        have : P * q = 2 * (t * q) := by rw [ht]; ring
        omega
      rcases hbrk with h1 | hgt
      · omega
      · have := Nat.div_le_div_left (a := freq_in) hd2 hpos
        omega
  · -- above 2 the prescale search only stops where the output is at least baudrate
    have hlow := hs5 (by omega)
    have hge : baudrate ≤ freq_in
        / (spi_prescale freq_in baudrate * spi_postdiv freq_in baudrate) := by
      rw [Nat.le_div_iff_mul_le (Nat.mul_pos (by omega) (by omega))]
      calc baudrate * (spi_prescale freq_in baudrate * spi_postdiv freq_in baudrate)
          ≤ baudrate * (spi_prescale freq_in baudrate * 256) :=
            Nat.mul_le_mul_left _ (Nat.mul_le_mul_left _ hq256)
        _ = spi_prescale freq_in baudrate * 256 * baudrate := by ring
        _ ≤ freq_in := hlow
    omega

/-- Witness for the amended C4: `freq_in` = 510500 and `baudrate` = 1000 give
prescale 2, post-divide 255 and the frequency 1000. -/
theorem spi_set_baudrate_closest_from_below_witness :
    (spi_set_baudrate true rp2040Map rp2040Spi 510500 (spiAt 0 0 0 0) 1000).map Prod.snd
      = some 1000
    ∧ ∃ spi1 r, spi_set_baudrate true rp2040Map rp2040Spi 510500 (spiAt 0 0 0 0) 1000
        = some (spi1, r)
      ∧ (r ≤ 1000 →
          ∀ prescale postdiv : Nat, 2 ≤ prescale → prescale ≤ 254 → prescale % 2 = 0 →
            1 ≤ postdiv → postdiv ≤ 256 →
            510500 / (prescale * postdiv) ≤ 1000 →
            510500 / (prescale * postdiv) ≤ r) :=
  ⟨by decide,
   spi_set_baudrate_closest_from_below true rp2040Map rp2040Spi 510500 (spiAt 0 0 0 0) 1000
     (by decide) (by decide)⟩

/-- Writing a value below 256 into an eight-bit field by the XOR trick and
reading the field back gives the value. -/
theorem scr_field_roundtrip (c q L : Nat) (hq : q < 256) :
    ((c ^^^ ((c ^^^ (q <<< L)) &&& (0xff <<< L))) &&& (0xff <<< L)) >>> L = q := by
  apply Nat.eq_of_testBit_eq
  intro i
  have hff : (0xff : Nat).testBit i = decide (i < 8) := by
    have h : (0xff : Nat) = 2 ^ 8 - 1 := by norm_num
    rw [h, Nat.testBit_two_pow_sub_one]
  simp only [Nat.testBit_shiftRight, Nat.testBit_and, Nat.testBit_xor, Nat.testBit_shiftLeft,
    Nat.add_sub_cancel_left, hff]
  have hge : L + i ≥ L := by omega
  simp only [hge, decide_True, Bool.true_and]
  by_cases hi : i < 8
  · simp only [hi, decide_True, Bool.and_true]
    cases c.testBit (L + i) <;> cases q.testBit i <;> rfl
  · have hq8 : q.testBit i = false :=
      Nat.testBit_eq_false_of_lt (lt_of_lt_of_le hq (by
        have : (256 : Nat) = 2 ^ 8 := by norm_num
        rw [this]; exact Nat.pow_le_pow_right (by norm_num) (by omega)))
    simp [hi, hq8]

theorem shl_field_lt (q L : Nat) (hq : q < 256) (hL : L ≤ 24) :
    (q <<< L) % 2 ^ 32 = q <<< L := by
  apply Nat.mod_eq_of_lt
  rw [Nat.shiftLeft_eq]
  calc q * 2 ^ L < 256 * 2 ^ L := Nat.mul_lt_mul_of_pos_right hq (Nat.two_pow_pos L)
    _ ≤ 256 * 2 ^ 24 := Nat.mul_le_mul_left _ (Nat.pow_le_pow_right (by norm_num) hL)
    _ = 2 ^ 32 := by norm_num

/-- C5: when the prescale search of `spi_set_baudrate` ends with a prescale of
at most 254, the call returns some frequency `r` (CPSR then holds the prescale
and CR0.SCR holds post-divide minus one), and `spi_get_baudrate` called on the
registers it leaves, with the same peripheral clock, returns the same `r`. -/
theorem spi_get_baudrate_after_set (pa : Bool) (am : AddressMap) (k : SpiConsts)
    (freq_in : Nat) (spi : SpiHw) (baudrate : Nat)
    (hsep : am.Separates spi.cr0.addr) (hk : k.ScrField)
    (hp : spi_prescale freq_in baudrate ≤ 254)
    (hok : pa = false ∨ baudrate ≤ freq_in) :
    ∃ spi1 r, spi_set_baudrate pa am k freq_in spi baudrate = some (spi1, r)
      ∧ spi1.cpsr.val = spi_prescale freq_in baudrate
      ∧ (spi1.cr0.val &&& k.SPI_SSPCR0_SCR_BITS) >>> k.SPI_SSPCR0_SCR_LSB
          = spi_postdiv freq_in baudrate - 1
      ∧ spi_get_baudrate k freq_in spi1 = some r := by
  have hok2 : pa = false ∨ (baudrate ≤ freq_in ∧ spi_prescale freq_in baudrate ≤ 254) := by
    rcases hok with h | h
    · exact Or.inl h
    · exact Or.inr ⟨h, hp⟩
  obtain ⟨hs2, -⟩ := spi_prescale_spec freq_in baudrate
  obtain ⟨hq1, hq256⟩ := spi_postdiv_range freq_in baudrate
  obtain ⟨hbits, hlsb⟩ := hk
  have hcr0 : ((hw_write_masked am spi.cr0 spi.cr0.addr
        (((spi_postdiv freq_in baudrate - 1) <<< k.SPI_SSPCR0_SCR_LSB) % 2 ^ 32)
        k.SPI_SSPCR0_SCR_BITS).val &&& k.SPI_SSPCR0_SCR_BITS) >>> k.SPI_SSPCR0_SCR_LSB
      = spi_postdiv freq_in baudrate - 1 := by
    rw [write_masked_val am spi.cr0 _ _ hsep, shl_field_lt _ _ (by omega) hlsb, hbits]
    exact scr_field_roundtrip _ _ _ (by omega)
  have hcpsr : (spi.cpsr.store am spi.cpsr.addr (spi_prescale freq_in baudrate)).val
      = spi_prescale freq_in baudrate := by
    simp [IoReg.store]
  refine ⟨_, _, spi_set_baudrate_eq pa am k freq_in spi baudrate hok2, hcpsr, hcr0, ?_⟩
  have haddr0 : (hw_write_masked am spi.cr0 spi.cr0.addr
        (((spi_postdiv freq_in baudrate - 1) <<< k.SPI_SSPCR0_SCR_LSB) % 2 ^ 32)
        k.SPI_SSPCR0_SCR_BITS).addr = spi.cr0.addr := rfl
  have haddr1 : (spi.cpsr.store am spi.cpsr.addr (spi_prescale freq_in baudrate)).addr
      = spi.cpsr.addr := rfl
  have hmul : spi_prescale freq_in baudrate * spi_postdiv freq_in baudrate < 2 ^ 32 := by
    calc spi_prescale freq_in baudrate * spi_postdiv freq_in baudrate
        ≤ 254 * 256 := Nat.mul_le_mul hp hq256
      _ < 2 ^ 32 := by norm_num
  have hpos : 0 < spi_prescale freq_in baudrate * spi_postdiv freq_in baudrate :=
    Nat.mul_pos (by omega) (by omega)
  have hq : (spi_postdiv freq_in baudrate - 1 + 1) % 2 ^ 32 = spi_postdiv freq_in baudrate := by
    rw [Nat.sub_add_cancel hq1]
    exact Nat.mod_eq_of_lt (by omega)
  simp only [spi_get_baudrate, IoReg.load, haddr0, haddr1, if_true, hcr0, hcpsr, hq,
    Nat.mod_eq_of_lt hmul]
  rw [if_neg (by omega)]

/-- Witness for C5: peripheral clock 125 MHz, request 125 kHz, SPI enabled and
CR0 holding `0x0007`; set and get both give 244140. -/
theorem spi_get_baudrate_after_set_witness :
    (spi_set_baudrate true rp2040Map rp2040Spi 125000000 (spiAt 0x7 0x2 0 0) 125000).map
        Prod.snd = some 244140
    ∧ ∃ spi1 r, spi_set_baudrate true rp2040Map rp2040Spi 125000000 (spiAt 0x7 0x2 0 0) 125000
          = some (spi1, r)
      ∧ spi1.cpsr.val = spi_prescale 125000000 125000
      ∧ (spi1.cr0.val &&& rp2040Spi.SPI_SSPCR0_SCR_BITS) >>> rp2040Spi.SPI_SSPCR0_SCR_LSB
          = spi_postdiv 125000000 125000 - 1
      ∧ spi_get_baudrate rp2040Spi 125000000 spi1 = some r :=
  ⟨by decide,
   spi_get_baudrate_after_set true rp2040Map rp2040Spi 125000000 (spiAt 0x7 0x2 0 0) 125000
     (by decide) (by decide) (by decide) (Or.inr (by decide))⟩

/-! ### Spin locks on one core: interrupt state and the value stored -/

/-- The spin loop returns as soon as a load gives a non-zero value: if the load
number `s.lockLoads + n` does, `n + 1` loads are enough.  It leaves PRIMASK
alone and does nothing but loads of the lock register followed by one `dmb`. -/
theorem spin_lock_unsafe_blocking_returns (hw : Nat → Nat) :
    ∀ (n : Nat) (s : CoreState), hw (s.lockLoads + n) ≠ 0 →
      ∃ (s2 : CoreState) (vs : List Nat), spin_lock_unsafe_blocking hw (n + 1) s = some s2
        ∧ s2.primask = s.primask
        ∧ s2.trace = s.trace ++ vs.map SyncEvent.lock_load ++ [SyncEvent.dmb] := by
  intro n
  induction n with
  | zero =>
    intro s h
    refine ⟨mem_fence_acquire
      ⟨s.primask, s.lockLoads + 1, s.trace ++ [SyncEvent.lock_load (hw s.lockLoads)]⟩,
      [hw s.lockLoads], ?_, ?_, ?_⟩
    · simp only [spin_lock_unsafe_blocking]
      rw [if_neg (by simpa using h)]
    · rfl
    · simp [mem_fence_acquire, dmb]
  | succ m ih =>
    intro s h
    by_cases hv : hw s.lockLoads = 0
    · obtain ⟨s2, vs, h1, h2, h3⟩ := ih
        { s with lockLoads := s.lockLoads + 1,
                 trace := s.trace ++ [SyncEvent.lock_load (hw s.lockLoads)] }
        (by
          have e : s.lockLoads + 1 + m = s.lockLoads + (m + 1) := by omega
          simpa [e] using h)
      refine ⟨s2, hw s.lockLoads :: vs, ?_, h2, ?_⟩
      · rw [← h1]
        conv_lhs => unfold spin_lock_unsafe_blocking
        simp only [hv, if_true]
      · rw [h3]
        simp
    · refine ⟨mem_fence_acquire
        ⟨s.primask, s.lockLoads + 1, s.trace ++ [SyncEvent.lock_load (hw s.lockLoads)]⟩,
        [hw s.lockLoads], ?_, ?_, ?_⟩
      · conv_lhs => unfold spin_lock_unsafe_blocking
        simp only [hv, if_false]
      · rfl
      · simp [mem_fence_acquire, dmb]

/-- C6: `spin_lock_blocking` reads PRIMASK and disables interrupts before the
first load of the lock register, returns the PRIMASK value that held before the
call, and leaves interrupts disabled; `spin_unlock` given that value stores to
the lock register and then writes the value back to PRIMASK.  So for both
initial states (PRIMASK 0: enabled, 1: disabled) the pair leaves the
interrupt-enable state as it was, with interrupts disabled in between.  The
acquire returns whenever some load of the lock register gives non-zero. -/
theorem spin_lock_blocking_restores_irq (hw : Nat → Nat) (s : CoreState) (n : Nat)
    (hp : s.primask = 0 ∨ s.primask = 1) (hfree : hw (s.lockLoads + n) ≠ 0) :
    ∃ (s2 : CoreState) (vs : List Nat), spin_lock_blocking hw (n + 1) s = some (s.primask, s2)
      ∧ s2.primask = 1
      ∧ s2.trace = s.trace ++ [SyncEvent.mrs_primask s.primask, SyncEvent.cpsid_i]
          ++ vs.map SyncEvent.lock_load ++ [SyncEvent.dmb]
      ∧ (spin_unlock s2 s.primask).primask = s.primask
      ∧ (spin_unlock s2 s.primask).trace
          = s2.trace ++ [SyncEvent.dmb, SyncEvent.lock_store 0,
              SyncEvent.msr_primask s.primask] := by
  obtain ⟨s2, vs, h1, h2, h3⟩ := spin_lock_unsafe_blocking_returns hw n
    (save_and_disable_interrupts s).2 hfree
  refine ⟨s2, vs, ?_, ?_, ?_, ?_, ?_⟩
  · simp only [spin_lock_blocking, h1]
    rfl
  · rw [h2]; rfl
  · rw [h3]; rfl
  · simp only [spin_unlock, restore_interrupts]
    rcases hp with h | h <;> rw [h]
  · simp [spin_unlock, restore_interrupts, spin_unlock_unsafe, mem_fence_release, dmb]

/-- Witness for C6: interrupts enabled, the lock taken at the first load and
free at the second. -/
theorem spin_lock_blocking_restores_irq_witness :
    spin_lock_blocking (fun n => if n = 1 then 1 else 0) 2 ⟨0, 0, []⟩
      = some (0, ⟨1, 2, [SyncEvent.mrs_primask 0, SyncEvent.cpsid_i, SyncEvent.lock_load 0,
          SyncEvent.lock_load 1, SyncEvent.dmb]⟩)
    ∧ ∃ (s2 : CoreState) (vs : List Nat), spin_lock_blocking (fun n => if n = 1 then 1 else 0) (1 + 1) ⟨0, 0, []⟩
          = some ((⟨0, 0, []⟩ : CoreState).primask, s2)
      ∧ s2.primask = 1
      ∧ s2.trace = (⟨0, 0, []⟩ : CoreState).trace
          ++ [SyncEvent.mrs_primask (⟨0, 0, []⟩ : CoreState).primask, SyncEvent.cpsid_i]
          ++ vs.map SyncEvent.lock_load ++ [SyncEvent.dmb]
      ∧ (spin_unlock s2 (⟨0, 0, []⟩ : CoreState).primask).primask
          = (⟨0, 0, []⟩ : CoreState).primask
      ∧ (spin_unlock s2 (⟨0, 0, []⟩ : CoreState).primask).trace
          = s2.trace ++ [SyncEvent.dmb, SyncEvent.lock_store 0,
              SyncEvent.msr_primask (⟨0, 0, []⟩ : CoreState).primask] :=
  ⟨by decide,
   spin_lock_blocking_restores_irq (fun n => if n = 1 then 1 else 0) ⟨0, 0, []⟩ 1
     (Or.inl rfl) (by decide)⟩

theorem lockStores_append (xs ys : List SyncEvent) :
    lockStores (xs ++ ys) = lockStores xs ++ lockStores ys := by
  induction xs with
  | nil => rfl
  | cons x rest ih => cases x <;> simp [lockStores, ih]

/-- C8 (counterexample): the one value `spin_unlock_unsafe` stores to the lock
register is 0, so it is not true that every value it stores is non-zero. -/
theorem spin_unlock_unsafe_stores_zero :
    lockStores ( spin_unlock_unsafe ⟨1, 0, []⟩).trace = [0]
    ∧ ¬ (∀ v ∈ lockStores ( spin_unlock_unsafe ⟨1, 0, []⟩).trace, v ≠ 0) := by
  constructor
  · decide
  · decide

/-- C8 (amended): releasing a spin lock rewrites the lock register with the
value 0: `spin_unlock_unsafe`, and therefore `spin_unlock`, makes exactly one
store to the lock register, after a `dmb`, and the value stored is 0. -/
theorem spin_unlock_store_value (s : CoreState) (saved_irq : Nat) :
    ( spin_unlock_unsafe s).trace = s.trace ++ [SyncEvent.dmb, SyncEvent.lock_store 0]
    ∧ lockStores ( spin_unlock_unsafe s).trace = lockStores s.trace ++ [0]
    ∧ lockStores (spin_unlock s saved_irq).trace = lockStores s.trace ++ [0] := by
  have h1 : ( spin_unlock_unsafe s).trace
      = s.trace ++ [SyncEvent.dmb, SyncEvent.lock_store 0] := by
    simp [ spin_unlock_unsafe, mem_fence_release, dmb]
  have h2 : (spin_unlock s saved_irq).trace
      = s.trace ++ [SyncEvent.dmb, SyncEvent.lock_store 0, SyncEvent.msr_primask saved_irq] := by
    simp [spin_unlock, restore_interrupts, spin_unlock_unsafe, mem_fence_release, dmb]
  refine ⟨h1, ?_, ?_⟩
  · rw [h1, lockStores_append]; rfl
  · rw [h2, lockStores_append]; rfl

/-! ### Spin locks on two cores: mutual exclusion -/

/-- `spin_lock_unsafe_blocking` is still in its loop after `fuel` loads exactly
when all of them returned zero. -/
theorem spin_lock_unsafe_blocking_none_iff (hw : Nat → Nat) :
    ∀ (fuel : Nat) (s : CoreState),
      spin_lock_unsafe_blocking hw fuel s = none
        ↔ ∀ i, i < fuel → hw (s.lockLoads + i) = 0 := by
  intro fuel
  induction fuel with
  | zero =>
    intro s
    constructor
    · intro _ i hi
      omega
    · intro _
      rfl
  | succ n ih =>
    intro s
    rw [spin_lock_unsafe_blocking]
    by_cases hv : hw s.lockLoads = 0
    · simp only [hv, if_true]
      rw [ih]
      constructor
      · intro h i hi
        rcases Nat.eq_zero_or_pos i with h0 | hpos
        · rw [h0]
          exact hv
        · have := h (i - 1) (by omega)
          have he : s.lockLoads + 1 + (i - 1) = s.lockLoads + i := by omega
          rw [← he]
          exact this
      · intro h i hi
        have := h (i + 1) (by omega)
        have he : s.lockLoads + 1 + i = s.lockLoads + (i + 1) := by omega
        show hw (s.lockLoads + 1 + i) = 0
        rw [he]
        exact this
    · simp only [hv, if_false]
      constructor
      · intro h
        cases h
      · intro h
        exact absurd (h 0 (by omega)) hv

/-- A core is still in the loop of `spin_lock_unsafe_blocking` exactly when
every load it has made since the call returned zero. -/
theorem lock_progress_none_iff (entry : CoreState) (loaded : List Nat) :
    lock_progress entry loaded = none ↔ ∀ v ∈ loaded, v = 0 := by
  unfold lock_progress
  rw [spin_lock_unsafe_blocking_none_iff]
  constructor
  · intro h v hv
    obtain ⟨i, hi, hget⟩ := List.getElem_of_mem hv
    have := h i hi
    unfold loadOracle at this
    rw [Nat.add_sub_cancel_left, List.getD_eq_getElem _ _ hi, hget] at this
    exact this
  · intro h i hi
    unfold loadOracle
    rw [Nat.add_sub_cancel_left, List.getD_eq_getElem _ _ hi]
    exact h _ (List.getElem_mem hi)

theorem LockSys.inv_step (tok : Nat) (s : LockSys) (c : Bool) (a : LockAction)
    (h : s.Inv) : (s.step tok c a).Inv := by
  obtain ⟨h1, h2, h3⟩ := h
  cases a with
  | call_lock =>
    rw [LockSys.step]
    cases hm : s.core c with
    | in_lock entry loaded => exact ⟨h1, h2, h3⟩
    | outside st =>
      have hp : lock_progress st [] = none :=
        (lock_progress_none_iff st []).mpr (fun v hv => by cases hv)
      simp only [LockSys.advance, hp]
      refine ⟨h1, h2, fun d entry loaded hd => ?_⟩
      by_cases hdc : d = c
      · simp only [LockSys.setCore, hdc, if_true] at hd
        injection hd with _ hl
        rw [← hl]
        intro v hv
        cases hv
      · simp only [LockSys.setCore, hdc, if_false] at hd
        exact h3 d entry loaded hd
  | load_lock =>
    rw [LockSys.step]
    cases hm : s.core c with
    | outside st => exact ⟨h1, h2, h3⟩
    | in_lock entry loaded =>
      have hz := h3 c entry loaded hm
      simp only [lockRegLoad]
      cases hp : lock_progress entry (loaded ++ [if s.free = true then tok else 0]) with
      | none =>
        simp only [LockSys.advance, hp]
        refine ⟨fun _ _ => rfl, h2, fun d entry2 loaded2 hd => ?_⟩
        by_cases hdc : d = c
        · simp only [LockSys.setCore, hdc, if_true] at hd
          injection hd with _ hl
          rw [← hl]
          exact (lock_progress_none_iff _ _).mp hp
        · simp only [LockSys.setCore, hdc, if_false] at hd
          exact h3 d entry2 loaded2 hd
      | some st =>
        -- the load that ends the loop returned a non-zero value: the lock was free
        have hfree : s.free = true := by
          by_contra hf
          have hnone : lock_progress entry (loaded ++ [if s.free = true then tok else 0])
              = none := by
            rw [lock_progress_none_iff]
            intro v hv
            rcases List.mem_append.mp hv with hv | hv
            · exact hz v hv
            · rw [List.mem_singleton] at hv
              rw [hv, if_neg hf]
          rw [hnone] at hp
          cases hp
        have hnobody : ∀ d, s.returned d = true → False := by
          intro d hd
          have := h1 d hd
          rw [hfree] at this
          cases this
        simp only [LockSys.advance, hp]
        refine ⟨fun _ _ => rfl, fun d e hd he => ?_, fun d entry2 loaded2 hd => ?_⟩
        · have hdc : d = c := by
            by_contra hne
            simp only [hne, if_false] at hd
            exact hnobody d hd
          have hec : e = c := by
            by_contra hne
            simp only [hne, if_false] at he
            exact hnobody e he
          rw [hdc, hec]
        · by_cases hdc : d = c
          · simp only [LockSys.setCore, hdc, if_true] at hd
            cases hd
          · simp only [LockSys.setCore, hdc, if_false] at hd
            exact h3 d entry2 loaded2 hd
  | unlock =>
    rw [LockSys.step]
    cases hm : s.core c with
    | in_lock entry loaded => exact ⟨h1, h2, h3⟩
    | outside st =>
      refine ⟨fun d hd => ?_, fun d e hd _ => ?_, fun d entry loaded hd => ?_⟩
      · cases hd
      · cases hd
      · by_cases hdc : d = c
        · simp only [LockSys.setCore, hdc, if_true] at hd
          cases hd
        · simp only [LockSys.setCore, hdc, if_false] at hd
          exact h3 d entry loaded hd

theorem LockSys.inv_run (tok : Nat) (sched : List (Bool × LockAction)) :
    ∀ s : LockSys, s.Inv → (s.run tok sched).Inv := by
  induction sched with
  | nil => intro s h; exact h
  | cons x rest ih =>
    intro s h
    obtain ⟨c, a⟩ := x
    exact ih _ (LockSys.inv_step tok s c a h)

/-- The store of `spin_unlock_unsafe`, as the lock register sees it: one store,
of zero. -/
theorem spin_unlock_unsafe_new_stores (st : CoreState) :
    lockStores (( spin_unlock_unsafe st).trace.drop st.trace.length) = [0] := by
  have e : ( spin_unlock_unsafe st).trace
      = st.trace ++ [SyncEvent.dmb, SyncEvent.lock_store 0] := by
    simp [ spin_unlock_unsafe, mem_fence_release, dmb]
  rw [e, List.drop_left]
  rfl

/-- C7: mutual exclusion.  Two cores run the embedded
`spin_lock_unsafe_blocking` and `spin_unlock_unsafe` on one lock; a load of the
lock register returns non-zero (`tok`) exactly when the lock was free and
leaves it taken, and the store of `spin_unlock_unsafe` frees it.  For every
interleaving of the calls and loads of the two cores, from a start where
neither core has the lock, the state reached never has both cores returned from
`spin_lock_unsafe_blocking` with no `spin_unlock_unsafe` by either of them
since; while one core is in that position the lock is taken; a core that is
still inside `spin_lock_unsafe_blocking` has loaded zeros only, its function
being still in the loop on them.  From every such state, a call of
`spin_unlock_unsafe` by a core leaves the lock free, and with the lock free and
`tok` non-zero the next load of a core inside `spin_lock_unsafe_blocking` makes
its function return. -/
theorem spin_lock_mutual_exclusion (tok : Nat) (free : Bool) (st0 st1 : CoreState)
    (sched : List (Bool × LockAction)) :
    ¬ (((LockSys.init free st0 st1).run tok sched).returned false = true
        ∧ ((LockSys.init free st0 st1).run tok sched).returned true = true)
    ∧ (∀ c, ((LockSys.init free st0 st1).run tok sched).returned c = true →
        ((LockSys.init free st0 st1).run tok sched).free = false)
    ∧ (∀ c entry loaded,
        ((LockSys.init free st0 st1).run tok sched).core c = CoreMode.in_lock entry loaded →
        (∀ v ∈ loaded, v = 0)
        ∧ spin_lock_unsafe_blocking (loadOracle entry loaded) loaded.length entry = none)
    ∧ (∀ c st, ((LockSys.init free st0 st1).run tok sched).core c = CoreMode.outside st →
        (((LockSys.init free st0 st1).run tok sched).step tok c LockAction.unlock).free = true
        ∧ (((LockSys.init free st0 st1).run tok sched).step tok c LockAction.unlock).core c
            = CoreMode.outside ( spin_unlock_unsafe st))
    ∧ (∀ c entry loaded,
        ((LockSys.init free st0 st1).run tok sched).core c = CoreMode.in_lock entry loaded →
        ((LockSys.init free st0 st1).run tok sched).free = true → tok ≠ 0 →
        (((LockSys.init free st0 st1).run tok sched).step tok c LockAction.load_lock).returned c
            = true
        ∧ (((LockSys.init free st0 st1).run tok sched).step tok c LockAction.load_lock).core c
            = CoreMode.outside
                ((spin_lock_unsafe_blocking (loadOracle entry (loaded ++ [tok]))
                  (loaded.length + 1) entry).getD entry)
        ∧ (((LockSys.init free st0 st1).run tok sched).step tok c LockAction.load_lock).free
            = false) := by
  have hinit : (LockSys.init free st0 st1).Inv := by
    refine ⟨fun c hc => ?_, fun c _ hc _ => ?_, fun c entry loaded hc => ?_⟩
    · cases hc
    · cases hc
    · cases c <;> simp [LockSys.init] at hc
  obtain ⟨h1, h2, h3⟩ := LockSys.inv_run tok sched _ hinit
  refine ⟨fun hboth => ?_, h1, fun c entry loaded hc => ?_, fun c st hc => ?_,
    fun c entry loaded hc hfree htok => ?_⟩
  · have := h2 false true hboth.1 hboth.2
    cases this
  · exact ⟨h3 c entry loaded hc, (lock_progress_none_iff entry loaded).mpr (h3 c entry loaded hc)⟩
  · rw [LockSys.step]
    simp only [hc, spin_unlock_unsafe_new_stores, LockSys.setCore]
    simp
  · rw [LockSys.step]
    simp only [hc, lockRegLoad, hfree, if_true]
    have hlen : (loaded ++ [tok]).length = loaded.length + 1 := by simp
    cases hp : lock_progress entry (loaded ++ [tok]) with
    | none =>
      have := (lock_progress_none_iff _ _).mp hp tok (by simp)
      exact absurd this htok
    | some st =>
      have hp2 : spin_lock_unsafe_blocking (loadOracle entry (loaded ++ [tok]))
          (loaded.length + 1) entry = some st := by
        rw [← hlen]
        exact hp
      simp only [LockSys.advance, hp, hp2, LockSys.setCore]
      simp

/-- A run of the two cores: core 0 takes the free lock with its first load;
core 1 spins without getting it; after core 0 unlocks, the next load of core 1
gets it.  The state of each core is the one the embedded functions leave. -/
theorem spin_lock_handover_run :
    ((LockSys.init true ⟨0, 0, []⟩ ⟨0, 0, []⟩).run 1
        [(false, LockAction.call_lock), (false, LockAction.load_lock),
         (true, LockAction.call_lock), (true, LockAction.load_lock)]).returned false = true
    ∧ ((LockSys.init true ⟨0, 0, []⟩ ⟨0, 0, []⟩).run 1
        [(false, LockAction.call_lock), (false, LockAction.load_lock),
         (true, LockAction.call_lock), (true, LockAction.load_lock)]).core false
        = CoreMode.outside ⟨0, 1, [SyncEvent.lock_load 1, SyncEvent.dmb]⟩
    ∧ ((LockSys.init true ⟨0, 0, []⟩ ⟨0, 0, []⟩).run 1
        [(false, LockAction.call_lock), (false, LockAction.load_lock),
         (true, LockAction.call_lock), (true, LockAction.load_lock)]).core true
        = CoreMode.in_lock ⟨0, 0, []⟩ [0]
    ∧ ((LockSys.init true ⟨0, 0, []⟩ ⟨0, 0, []⟩).run 1
        [(false, LockAction.call_lock), (false, LockAction.load_lock),
         (true, LockAction.call_lock), (true, LockAction.load_lock),
         (false, LockAction.unlock), (true, LockAction.load_lock)]).returned true = true
    ∧ ((LockSys.init true ⟨0, 0, []⟩ ⟨0, 0, []⟩).run 1
        [(false, LockAction.call_lock), (false, LockAction.load_lock),
         (true, LockAction.call_lock), (true, LockAction.load_lock),
         (false, LockAction.unlock), (true, LockAction.load_lock)]).returned false = false
    ∧ ((LockSys.init true ⟨0, 0, []⟩ ⟨0, 0, []⟩).run 1
        [(false, LockAction.call_lock), (false, LockAction.load_lock),
         (true, LockAction.call_lock), (true, LockAction.load_lock),
         (false, LockAction.unlock), (true, LockAction.load_lock)]).core true
        = CoreMode.outside
            ⟨0, 2, [SyncEvent.lock_load 0, SyncEvent.lock_load 1, SyncEvent.dmb]⟩
    ∧ ((LockSys.init true ⟨0, 0, []⟩ ⟨0, 0, []⟩).run 1
        [(false, LockAction.call_lock), (false, LockAction.load_lock),
         (true, LockAction.call_lock), (true, LockAction.load_lock),
         (false, LockAction.unlock), (true, LockAction.load_lock)]).core false
        = CoreMode.outside
            ⟨0, 1, [SyncEvent.lock_load 1, SyncEvent.dmb, SyncEvent.dmb,
                    SyncEvent.lock_store 0]⟩ := by
  refine ⟨by decide, by decide, by decide, by decide, by decide, by decide, by decide⟩

/-- Witness for C7: the lock is free and returns 1; core 0 calls and loads,
then core 1 calls and loads.  Core 0 has the lock and core 1 has not; the next
`spin_unlock_unsafe` of core 0 frees the lock. -/
theorem spin_lock_mutual_exclusion_witness :
    ((LockSys.init true ⟨0, 0, []⟩ ⟨0, 0, []⟩).run 1
        [(false, LockAction.call_lock), (false, LockAction.load_lock),
         (true, LockAction.call_lock), (true, LockAction.load_lock)]).returned false = true
    ∧ ((LockSys.init true ⟨0, 0, []⟩ ⟨0, 0, []⟩).run 1
        [(false, LockAction.call_lock), (false, LockAction.load_lock),
         (true, LockAction.call_lock), (true, LockAction.load_lock)]).returned true = false
    ∧ ¬ (((LockSys.init true ⟨0, 0, []⟩ ⟨0, 0, []⟩).run 1
          [(false, LockAction.call_lock), (false, LockAction.load_lock),
           (true, LockAction.call_lock), (true, LockAction.load_lock)]).returned false = true
        ∧ ((LockSys.init true ⟨0, 0, []⟩ ⟨0, 0, []⟩).run 1
          [(false, LockAction.call_lock), (false, LockAction.load_lock),
           (true, LockAction.call_lock), (true, LockAction.load_lock)]).returned true = true)
    ∧ ((LockSys.init true ⟨0, 0, []⟩ ⟨0, 0, []⟩).run 1
        [(false, LockAction.call_lock), (false, LockAction.load_lock),
         (true, LockAction.call_lock), (true, LockAction.load_lock)]).free = false
    ∧ ((((LockSys.init true ⟨0, 0, []⟩ ⟨0, 0, []⟩).run 1
        [(false, LockAction.call_lock), (false, LockAction.load_lock),
         (true, LockAction.call_lock), (true, LockAction.load_lock)]).step 1 false
          LockAction.unlock).free = true
      ∧ (((LockSys.init true ⟨0, 0, []⟩ ⟨0, 0, []⟩).run 1
        [(false, LockAction.call_lock), (false, LockAction.load_lock),
         (true, LockAction.call_lock), (true, LockAction.load_lock)]).step 1 false
          LockAction.unlock).core false
        = CoreMode.outside
            ( spin_unlock_unsafe ⟨0, 1, [SyncEvent.lock_load 1, SyncEvent.dmb]⟩)) :=
  have h := spin_lock_mutual_exclusion 1 true ⟨0, 0, []⟩ ⟨0, 0, []⟩
    [(false, LockAction.call_lock), (false, LockAction.load_lock),
     (true, LockAction.call_lock), (true, LockAction.load_lock)]
  ⟨by decide, by decide, h.1, h.2.1 false (by decide),
   h.2.2.2.1 false ⟨0, 1, [SyncEvent.lock_load 1, SyncEvent.dmb]⟩ (by decide)⟩

/-! ### Priority conventions and spin lock numbering -/

/-- C18: the two priority conventions are opposite and both kept: the highest
hardware IRQ priority (0x00) is numerically below the lowest (0xff), the highest
shared-handler order priority (0xff) is numerically above the lowest (0x00), and
both defaults are 0x80 and lie between the bounds of their own convention. -/
theorem irq_priority_conventions :
    PICO_HIGHEST_IRQ_PRIORITY = 0x00 ∧ PICO_LOWEST_IRQ_PRIORITY = 0xff
    ∧ PICO_HIGHEST_IRQ_PRIORITY < PICO_LOWEST_IRQ_PRIORITY
    ∧ PICO_SHARED_IRQ_HANDLER_HIGHEST_ORDER_PRIORITY = 0xff
    ∧ PICO_SHARED_IRQ_HANDLER_LOWEST_ORDER_PRIORITY = 0x00
    ∧ PICO_SHARED_IRQ_HANDLER_LOWEST_ORDER_PRIORITY
        < PICO_SHARED_IRQ_HANDLER_HIGHEST_ORDER_PRIORITY
    ∧ PICO_DEFAULT_IRQ_PRIORITY = 0x80
    ∧ PICO_SHARED_IRQ_HANDLER_DEFAULT_ORDER_PRIORITY = 0x80
    ∧ PICO_HIGHEST_IRQ_PRIORITY < PICO_DEFAULT_IRQ_PRIORITY
    ∧ PICO_DEFAULT_IRQ_PRIORITY < PICO_LOWEST_IRQ_PRIORITY
    ∧ PICO_SHARED_IRQ_HANDLER_LOWEST_ORDER_PRIORITY
        < PICO_SHARED_IRQ_HANDLER_DEFAULT_ORDER_PRIORITY
    ∧ PICO_SHARED_IRQ_HANDLER_DEFAULT_ORDER_PRIORITY
        < PICO_SHARED_IRQ_HANDLER_HIGHEST_ORDER_PRIORITY := by
  decide

/-- C19: the default spin lock numbering: the striped range is 16..23 and the
claim-free range is 24..31, both lie inside 0..31 and do not overlap; the
reserved IDs 9, 10, 11, 12, 14, 15 are pairwise distinct and lie below the
striped range, and OS1 and OS2 are exactly 14 and 15. -/
theorem spin_lock_id_allocation :
    PICO_SPINLOCK_ID_STRIPED_FIRST = 16 ∧ PICO_SPINLOCK_ID_STRIPED_LAST = 23
    ∧ PICO_SPINLOCK_ID_CLAIM_FREE_FIRST = 24 ∧ PICO_SPINLOCK_ID_CLAIM_FREE_LAST = 31
    ∧ PICO_SPINLOCK_ID_STRIPED_FIRST ≤ PICO_SPINLOCK_ID_STRIPED_LAST
    ∧ PICO_SPINLOCK_ID_STRIPED_LAST < PICO_SPINLOCK_ID_CLAIM_FREE_FIRST
    ∧ PICO_SPINLOCK_ID_CLAIM_FREE_FIRST ≤ PICO_SPINLOCK_ID_CLAIM_FREE_LAST
    ∧ PICO_SPINLOCK_ID_CLAIM_FREE_LAST ≤ 31
    ∧ reservedSpinLockIds = [9, 10, 11, 12, 14, 15]
    ∧ reservedSpinLockIds.Nodup
    ∧ (∀ i ∈ reservedSpinLockIds, i < PICO_SPINLOCK_ID_STRIPED_FIRST)
    ∧ PICO_SPINLOCK_ID_OS1 = 14 ∧ PICO_SPINLOCK_ID_OS2 = 15 := by
  decide

/-- C15: `set_sys_clock_khz(freq_khz, required)` returns true exactly when
`check_sys_clock_khz` succeeds, and then `set_sys_clock_pll` is called once, with
the `vco`, `postdiv1` and `postdiv2` the check wrote; when the check fails and
`required` is false it returns false without calling `set_sys_clock_pll`; when
the check fails and `required` is true it panics and does not return. -/
theorem set_sys_clock_khz_spec (check : Nat → Bool × Nat × Nat × Nat)
    (freq_khz : Nat) (required : Bool) :
    ((check freq_khz).1 = true →
        set_sys_clock_khz check freq_khz required
          = CallOutcome.returned (true,
              [⟨(check freq_khz).2.1, (check freq_khz).2.2.1, (check freq_khz).2.2.2⟩]))
    ∧ ((check freq_khz).1 = false → required = false →
        set_sys_clock_khz check freq_khz required = CallOutcome.returned (false, []))
    ∧ ((check freq_khz).1 = false → required = true →
        set_sys_clock_khz check freq_khz required = CallOutcome.panicked)
    ∧ ((∃ calls, set_sys_clock_khz check freq_khz required
          = CallOutcome.returned (true, calls)) ↔ (check freq_khz).1 = true) := by
  rcases h : check freq_khz with ⟨ok, vco, p1, p2⟩
  cases ok <;> cases required <;> simp [set_sys_clock_khz, h]

/-- C17: spin lock number and instance are inverse.  For every `lock_num`
below `NUM_SPIN_LOCKS`, `spin_lock_instance(lock_num)` is the address
`SIO_BASE + SIO_SPINLOCK0_OFFSET + 4 * lock_num`, none of the three
invalid-parameter conditions of `spin_lock_get_num` holds for it, and
`spin_lock_get_num` gives back `lock_num`; hence distinct lock numbers have
distinct instances. -/
theorem spin_lock_get_num_instance (pa : Bool) (c : SioConsts) (hc : c.Layout)
    (lock_num : Nat) (hn : lock_num < c.NUM_SPIN_LOCKS) :
    (∃ lock : Nat, spin_lock_instance pa c lock_num = some lock
        ∧ lock = c.SIO_BASE + c.SIO_SPINLOCK0_OFFSET + lock_num * 4
        ∧ spin_lock_get_num_invalid c lock = (false, false, false)
        ∧ spin_lock_get_num pa c lock = some lock_num)
    ∧ ∀ other : Nat, other < c.NUM_SPIN_LOCKS →
        spin_lock_instance pa c other = spin_lock_instance pa c lock_num →
        other = lock_num := by
  obtain ⟨hal, hfit, hlen⟩ := hc
  have hinst : ∀ n : Nat, n < c.NUM_SPIN_LOCKS →
      spin_lock_instance pa c n = some (c.SIO_BASE + c.SIO_SPINLOCK0_OFFSET + n * 4) := by
    intro n hlt
    unfold spin_lock_instance
    rw [if_neg (by intro hcon; omega), Nat.mod_eq_of_lt (by omega)]
  have h1 : (c.SIO_BASE + c.SIO_SPINLOCK0_OFFSET) % 2 ^ 32
      = c.SIO_BASE + c.SIO_SPINLOCK0_OFFSET := Nat.mod_eq_of_lt (by omega)
  have hinv : spin_lock_get_num_invalid c
      (c.SIO_BASE + c.SIO_SPINLOCK0_OFFSET + lock_num * 4) = (false, false, false) := by
    unfold spin_lock_get_num_invalid sizeof_spin_lock_t
    have h2 : (c.NUM_SPIN_LOCKS * 4 + c.SIO_BASE + c.SIO_SPINLOCK0_OFFSET) % 2 ^ 32
        = c.NUM_SPIN_LOCKS * 4 + c.SIO_BASE + c.SIO_SPINLOCK0_OFFSET :=
      Nat.mod_eq_of_lt (by omega)
    have h3 : c.SIO_BASE % 2 ^ 32 = c.SIO_BASE := Nat.mod_eq_of_lt (by omega)
    rw [h1, h2, h3]
    have ha : ¬ (c.SIO_BASE + c.SIO_SPINLOCK0_OFFSET + lock_num * 4
        < c.SIO_BASE + c.SIO_SPINLOCK0_OFFSET) := by omega
    have hb : ¬ (c.SIO_BASE + c.SIO_SPINLOCK0_OFFSET + lock_num * 4
        ≥ c.NUM_SPIN_LOCKS * 4 + c.SIO_BASE + c.SIO_SPINLOCK0_OFFSET) := by omega
    have hd : ¬ ((c.SIO_BASE + c.SIO_SPINLOCK0_OFFSET + lock_num * 4 + 2 ^ 32 - c.SIO_BASE
        + c.SIO_SPINLOCK0_OFFSET) % 2 ^ 32 % 4 ≠ 0) := by omega
    simp only [ha, hb, hd, decide_False]
  refine ⟨⟨_, hinst lock_num hn, rfl, hinv, ?_⟩, ?_⟩
  · unfold spin_lock_get_num
    rw [hinv, if_neg (by simp), h1]
    unfold spin_lock_ptr_diff sizeof_spin_lock_t
    have hd : ((c.SIO_BASE + c.SIO_SPINLOCK0_OFFSET + lock_num * 4) % 2 ^ 32 + 2 ^ 32
        - (c.SIO_BASE + c.SIO_SPINLOCK0_OFFSET) % 2 ^ 32) % 2 ^ 32 = lock_num * 4 := by
      omega
    simp only [hd]
    rw [if_pos (by omega)]
    congr 1
    omega
  · intro other ho heq
    rw [hinst other ho, hinst lock_num hn] at heq
    have := Option.some.inj heq
    omega

/-- Witness for C17 on the RP2040 constants: lock 5 is at `0xd0000114`. -/
theorem spin_lock_get_num_instance_witness :
    spin_lock_instance true rp2040Sio 5 = some 0xd0000114
    ∧ spin_lock_get_num true rp2040Sio 0xd0000114 = some 5
    ∧ (∃ lock : Nat, spin_lock_instance true rp2040Sio 5 = some lock
        ∧ lock = rp2040Sio.SIO_BASE + rp2040Sio.SIO_SPINLOCK0_OFFSET + 5 * 4
        ∧ spin_lock_get_num_invalid rp2040Sio lock = (false, false, false)
        ∧ spin_lock_get_num true rp2040Sio lock = some 5)
    ∧ ∀ other : Nat, other < rp2040Sio.NUM_SPIN_LOCKS →
        spin_lock_instance true rp2040Sio other = spin_lock_instance true rp2040Sio 5 →
        other = 5 :=
  ⟨by decide, by decide,
   (spin_lock_get_num_instance true rp2040Sio (by decide) 5 (by decide)).1,
   (spin_lock_get_num_instance true rp2040Sio (by decide) 5 (by decide)).2⟩

/-! ### async_context wrappers -/

/-- C13 (counterexample): worker 7 is registered with deadline 100.  The call
`async_context_add_at_time_worker_at(context, worker, 200)` is refused by the
backend and returns false, but the deadline of the worker is 200 afterwards. -/
theorem add_at_time_worker_at_overwrites :
    ((listBackend false).add_at_time_worker 3 7 (asyncMemAt 100 [7])).1 = false
    ∧ ((asyncMemAt 100 [7]).at_time_workers 7).next_time = 100
    ∧ (async_context_add_at_time_worker_at (listBackend false) 3 7 200
        (asyncMemAt 100 [7])).2.1 = false
    ∧ ((async_context_add_at_time_worker_at (listBackend false) 3 7 200
        (asyncMemAt 100 [7])).2.2.at_time_workers 7).next_time = 200
    ∧ ¬ (((async_context_add_at_time_worker_at (listBackend false) 3 7 200
          (asyncMemAt 100 [7])).2.2.at_time_workers 7).next_time
        = ((asyncMemAt 100 [7]).at_time_workers 7).next_time) := by
  refine ⟨by decide, by decide, by decide, by decide, by decide⟩

/-- C13 (amended): `async_context_add_at_time_worker_at(context, worker, at)`
first stores `at` in `worker->next_time` and then makes one call of the
backend's `add_at_time_worker`.  When the backend reports the worker as already
present and changes nothing itself, the call returns false and the only change
is that `worker->next_time` is now `at`: the other fields of the worker, the
other workers and the rest of the memory are as before. -/
theorem add_at_time_worker_at_rejected {β : Type} (t : async_context_type_t β)
    (context worker at_ : Nat) (m : AsyncMem β)
    (hrej : t.add_at_time_worker context worker (m.store_next_time worker at_)
      = (false, m.store_next_time worker at_)) :
    (async_context_add_at_time_worker_at t context worker at_ m).1
        = [BackendCall.add_at_time_worker context worker]
    ∧ (async_context_add_at_time_worker_at t context worker at_ m).2.1 = false
    ∧ ((async_context_add_at_time_worker_at t context worker at_ m).2.2.at_time_workers
          worker) = { m.at_time_workers worker with next_time := at_ }
    ∧ (∀ w, w ≠ worker →
        (async_context_add_at_time_worker_at t context worker at_ m).2.2.at_time_workers w
          = m.at_time_workers w)
    ∧ (async_context_add_at_time_worker_at t context worker at_ m).2.2.rest = m.rest := by
  have e : async_context_add_at_time_worker_at t context worker at_ m
      = ([BackendCall.add_at_time_worker context worker], false,
          m.store_next_time worker at_) := by
    show ([BackendCall.add_at_time_worker context worker],
        t.add_at_time_worker context worker (m.store_next_time worker at_)) = _
    rw [hrej]
  rw [e]
  refine ⟨rfl, rfl, ?_, ?_, rfl⟩
  · simp [AsyncMem.store_next_time]
  · intro w hw
    simp [AsyncMem.store_next_time, hw]

/-- Witness for the amended C13: worker 7, registered with deadline 100, is
added again with deadline 200. -/
theorem add_at_time_worker_at_rejected_witness :
    (async_context_add_at_time_worker_at (listBackend false) 3 7 200
        (asyncMemAt 100 [7])).2.1 = false
    ∧ ((async_context_add_at_time_worker_at (listBackend false) 3 7 200
        (asyncMemAt 100 [7])).2.2.at_time_workers 7)
        = { (asyncMemAt 100 [7]).at_time_workers 7 with next_time := 200 } :=
  ⟨(add_at_time_worker_at_rejected (listBackend false) 3 7 200 (asyncMemAt 100 [7])
      (by simp [listBackend, AsyncMem.store_next_time, asyncMemAt])).2.1,
   (add_at_time_worker_at_rejected (listBackend false) 3 7 200 (asyncMemAt 100 [7])
      (by simp [listBackend, AsyncMem.store_next_time, asyncMemAt])).2.2.1⟩

/-- C14: `async_context_poll` is a no-op for a backend whose `poll` is NULL: no
backend function is called and the memory is unchanged; for a backend with a
non-NULL `poll` it calls `type->poll(context)` exactly once, and what that call
leaves is the result. -/
theorem async_context_poll_spec {β : Type} (t : async_context_type_t β) (context : Nat)
    (m : AsyncMem β) :
    (t.poll = none → async_context_poll t context m = ([], m))
    ∧ (∀ poll, t.poll = some poll →
        async_context_poll t context m = ([BackendCall.poll context], poll context m)) := by
  constructor
  · intro h
    simp [async_context_poll, h]
  · intro poll h
    simp [async_context_poll, h]

/-- Two runs of `async_context_poll`: with a NULL `poll` nothing is called and
nothing changes; with the counting `poll` one call is made for context 3. -/
theorem async_context_poll_runs :
    (async_context_poll (listBackend false) 3 (asyncMemAt 0 [])).1 = []
    ∧ (async_context_poll (listBackend false) 3 (asyncMemAt 0 [])).2.rest = []
    ∧ (async_context_poll (listBackend true) 3 (asyncMemAt 0 [])).1 = [BackendCall.poll 3]
    ∧ (async_context_poll (listBackend true) 3 (asyncMemAt 0 [])).2.rest = [3] := by
  refine ⟨by decide, by decide, by decide, by decide⟩

/-! ### SPI blocking transfers -/

theorem spi_write_step_inv (k : SpiConsts) (cast : Nat) (sr dr src : Nat → Nat)
    (len : Nat) (s : SpiXfer) (h : s.Inv cast dr src len) :
    (spi_write_step k sr src s).Inv cast dr src len := by
  obtain ⟨h1, h2, h3, h4, h5, h6, h7⟩ := h
  have hmod := Nat.mod_le (s.tx_remaining + fifo_depth) (2 ^ 32)
  unfold spi_write_step
  by_cases htx : s.tx_remaining ≠ 0
  · by_cases hw : spi_is_writable k (sr s.sr_loads) = true
        ∧ s.rx_remaining < (s.tx_remaining + fifo_depth) % 2 ^ 32
    · rw [if_pos htx]
      simp only [hw, and_self, if_true]
      refine ⟨?_, h2, ?_, h4, ?_, h6, ?_⟩
      · simp; omega
      · simp; omega
      · show s.dr_stores ++ [src s.src_pos] = (List.range (s.src_pos + 1)).map src
        rw [List.range_succ, List.map_append, ← h5]; simp
      · show s.rx_remaining ≤ s.tx_remaining - 1 + fifo_depth
        omega
    · rw [if_pos htx]
      simp only [hw, if_false]
      exact ⟨h1, h2, h3, h4, h5, h6, h7⟩
  · rw [if_neg htx]
    exact ⟨h1, h2, h3, h4, h5, h6, h7⟩

theorem spi_read_step_inv (k : SpiConsts) (cast : Nat) (sr dr src : Nat → Nat)
    (len : Nat) (s : SpiXfer) (h : s.Inv cast dr src len) :
    (spi_read_step k cast sr dr s).Inv cast dr src len := by
  obtain ⟨h1, h2, h3, h4, h5, h6, h7⟩ := h
  unfold spi_read_step
  by_cases hrx : s.rx_remaining ≠ 0
  · by_cases hr : spi_is_readable k (sr s.sr_loads) = true
    · rw [if_pos hrx]
      simp only [hr, if_true]
      refine ⟨h1, ?_, h3, ?_, h5, ?_, ?_⟩
      · simp; omega
      · simp; omega
      · show s.dst ++ [dr s.dr_loads % cast]
            = (List.range (s.dr_loads + 1)).map (fun i => dr i % cast)
        rw [List.range_succ, List.map_append, ← h6]; simp
      · show s.rx_remaining - 1 ≤ s.tx_remaining + fifo_depth
        omega
    · rw [if_pos hrx]
      simp only [hr, if_false]
      exact ⟨h1, h2, h3, h4, h5, h6, h7⟩
  · rw [if_neg hrx]
    exact ⟨h1, h2, h3, h4, h5, h6, h7⟩

theorem spi_write_read_body_inv (k : SpiConsts) (cast : Nat) (sr dr src : Nat → Nat)
    (len : Nat) (s : SpiXfer) (h : s.Inv cast dr src len) :
    (spi_write_read_body k cast sr dr src s).Inv cast dr src len :=
  spi_read_step_inv k cast sr dr src len _ (spi_write_step_inv k cast sr dr src len s h)

theorem spiXferStart_inv (cast : Nat) (dr src : Nat → Nat) (len : Nat) :
    (spiXferStart len).Inv cast dr src len := by
  simp [SpiXfer.Inv, spiXferStart]

theorem spi_write_read_after_inv (k : SpiConsts) (cast : Nat) (sr dr src : Nat → Nat)
    (len : Nat) :
    ∀ (n : Nat) (s : SpiXfer), s.Inv cast dr src len →
      (spi_write_read_after k cast sr dr src n s).Inv cast dr src len := by
  intro n
  induction n with
  | zero => intro s h; exact h
  | succ m ih =>
    intro s h
    unfold spi_write_read_after
    by_cases hg : s.rx_remaining ≠ 0 ∨ s.tx_remaining ≠ 0
    · rw [if_pos hg]
      exact ih _ (spi_write_read_body_inv k cast sr dr src len s h)
    · rw [if_neg hg]
      exact h

/-- When the loop returns, the state it returns is the state after that many
iterations, both counters are zero, and the invariant holds. -/
theorem spi_write_read_loop_some (k : SpiConsts) (cast : Nat) (sr dr src : Nat → Nat)
    (len : Nat) :
    ∀ (fuel : Nat) (s r : SpiXfer), s.Inv cast dr src len →
      spi_write_read_loop k cast sr dr src fuel s = some r →
      r.Inv cast dr src len ∧ r.rx_remaining = 0 ∧ r.tx_remaining = 0
      ∧ r = spi_write_read_after k cast sr dr src fuel s := by
  intro fuel
  induction fuel with
  | zero =>
    intro s r _ h
    simp [spi_write_read_loop] at h
  | succ m ih =>
    intro s r hinv h
    unfold spi_write_read_loop at h
    unfold spi_write_read_after
    by_cases hg : s.rx_remaining ≠ 0 ∨ s.tx_remaining ≠ 0
    · rw [if_pos hg] at h
      rw [if_pos hg]
      exact ih _ r (spi_write_read_body_inv k cast sr dr src len s hinv) h
    · rw [if_neg hg] at h
      rw [if_neg hg]
      have hr : s = r := Option.some.inj h
      subst hr
      refine ⟨hinv, ?_, ?_, rfl⟩ <;> omega

/-- C11: the transfer loop never has more than `fifo_depth` = 8 items in
flight.  For every `len`, every sequence of values read from SR and DR and
every number `n` of loop iterations, after `n` iterations
`rx_remaining <= tx_remaining + 8`, and the number of items stored to DR exceeds
the number read back by at most 8; the same holds inside an iteration, between
its two statements.  This is the loop of `spi_write_read_blocking` (`cast` =
256) and of `spi_write16_read16_blocking` (`cast` = 65536). -/
theorem spi_write_read_in_flight_bound (k : SpiConsts) (cast : Nat) (sr dr src : Nat → Nat)
    (len n : Nat) :
    (spi_write_read_after k cast sr dr src n (spiXferStart len)).rx_remaining
        ≤ (spi_write_read_after k cast sr dr src n (spiXferStart len)).tx_remaining + 8
    ∧ (spi_write_read_after k cast sr dr src n (spiXferStart len)).dr_stores.length
        ≤ (spi_write_read_after k cast sr dr src n (spiXferStart len)).dst.length + 8
    ∧ (spi_write_step k sr src
          (spi_write_read_after k cast sr dr src n (spiXferStart len))).rx_remaining
        ≤ (spi_write_step k sr src
          (spi_write_read_after k cast sr dr src n (spiXferStart len))).tx_remaining + 8
    ∧ (spi_write_step k sr src
          (spi_write_read_after k cast sr dr src n (spiXferStart len))).dr_stores.length
        ≤ (spi_write_step k sr src
          (spi_write_read_after k cast sr dr src n (spiXferStart len))).dst.length + 8 := by
  have hinv := spi_write_read_after_inv k cast sr dr src len n _
    (spiXferStart_inv cast dr src len)
  have hmid := spi_write_step_inv k cast sr dr src len _ hinv
  obtain ⟨h1, h2, -, -, -, -, h7⟩ := hinv
  obtain ⟨m1, m2, -, -, -, -, m7⟩ := hmid
  unfold fifo_depth at h7 m7
  refine ⟨h7, ?_, m7, ?_⟩ <;> omega

/-- C12: for every `len <= INT_MAX` and every sequence of values read from SR
and DR for which the loop ends, `spi_write_read_blocking` has stored exactly
`src[0], ..., src[len-1]` to DR in that order, has stored through `dst` exactly
the first `len` values loaded from DR, as bytes, in the order read, and returns
`len`. -/
theorem spi_write_read_blocking_spec (pa : Bool) (k : SpiConsts) (sr dr src : Nat → Nat)
    (len fuel : Nat) (ret : Int) (s : SpiXfer) (hlen : len ≤ INT_MAX)
    (hret : spi_write_read_blocking pa k sr dr src len fuel = some (ret, s)) :
    ret = len
    ∧ s.dr_stores = (List.range len).map src
    ∧ s.dst = (List.range len).map (fun i => dr i % 256)
    ∧ s.dr_stores.length = len ∧ s.dst.length = len ∧ s.dr_loads = len
    ∧ s.tx_remaining = 0 ∧ s.rx_remaining = 0 := by
  unfold INT_MAX at hlen
  have hint : int_of_size_t len = (len : Int) := by
    unfold int_of_size_t
    have hm : len % 2 ^ 32 = len := Nat.mod_eq_of_lt (by omega)
    rw [hm, if_pos (by omega)]
  unfold spi_write_read_blocking at hret
  rw [if_neg (by rw [hint]; intro hc; have := hc.2; omega)] at hret
  cases hloop : spi_write_read_loop k 256 sr dr src fuel (spiXferStart len) with
  | none => rw [hloop] at hret; simp at hret
  | some r =>
    rw [hloop] at hret
    simp only [Option.some.injEq, Prod.mk.injEq] at hret
    obtain ⟨hr1, hr2⟩ := hret
    subst hr2
    obtain ⟨⟨h1, h2, h3, h4, h5, h6, -⟩, hrx, htx, -⟩ :=
      spi_write_read_loop_some k 256 sr dr src len fuel _ r
        (spiXferStart_inv 256 dr src len) hloop
    have hs : r.dr_stores.length = len := by omega
    have hd : r.dst.length = len := by omega
    refine ⟨by rw [← hr1, hint], ?_, ?_, hs, hd, by omega, htx, hrx⟩
    · rw [h5, h3, hs]
    · rw [h6, h4, hd]

/-- Witness for C12: three bytes 10, 11, 12, a FIFO that is always writable and
readable, and DR giving `0x1a0`, `0x1a1`, `0x1a2`. -/
theorem spi_write_read_blocking_spec_witness :
    spi_write_read_blocking true rp2040Spi (fun _ => 6) (fun i => 0x1a0 + i)
        (fun i => 10 + i) 3 4
      = some (3, ⟨0, 0, 3, 6, 3, [10, 11, 12], [0xa0, 0xa1, 0xa2]⟩)
    ∧ ((3 : Int) = (3 : Nat)
      ∧ (⟨0, 0, 3, 6, 3, [10, 11, 12], [0xa0, 0xa1, 0xa2]⟩ : SpiXfer).dr_stores
          = (List.range 3).map (fun i => 10 + i)
      ∧ (⟨0, 0, 3, 6, 3, [10, 11, 12], [0xa0, 0xa1, 0xa2]⟩ : SpiXfer).dst
          = (List.range 3).map (fun i => (0x1a0 + i) % 256)
      ∧ (⟨0, 0, 3, 6, 3, [10, 11, 12], [0xa0, 0xa1, 0xa2]⟩ : SpiXfer).dr_stores.length = 3
      ∧ (⟨0, 0, 3, 6, 3, [10, 11, 12], [0xa0, 0xa1, 0xa2]⟩ : SpiXfer).dst.length = 3
      ∧ (⟨0, 0, 3, 6, 3, [10, 11, 12], [0xa0, 0xa1, 0xa2]⟩ : SpiXfer).dr_loads = 3
      ∧ (⟨0, 0, 3, 6, 3, [10, 11, 12], [0xa0, 0xa1, 0xa2]⟩ : SpiXfer).tx_remaining = 0
      ∧ (⟨0, 0, 3, 6, 3, [10, 11, 12], [0xa0, 0xa1, 0xa2]⟩ : SpiXfer).rx_remaining = 0) :=
  ⟨by decide,
   spi_write_read_blocking_spec true rp2040Spi (fun _ => 6) (fun i => 0x1a0 + i)
     (fun i => 10 + i) 3 4 3 ⟨0, 0, 3, 6, 3, [10, 11, 12], [0xa0, 0xa1, 0xa2]⟩
     (by decide) (by decide)⟩

/-- The loop ends: when every load of SR shows the transmit FIFO not full and
the receive FIFO not empty, `len + 1` loop tests are enough. -/
theorem spi_write_read_loop_ready (k : SpiConsts) (cast : Nat) (sr dr src : Nat → Nat)
    (hready : ∀ n, spi_is_writable k (sr n) = true ∧ spi_is_readable k (sr n) = true) :
    ∀ (fuel : Nat) (s : SpiXfer), s.rx_remaining = s.tx_remaining →
      s.tx_remaining < fuel → s.tx_remaining + fifo_depth < 2 ^ 32 →
      ∃ r, spi_write_read_loop k cast sr dr src fuel s = some r := by
  intro fuel
  induction fuel with
  | zero => intro s _ h _; omega
  | succ m ih =>
    intro s heq hlt hfit
    unfold spi_write_read_loop
    by_cases hg : s.rx_remaining ≠ 0 ∨ s.tx_remaining ≠ 0
    · rw [if_pos hg]
      have htx : s.tx_remaining ≠ 0 := by omega
      have hw : (spi_write_step k sr src s)
          = { s with sr_loads := s.sr_loads + 1
                     dr_stores := s.dr_stores ++ [src s.src_pos]
                     src_pos := s.src_pos + 1
                     tx_remaining := s.tx_remaining - 1 } := by
        unfold spi_write_step
        rw [if_pos htx]
        have hc : spi_is_writable k (sr s.sr_loads) = true
            ∧ s.rx_remaining < (s.tx_remaining + fifo_depth) % 2 ^ 32 := by
          refine ⟨(hready _).1, ?_⟩
          rw [Nat.mod_eq_of_lt hfit]
          unfold fifo_depth
          omega
        simp only [hc, and_self, if_true]
      have hb : (spi_write_read_body k cast sr dr src s).rx_remaining = s.rx_remaining - 1
          ∧ (spi_write_read_body k cast sr dr src s).tx_remaining = s.tx_remaining - 1 := by
        unfold spi_write_read_body
        rw [hw]
        unfold spi_read_step
        have hrx : s.rx_remaining ≠ 0 := by omega
        simp [hrx, (hready _).2]
      exact ih _ (by omega) (by omega) (by omega)
    · rw [if_neg hg]
      exact ⟨s, rfl⟩

/-! ### `spi_init` -/

/-- After the XOR trick, the bits of a field inside the mask are those written. -/
theorem masked_write_and (c v m f : Nat) (hf : f &&& m = f) :
    (c ^^^ ((c ^^^ v) &&& m)) &&& f = v &&& f := by
  apply Nat.eq_of_testBit_eq
  intro i
  have hbit : (f &&& m).testBit i = f.testBit i := by rw [hf]
  simp only [Nat.testBit_and, Nat.testBit_xor] at hbit ⊢
  cases hfi : f.testBit i <;> cases hmi : m.testBit i <;> cases c.testBit i <;>
    cases v.testBit i <;> simp_all

theorem or_and_right_self (x y : Nat) : (x ||| y) &&& y = y := by
  apply Nat.eq_of_testBit_eq
  intro i
  simp only [Nat.testBit_and, Nat.testBit_or]
  cases x.testBit i <;> cases y.testBit i <;> rfl

/-- The wait for the end of the reset returns as soon as a load of `reset_done`
shows all of `bits`; it leaves the register `reset` alone. -/
theorem unreset_wait_loop_returns (done : Nat → Nat) (bits : Nat) :
    ∀ (n : Nat) (r : ResetsHw), not32 (done (r.reset_done_loads + n)) &&& bits = 0 →
      ∃ r1, unreset_wait_loop done bits (n + 1) r = some r1 ∧ r1.reset = r.reset := by
  intro n
  induction n with
  | zero =>
    intro r h
    refine ⟨⟨r.reset, r.reset_done_loads + 1⟩, ?_, rfl⟩
    simp only [unreset_wait_loop]
    rw [if_neg (by simpa using h)]
  | succ m ih =>
    intro r h
    by_cases hv : not32 (done r.reset_done_loads) &&& bits ≠ 0
    · obtain ⟨r1, h1, h2⟩ := ih ⟨r.reset, r.reset_done_loads + 1⟩ (by
        have e : r.reset_done_loads + 1 + m = r.reset_done_loads + (m + 1) := by omega
        simpa [e] using h)
      refine ⟨r1, ?_, h2⟩
      rw [← h1]
      conv_lhs => unfold unreset_wait_loop
      simp only [hv, if_true, ne_eq, not_false_eq_true]
    · refine ⟨⟨r.reset, r.reset_done_loads + 1⟩, ?_, rfl⟩
      conv_lhs => unfold unreset_wait_loop
      simp only [hv, if_false]

/-- What `spi_set_format` does when its parameters are valid. -/
theorem spi_set_format_eq (pa : Bool) (am : AddressMap) (k : SpiConsts) (spi : SpiHw)
    (data_bits cpol cpha : Nat) (hd : 4 ≤ data_bits ∧ data_bits ≤ 16)
    (hpol : cpol = SPI_CPOL_0 ∨ cpol = SPI_CPOL_1)
    (hpha : cpha = SPI_CPHA_0 ∨ cpha = SPI_CPHA_1) :
    spi_set_format pa am k spi data_bits cpol cpha SPI_MSB_FIRST
      = some { spi with
          cr0 := hw_write_masked am spi.cr0 spi.cr0.addr
            ((((data_bits + 2 ^ 32 - 1) % 2 ^ 32) <<< k.SPI_SSPCR0_DSS_LSB) % 2 ^ 32
              ||| (cpol <<< k.SPI_SSPCR0_SPO_LSB) % 2 ^ 32
              ||| (cpha <<< k.SPI_SSPCR0_SPH_LSB) % 2 ^ 32)
            (k.SPI_SSPCR0_DSS_BITS ||| k.SPI_SSPCR0_SPO_BITS ||| k.SPI_SSPCR0_SPH_BITS)
          cr1 := hw_set_bits am
            (hw_clear_bits am (spi.cr1.load spi.cr1.addr).2 spi.cr1.addr k.SPI_SSPCR1_SSE_BITS)
            spi.cr1.addr ((spi.cr1.load spi.cr1.addr).1 &&& k.SPI_SSPCR1_SSE_BITS) } := by
  unfold spi_set_format
  rw [if_neg (by intro h; omega), if_neg (by intro h; exact h.2 rfl),
    if_neg (by
      intro h
      rcases hpol with h1 | h1
      · exact h.2.1 h1
      · exact h.2.2 h1),
    if_neg (by
      intro h
      rcases hpha with h1 | h1
      · exact h.2.1 h1
      · exact h.2.2 h1)]

theorem shl_fits (q L w : Nat) (hq : q < 2 ^ w) (hL : L + w ≤ 32) :
    (q <<< L) % 2 ^ 32 = q <<< L := by
  apply Nat.mod_eq_of_lt
  rw [Nat.shiftLeft_eq]
  calc q * 2 ^ L < 2 ^ w * 2 ^ L := Nat.mul_lt_mul_of_pos_right hq (Nat.two_pow_pos L)
    _ = 2 ^ (w + L) := (Nat.pow_add 2 w L).symm
    _ ≤ 2 ^ 32 := Nat.pow_le_pow_right (by norm_num) (by omega)

theorem store_set_val_at (am : AddressMap) (r : IoReg) (a d : Nat)
    (h : am.Separates a) (ha : r.addr = a) : (hw_set_bits am r a d).val = r.val ||| d := by
  subst ha
  exact store_set_val am r d h

theorem write_masked_val_at (am : AddressMap) (r : IoReg) (a values write_mask : Nat)
    (h : am.Separates a) (ha : r.addr = a) :
    (hw_write_masked am r a values write_mask).val
      = r.val ^^^ ((r.val ^^^ values) &&& write_mask) := by
  subst ha
  exact write_masked_val am r values write_mask h

theorem shl_and (a b L : Nat) : (a <<< L) &&& (b <<< L) = (a &&& b) <<< L := by
  apply Nat.eq_of_testBit_eq
  intro j
  simp only [Nat.testBit_shiftLeft, Nat.testBit_and]
  cases decide (j ≥ L) <;> cases a.testBit (j - L) <;> cases b.testBit (j - L) <;> rfl

/-- The wait for the end of the reset returns at the first load of `reset_done`
that shows all of `bits`; it leaves the register `reset` alone. -/
theorem unreset_wait_loop_first (done : Nat → Nat) (bits : Nat) :
    ∀ (n : Nat) (r : ResetsHw), not32 (done (r.reset_done_loads + n)) &&& bits = 0 →
      ∃ (r1 : ResetsHw) (j : Nat), j ≤ n
        ∧ unreset_wait_loop done bits (n + 1) r = some r1
        ∧ r1.reset = r.reset
        ∧ r1.reset_done_loads = r.reset_done_loads + j + 1
        ∧ not32 (done (r.reset_done_loads + j)) &&& bits = 0
        ∧ ∀ i, i < j → not32 (done (r.reset_done_loads + i)) &&& bits ≠ 0 := by
  intro n
  induction n with
  | zero =>
    intro r h
    refine ⟨⟨r.reset, r.reset_done_loads + 1⟩, 0, le_refl _, ?_, rfl, rfl, h, ?_⟩
    · simp only [unreset_wait_loop]
      rw [if_neg (by simpa using h)]
    · intro i hi
      omega
  | succ m ih =>
    intro r h
    by_cases hv : not32 (done r.reset_done_loads) &&& bits ≠ 0
    · obtain ⟨r1, j, hj, h1, h2, h3, h4, h5⟩ := ih ⟨r.reset, r.reset_done_loads + 1⟩ (by
        have e : r.reset_done_loads + 1 + m = r.reset_done_loads + (m + 1) := by omega
        simpa [e] using h)
      refine ⟨r1, j + 1, by omega, ?_, h2, ?_, ?_, ?_⟩
      · rw [← h1]
        conv_lhs => unfold unreset_wait_loop
        simp only [hv, if_true, ne_eq, not_false_eq_true]
      · rw [h3]
        show r.reset_done_loads + 1 + j + 1 = r.reset_done_loads + (j + 1) + 1
        omega
      · have e : r.reset_done_loads + 1 + j = r.reset_done_loads + (j + 1) := by omega
        have h4b : not32 (done (r.reset_done_loads + 1 + j)) &&& bits = 0 := h4
        rw [e] at h4b
        exact h4b
      · intro i hi
        rcases Nat.eq_zero_or_pos i with h0 | hpos
        · rw [h0]
          exact hv
        · have h5b : not32 (done (r.reset_done_loads + 1 + (i - 1))) &&& bits ≠ 0 :=
            h5 (i - 1) (by omega)
          have e : r.reset_done_loads + 1 + (i - 1) = r.reset_done_loads + i := by omega
          rw [e] at h5b
          exact h5b
    · have hv0 : not32 (done (r.reset_done_loads + 0)) &&& bits = 0 := by
        simpa using hv
      refine ⟨⟨r.reset, r.reset_done_loads + 1⟩, 0, by omega, ?_, rfl, rfl, hv0, ?_⟩
      · conv_lhs => unfold unreset_wait_loop
        simp only [hv, if_false]
      · intro i hi
        omega

theorem IoReg.store_same (am : AddressMap) (a b : IoReg) (x d : Nat) (h : a.Same b) :
    (a.store am x d).Same (b.store am x d) := by
  obtain ⟨h1, h2⟩ := h
  simp [IoReg.Same, IoReg.store, h1, h2]

theorem IoReg.load_same (a b : IoReg) (x : Nat) (h : a.Same b) :
    (a.load x).1 = (b.load x).1 ∧ (a.load x).2.Same (b.load x).2 := by
  obtain ⟨h1, h2⟩ := h
  simp [IoReg.Same, IoReg.load, h1, h2]

theorem hw_set_bits_same (am : AddressMap) (a b : IoReg) (x d : Nat) (h : a.Same b) :
    (hw_set_bits am a x d).Same (hw_set_bits am b x d) :=
  IoReg.store_same am a b _ d h

theorem hw_clear_bits_same (am : AddressMap) (a b : IoReg) (x d : Nat) (h : a.Same b) :
    (hw_clear_bits am a x d).Same (hw_clear_bits am b x d) :=
  IoReg.store_same am a b _ d h

theorem hw_write_masked_same (am : AddressMap) (a b : IoReg) (x v m : Nat) (h : a.Same b) :
    (hw_write_masked am a x v m).Same (hw_write_masked am b x v m) := by
  obtain ⟨h1, h2⟩ := h
  simp [IoReg.Same, hw_write_masked, hw_xor_bits, IoReg.load, IoReg.store, h1, h2]

/-- The disable, write, re-enable of CR1 in `spi_set_baudrate` and
`spi_set_format` gives the same contents on registers with the same contents. -/
theorem cr1_cycle_same (am : AddressMap) (a b : IoReg) (S : Nat) (h : a.Same b) :
    (hw_set_bits am (hw_clear_bits am (a.load a.addr).2 a.addr S) a.addr
        ((a.load a.addr).1 &&& S)).Same
      (hw_set_bits am (hw_clear_bits am (b.load b.addr).2 b.addr S) b.addr
        ((b.load b.addr).1 &&& S)) := by
  obtain ⟨h1, h2⟩ := h
  simp [IoReg.Same, hw_set_bits, hw_clear_bits, IoReg.load, IoReg.store, h1, h2]

/-- `spi_set_baudrate` returns the same value, and leaves the same register
contents, on blocks with the same register contents. -/
theorem spi_set_baudrate_same (pa : Bool) (am : AddressMap) (k : SpiConsts) (freq_in : Nat)
    (s t : SpiHw) (baudrate : Nat)
    (hok : pa = false ∨ (baudrate ≤ freq_in ∧ spi_prescale freq_in baudrate ≤ 254))
    (h : s.Same t) :
    ∃ s1 t1 baud, spi_set_baudrate pa am k freq_in s baudrate = some (s1, baud)
      ∧ spi_set_baudrate pa am k freq_in t baudrate = some (t1, baud)
      ∧ s1.Same t1 := by
  refine ⟨_, _, _, spi_set_baudrate_eq pa am k freq_in s baudrate hok,
    spi_set_baudrate_eq pa am k freq_in t baudrate hok, ?_⟩
  obtain ⟨h0, h1, h2, h3⟩ := h
  refine ⟨?_, cr1_cycle_same am _ _ _ h1, ?_, h3⟩
  · show (hw_write_masked am s.cr0 s.cr0.addr _ _).Same (hw_write_masked am t.cr0 t.cr0.addr _ _)
    rw [h0.1]
    exact hw_write_masked_same am _ _ _ _ _ h0
  · show (s.cpsr.store am s.cpsr.addr _).Same (t.cpsr.store am t.cpsr.addr _)
    rw [h2.1]
    exact IoReg.store_same am _ _ _ _ h2

/-- `spi_set_format` leaves the same register contents on blocks with the same
register contents. -/
theorem spi_set_format_same (pa : Bool) (am : AddressMap) (k : SpiConsts) (s t : SpiHw)
    (data_bits cpol cpha : Nat) (hd : 4 ≤ data_bits ∧ data_bits ≤ 16)
    (hpol : cpol = SPI_CPOL_0 ∨ cpol = SPI_CPOL_1)
    (hpha : cpha = SPI_CPHA_0 ∨ cpha = SPI_CPHA_1) (h : s.Same t) :
    ∃ s1 t1, spi_set_format pa am k s data_bits cpol cpha SPI_MSB_FIRST = some s1
      ∧ spi_set_format pa am k t data_bits cpol cpha SPI_MSB_FIRST = some t1
      ∧ s1.Same t1 := by
  refine ⟨_, _, spi_set_format_eq pa am k s data_bits cpol cpha hd hpol hpha,
    spi_set_format_eq pa am k t data_bits cpol cpha hd hpol hpha, ?_⟩
  obtain ⟨h0, h1, h2, h3⟩ := h
  refine ⟨?_, cr1_cycle_same am _ _ _ h1, h2, h3⟩
  show (hw_write_masked am s.cr0 s.cr0.addr _ _).Same (hw_write_masked am t.cr0 t.cr0.addr _ _)
  rw [h0.1]
  exact hw_write_masked_same am _ _ _ _ _ h0

/-- What `spi_init` does to the registers of the block once the reset is over:
`spi_set_baudrate` and `spi_set_format` return, and after the two `hw_set_bits`
CR1.SSE, DMACR.TXDMAE and DMACR.RXDMAE are set and CR0 has DSS = 7, SPO = 0 and
SPH = 0. -/
theorem spi_init_config (pa : Bool) (am : AddressMap) (k : SpiConsts) (freq_in : Nat)
    (s0 : SpiHw) (baudrate : Nat)
    (hs0 : am.Separates s0.cr0.addr) (hs1 : am.Separates s0.cr1.addr)
    (hsd : am.Separates s0.dmacr.addr) (hfmt : k.FormatFields)
    (hok : pa = false ∨ (baudrate ≤ freq_in ∧ spi_prescale freq_in baudrate ≤ 254)) :
    ∃ s1 s2 baud,
      spi_set_baudrate pa am k freq_in s0 baudrate = some (s1, baud)
      ∧ spi_set_format pa am k s1 8 SPI_CPOL_0 SPI_CPHA_0 SPI_MSB_FIRST = some s2
      ∧ (hw_set_bits am s2.cr1 s2.cr1.addr k.SPI_SSPCR1_SSE_BITS).val
          &&& k.SPI_SSPCR1_SSE_BITS = k.SPI_SSPCR1_SSE_BITS
      ∧ (hw_set_bits am s2.dmacr s2.dmacr.addr
          (k.SPI_SSPDMACR_TXDMAE_BITS ||| k.SPI_SSPDMACR_RXDMAE_BITS)).val
          &&& k.SPI_SSPDMACR_TXDMAE_BITS = k.SPI_SSPDMACR_TXDMAE_BITS
      ∧ (hw_set_bits am s2.dmacr s2.dmacr.addr
          (k.SPI_SSPDMACR_TXDMAE_BITS ||| k.SPI_SSPDMACR_RXDMAE_BITS)).val
          &&& k.SPI_SSPDMACR_RXDMAE_BITS = k.SPI_SSPDMACR_RXDMAE_BITS
      ∧ (s2.cr0.val &&& k.SPI_SSPCR0_DSS_BITS) >>> k.SPI_SSPCR0_DSS_LSB = 7
      ∧ (s2.cr0.val &&& k.SPI_SSPCR0_SPO_BITS) >>> k.SPI_SSPCR0_SPO_LSB = 0
      ∧ (s2.cr0.val &&& k.SPI_SSPCR0_SPH_BITS) >>> k.SPI_SSPCR0_SPH_LSB = 0
      ∧ s2.cpsr.val = spi_prescale freq_in baudrate := by
  obtain ⟨hD, hDl, hO, hOl, hH, hHl, hDO, hDH⟩ := hfmt
  have hbaud := spi_set_baudrate_eq pa am k freq_in s0 baudrate hok
  -- the registers after `spi_set_baudrate`, by name
  obtain ⟨s1, hs1def⟩ : ∃ s1 : SpiHw, s1 = { s0 with
      cr0 := hw_write_masked am s0.cr0 s0.cr0.addr
        (((spi_postdiv freq_in baudrate - 1) <<< k.SPI_SSPCR0_SCR_LSB) % 2 ^ 32)
        k.SPI_SSPCR0_SCR_BITS
      cr1 := hw_set_bits am
        (hw_clear_bits am (s0.cr1.load s0.cr1.addr).2 s0.cr1.addr k.SPI_SSPCR1_SSE_BITS)
        s0.cr1.addr ((s0.cr1.load s0.cr1.addr).1 &&& k.SPI_SSPCR1_SSE_BITS)
      cpsr := s0.cpsr.store am s0.cpsr.addr (spi_prescale freq_in baudrate) } := ⟨_, rfl⟩
  rw [← hs1def] at hbaud
  have a0 : s1.cr0.addr = s0.cr0.addr := by rw [hs1def]; rfl
  have a1 : s1.cr1.addr = s0.cr1.addr := by rw [hs1def]; rfl
  have ad : s1.dmacr = s0.dmacr := by rw [hs1def]
  have vp : s1.cpsr.val = spi_prescale freq_in baudrate := by
    rw [hs1def]
    simp [IoReg.store]
  have hfmteq := spi_set_format_eq pa am k s1 8 SPI_CPOL_0 SPI_CPHA_0
    ⟨by norm_num, by norm_num⟩ (Or.inl rfl) (Or.inl rfl)
  -- the value written to CR0 by the format is 7 in DSS and 0 in SPO and SPH
  have hval : (((8 + 2 ^ 32 - 1) % 2 ^ 32) <<< k.SPI_SSPCR0_DSS_LSB) % 2 ^ 32
      ||| (SPI_CPOL_0 <<< k.SPI_SSPCR0_SPO_LSB) % 2 ^ 32
      ||| (SPI_CPHA_0 <<< k.SPI_SSPCR0_SPH_LSB) % 2 ^ 32 = 7 <<< k.SPI_SSPCR0_DSS_LSB := by
    have h7 : (8 + 2 ^ 32 - 1) % 2 ^ 32 = 7 := by norm_num
    rw [h7, shl_fits 7 _ 4 (by norm_num) (by omega)]
    simp [SPI_CPOL_0, SPI_CPHA_0]
  rw [hval] at hfmteq
  have h7D : (7 <<< k.SPI_SSPCR0_DSS_LSB) &&& k.SPI_SSPCR0_DSS_BITS
      = 7 <<< k.SPI_SSPCR0_DSS_LSB := by
    have h715 : (7 &&& 0xf : Nat) = 7 := by decide
    rw [hD, shl_and, h715]
  have h7O : (7 <<< k.SPI_SSPCR0_DSS_LSB) &&& k.SPI_SSPCR0_SPO_BITS = 0 := by
    rw [← h7D, Nat.and_assoc, hDO, Nat.and_zero]
  have h7H : (7 <<< k.SPI_SSPCR0_DSS_LSB) &&& k.SPI_SSPCR0_SPH_BITS = 0 := by
    rw [← h7D, Nat.and_assoc, hDH, Nat.and_zero]
  -- each field lies inside the mask written
  have subD : k.SPI_SSPCR0_DSS_BITS
      &&& (k.SPI_SSPCR0_DSS_BITS ||| k.SPI_SSPCR0_SPO_BITS ||| k.SPI_SSPCR0_SPH_BITS)
      = k.SPI_SSPCR0_DSS_BITS := by
    apply Nat.eq_of_testBit_eq
    intro i
    simp only [Nat.testBit_and, Nat.testBit_or]
    cases k.SPI_SSPCR0_DSS_BITS.testBit i <;> cases k.SPI_SSPCR0_SPO_BITS.testBit i <;>
      cases k.SPI_SSPCR0_SPH_BITS.testBit i <;> rfl
  have subO : k.SPI_SSPCR0_SPO_BITS
      &&& (k.SPI_SSPCR0_DSS_BITS ||| k.SPI_SSPCR0_SPO_BITS ||| k.SPI_SSPCR0_SPH_BITS)
      = k.SPI_SSPCR0_SPO_BITS := by
    apply Nat.eq_of_testBit_eq
    intro i
    simp only [Nat.testBit_and, Nat.testBit_or]
    cases k.SPI_SSPCR0_DSS_BITS.testBit i <;> cases k.SPI_SSPCR0_SPO_BITS.testBit i <;>
      cases k.SPI_SSPCR0_SPH_BITS.testBit i <;> rfl
  have subH : k.SPI_SSPCR0_SPH_BITS
      &&& (k.SPI_SSPCR0_DSS_BITS ||| k.SPI_SSPCR0_SPO_BITS ||| k.SPI_SSPCR0_SPH_BITS)
      = k.SPI_SSPCR0_SPH_BITS := by
    apply Nat.eq_of_testBit_eq
    intro i
    simp only [Nat.testBit_and, Nat.testBit_or]
    cases k.SPI_SSPCR0_DSS_BITS.testBit i <;> cases k.SPI_SSPCR0_SPO_BITS.testBit i <;>
      cases k.SPI_SSPCR0_SPH_BITS.testBit i <;> rfl
  have hcr0 : (hw_write_masked am s1.cr0 s1.cr0.addr (7 <<< k.SPI_SSPCR0_DSS_LSB)
      (k.SPI_SSPCR0_DSS_BITS ||| k.SPI_SSPCR0_SPO_BITS ||| k.SPI_SSPCR0_SPH_BITS)).val
      = s1.cr0.val ^^^ ((s1.cr0.val ^^^ 7 <<< k.SPI_SSPCR0_DSS_LSB)
        &&& (k.SPI_SSPCR0_DSS_BITS ||| k.SPI_SSPCR0_SPO_BITS ||| k.SPI_SSPCR0_SPH_BITS)) :=
    write_masked_val am s1.cr0 _ _ (by rw [a0]; exact hs0)
  refine ⟨s1, _, _, hbaud, hfmteq, ?_, ?_, ?_, ?_, ?_, ?_, vp⟩
  · -- CR1.SSE
    have hsepa : am.Separates s1.cr1.addr := by rw [a1]; exact hs1
    show (hw_set_bits am _ s1.cr1.addr _).val &&& _ = _
    rw [store_set_val_at am _ _ _ hsepa ?_]
    · exact or_and_right_self _ _
    · rfl
  · -- DMACR.TXDMAE
    show (hw_set_bits am s1.dmacr s1.dmacr.addr _).val &&& _ = _
    rw [ad, store_set_val am _ _ hsd]
    apply Nat.eq_of_testBit_eq
    intro i
    simp only [Nat.testBit_and, Nat.testBit_or]
    cases s0.dmacr.val.testBit i <;> cases k.SPI_SSPDMACR_TXDMAE_BITS.testBit i <;>
      cases k.SPI_SSPDMACR_RXDMAE_BITS.testBit i <;> rfl
  · -- DMACR.RXDMAE
    show (hw_set_bits am s1.dmacr s1.dmacr.addr _).val &&& _ = _
    rw [ad, store_set_val am _ _ hsd]
    apply Nat.eq_of_testBit_eq
    intro i
    simp only [Nat.testBit_and, Nat.testBit_or]
    cases s0.dmacr.val.testBit i <;> cases k.SPI_SSPDMACR_TXDMAE_BITS.testBit i <;>
      cases k.SPI_SSPDMACR_RXDMAE_BITS.testBit i <;> rfl
  · -- CR0.DSS
    show ((hw_write_masked am s1.cr0 s1.cr0.addr _ _).val &&& _) >>> _ = _
    rw [hcr0, masked_write_and _ _ _ _ subD, h7D]
    exact Nat.shiftLeft_shiftRight _ _
  · -- CR0.SPO
    show ((hw_write_masked am s1.cr0 s1.cr0.addr _ _).val &&& _) >>> _ = _
    rw [hcr0, masked_write_and _ _ _ _ subO, h7O]
    exact Nat.zero_shiftRight _
  · -- CR0.SPH
    show ((hw_write_masked am s1.cr0 s1.cr0.addr _ _).val &&& _) >>> _ = _
    rw [hcr0, masked_write_and _ _ _ _ subH, h7H]
    exact Nat.zero_shiftRight _

/-- C16: `spi_init(spi, baudrate)` puts the SPI in a known state, enables it and
returns the baud rate set.  It resets the block: one store of the block's reset
bit to the SET alias of `RESETS.reset`, one to the CLR alias, then loads of
`reset_done` up to the first one that shows the bit.  The reset leaves the
reset values in the registers, and the call returns exactly the value
`spi_set_baudrate(spi, baudrate)` returns on them; on return CR1.SSE is set,
DMACR.TXDMAE and DMACR.RXDMAE are set, CR0 has DSS = 7 (8 data bits), SPO = 0
and SPH = 0, and CPSR holds the prescale.  Whatever the registers held before
the call, they hold the same after it. -/
theorem spi_init_spec (pa : Bool) (am : AddressMap) (k : SpiConsts) (rk : ResetsConsts)
    (freq_in : Nat) (done : Nat → Nat) (n : Nat) (rst : SpiResetValues) (inst : spi_inst_t)
    (r : ResetsHw) (spi : SpiHw) (baudrate : Nat)
    (hsr : am.Separates r.reset.addr)
    (hs0 : am.Separates spi.cr0.addr) (hs1 : am.Separates spi.cr1.addr)
    (hsd : am.Separates spi.dmacr.addr) (hfmt : k.FormatFields)
    (hdone : not32 (done (r.reset_done_loads + n)) &&& spi_reset_bits rk inst = 0)
    (hok : pa = false ∨ (baudrate ≤ freq_in ∧ spi_prescale freq_in baudrate ≤ 254)) :
    ∃ (r2 : ResetsHw) (spi2 : SpiHw) (baud : Nat),
      spi_init pa am k rk freq_in done (n + 1) rst inst r spi baudrate = some (r2, spi2, baud)
      ∧ r2.reset.log = r.reset.log
          ++ [BusOp.store (am.REG_ALIAS_SET_BITS ||| r.reset.addr) (spi_reset_bits rk inst),
              BusOp.store (am.REG_ALIAS_CLR_BITS ||| r.reset.addr) (spi_reset_bits rk inst)]
      ∧ r2.reset.val
          = (r.reset.val ||| spi_reset_bits rk inst) &&& not32 (spi_reset_bits rk inst)
      ∧ (∃ j, j ≤ n ∧ r2.reset_done_loads = r.reset_done_loads + j + 1
          ∧ not32 (done (r.reset_done_loads + j)) &&& spi_reset_bits rk inst = 0
          ∧ ∀ i, i < j → not32 (done (r.reset_done_loads + i)) &&& spi_reset_bits rk inst ≠ 0)
      ∧ (spi_held_in_reset (spi_reset_bits rk inst) (spi_reset am rk r inst) rst spi).cr0.val
          = rst.cr0
      ∧ (spi_held_in_reset (spi_reset_bits rk inst) (spi_reset am rk r inst) rst spi).cr1.val
          = rst.cr1
      ∧ (spi_held_in_reset (spi_reset_bits rk inst) (spi_reset am rk r inst) rst spi).cpsr.val
          = rst.cpsr
      ∧ (spi_held_in_reset (spi_reset_bits rk inst) (spi_reset am rk r inst) rst spi).dmacr.val
          = rst.dmacr
      ∧ (∃ spi1, spi_set_baudrate pa am k freq_in
          (spi_held_in_reset (spi_reset_bits rk inst) (spi_reset am rk r inst) rst spi)
          baudrate = some (spi1, baud))
      ∧ spi2.cr1.val &&& k.SPI_SSPCR1_SSE_BITS = k.SPI_SSPCR1_SSE_BITS
      ∧ spi2.dmacr.val &&& k.SPI_SSPDMACR_TXDMAE_BITS = k.SPI_SSPDMACR_TXDMAE_BITS
      ∧ spi2.dmacr.val &&& k.SPI_SSPDMACR_RXDMAE_BITS = k.SPI_SSPDMACR_RXDMAE_BITS
      ∧ (spi2.cr0.val &&& k.SPI_SSPCR0_DSS_BITS) >>> k.SPI_SSPCR0_DSS_LSB = 7
      ∧ (spi2.cr0.val &&& k.SPI_SSPCR0_SPO_BITS) >>> k.SPI_SSPCR0_SPO_LSB = 0
      ∧ (spi2.cr0.val &&& k.SPI_SSPCR0_SPH_BITS) >>> k.SPI_SSPCR0_SPH_LSB = 0
      ∧ spi2.cpsr.val = spi_prescale freq_in baudrate
      ∧ ∀ other : SpiHw, other.cr0.addr = spi.cr0.addr → other.cr1.addr = spi.cr1.addr →
          other.cpsr.addr = spi.cpsr.addr → other.dmacr.addr = spi.dmacr.addr →
          ∃ spi3, spi_init pa am k rk freq_in done (n + 1) rst inst r other baudrate
              = some (r2, spi3, baud)
            ∧ spi2.Same spi3 := by
  -- the reset: the bit is set, the block is held in reset
  have hv1 : (spi_reset am rk r inst).reset.val = r.reset.val ||| spi_reset_bits rk inst :=
    store_set_val am r.reset _ hsr
  have hheld : ∀ x : SpiHw,
      spi_held_in_reset (spi_reset_bits rk inst) (spi_reset am rk r inst) rst x
        = { cr0 := { x.cr0 with val := rst.cr0 }
            cr1 := { x.cr1 with val := rst.cr1 }
            cpsr := { x.cpsr with val := rst.cpsr }
            dmacr := { x.dmacr with val := rst.dmacr } } := by
    intro x
    unfold spi_held_in_reset
    rw [if_pos (by rw [hv1]; exact or_and_right_self _ _)]
  -- the end of the reset and the wait for it
  obtain ⟨r2, j, hj, hloop, hres, hloads, hdj, hbefore⟩ := unreset_wait_loop_first done
    (spi_reset_bits rk inst) n
    (unreset_block am (spi_reset am rk r inst) (spi_reset_bits rk inst)) hdone
  have hun : spi_unreset am rk done (n + 1) (spi_reset am rk r inst) inst = some r2 := hloop
  have hlog : r2.reset.log = r.reset.log
      ++ [BusOp.store (am.REG_ALIAS_SET_BITS ||| r.reset.addr) (spi_reset_bits rk inst),
          BusOp.store (am.REG_ALIAS_CLR_BITS ||| r.reset.addr) (spi_reset_bits rk inst)] := by
    rw [hres]
    simp [unreset_block, spi_reset, reset_block, spi_reset_bits, hw_clear_bits, hw_set_bits,
      hw_clear_alias_untyped, hw_set_alias_untyped, hw_alias_check_addr, IoReg.store]
  have hvalr : r2.reset.val
      = (r.reset.val ||| spi_reset_bits rk inst) &&& not32 (spi_reset_bits rk inst) := by
    rw [hres, ← hv1]
    exact store_clr_val am (spi_reset am rk r inst).reset _ hsr
  -- the configuration
  obtain ⟨s1, s2, baud, hb, hf, c1, c2, c3, c4, c5, c6, c7⟩ := spi_init_config pa am k freq_in
    { cr0 := { spi.cr0 with val := rst.cr0 }
      cr1 := { spi.cr1 with val := rst.cr1 }
      cpsr := { spi.cpsr with val := rst.cpsr }
      dmacr := { spi.dmacr with val := rst.dmacr } } baudrate hs0 hs1 hsd hfmt hok
  have hinit : spi_init pa am k rk freq_in done (n + 1) rst inst r spi baudrate
      = some (r2,
          { s2 with
            dmacr := hw_set_bits am s2.dmacr s2.dmacr.addr
              (k.SPI_SSPDMACR_TXDMAE_BITS ||| k.SPI_SSPDMACR_RXDMAE_BITS)
            cr1 := hw_set_bits am s2.cr1 s2.cr1.addr k.SPI_SSPCR1_SSE_BITS }, baud) := by
    unfold spi_init
    simp only [hheld, hun, hb, hf]
  refine ⟨r2, _, baud, hinit, hlog, hvalr, ⟨j, hj, hloads, hdj, hbefore⟩, ?_, ?_, ?_, ?_,
    ⟨s1, ?_⟩, c1, c2, c3, c4, c5, c6, c7, ?_⟩
  · rw [hheld]
  · rw [hheld]
  · rw [hheld]
  · rw [hheld]
  · rw [hheld]
    exact hb
  · intro other e0 e1 e2 e3
    have hsame : SpiHw.Same
        { cr0 := { spi.cr0 with val := rst.cr0 }
          cr1 := { spi.cr1 with val := rst.cr1 }
          cpsr := { spi.cpsr with val := rst.cpsr }
          dmacr := { spi.dmacr with val := rst.dmacr } }
        { cr0 := { other.cr0 with val := rst.cr0 }
          cr1 := { other.cr1 with val := rst.cr1 }
          cpsr := { other.cpsr with val := rst.cpsr }
          dmacr := { other.dmacr with val := rst.dmacr } } :=
      ⟨⟨e0.symm, rfl⟩, ⟨e1.symm, rfl⟩, ⟨e2.symm, rfl⟩, ⟨e3.symm, rfl⟩⟩
    obtain ⟨s1a, t1, bauda, hb1, hb2, hs1t1⟩ :=
      spi_set_baudrate_same pa am k freq_in _ _ baudrate hok hsame
    rw [hb] at hb1
    injection hb1 with hb1
    injection hb1 with hb1a hb1b
    subst hb1a
    subst hb1b
    obtain ⟨s2a, t2, hf1, hf2, hs2t2⟩ := spi_set_format_same pa am k s1 t1 8 SPI_CPOL_0
      SPI_CPHA_0 ⟨by norm_num, by norm_num⟩ (Or.inl rfl) (Or.inl rfl) hs1t1
    rw [hf] at hf1
    injection hf1 with hf1
    subst hf1
    refine ⟨{ t2 with
        dmacr := hw_set_bits am t2.dmacr t2.dmacr.addr
          (k.SPI_SSPDMACR_TXDMAE_BITS ||| k.SPI_SSPDMACR_RXDMAE_BITS)
        cr1 := hw_set_bits am t2.cr1 t2.cr1.addr k.SPI_SSPCR1_SSE_BITS }, ?_, ?_⟩
    · unfold spi_init
      simp only [hheld, hun, hb2, hf2]
    · obtain ⟨g0, g1, g2, g3⟩ := hs2t2
      refine ⟨g0, ?_, g2, ?_⟩
      · show (hw_set_bits am s2.cr1 s2.cr1.addr _).Same (hw_set_bits am t2.cr1 t2.cr1.addr _)
        rw [g1.1]
        exact hw_set_bits_same am _ _ _ _ g1
      · show (hw_set_bits am s2.dmacr s2.dmacr.addr _).Same
          (hw_set_bits am t2.dmacr t2.dmacr.addr _)
        rw [g3.1]
        exact hw_set_bits_same am _ _ _ _ g3

/-- Witness for C16: SPI0 with a 125 MHz peripheral clock and a request of
125 kHz, the reset seen as done at the third load of `reset_done`, reset values
0 in all four registers, and CR0 = `0xffff`, CR1 = `0xf`, CPSR = `0xff` before
the call.  After it CR0 = `0xff07`, CR1 = `0x2`, CPSR = 2, DMACR = 3, and the
reset register has seen the two stores of bit 16. -/
theorem spi_init_spec_witness :
    (spi_init true rp2040Map rp2040Spi rp2040Resets 125000000
        (fun n => if n < 2 then 0 else 0x10000) 3 ⟨0, 0, 0, 0⟩ spi_inst_t.spi0
        (resetsAt 0x1ffffff) (spiAt 0xffff 0xf 0xff 0) 125000).map
      (fun x => (x.1.reset.val, x.1.reset.log, x.1.reset_done_loads))
      = some (0x1feffff,
          [BusOp.store 0x4000e000 0x10000, BusOp.store 0x4000f000 0x10000], 3)
    ∧ (spi_init true rp2040Map rp2040Spi rp2040Resets 125000000
        (fun n => if n < 2 then 0 else 0x10000) 3 ⟨0, 0, 0, 0⟩ spi_inst_t.spi0
        (resetsAt 0x1ffffff) (spiAt 0xffff 0xf 0xff 0) 125000).map
      (fun x => (x.2.1.cr0.val, x.2.1.cr1.val, x.2.1.cpsr.val, x.2.1.dmacr.val, x.2.2))
      = some (0xff07, 0x2, 2, 3, 244140)
    ∧ ∃ (r2 : ResetsHw) (spi2 : SpiHw) (baud : Nat),
      spi_init true rp2040Map rp2040Spi rp2040Resets 125000000
        (fun n => if n < 2 then 0 else 0x10000) (2 + 1) ⟨0, 0, 0, 0⟩ spi_inst_t.spi0
        (resetsAt 0x1ffffff) (spiAt 0xffff 0xf 0xff 0) 125000 = some (r2, spi2, baud)
      ∧ r2.reset.log = (resetsAt 0x1ffffff).reset.log
          ++ [BusOp.store (rp2040Map.REG_ALIAS_SET_BITS ||| (resetsAt 0x1ffffff).reset.addr)
                (spi_reset_bits rp2040Resets spi_inst_t.spi0),
              BusOp.store (rp2040Map.REG_ALIAS_CLR_BITS ||| (resetsAt 0x1ffffff).reset.addr)
                (spi_reset_bits rp2040Resets spi_inst_t.spi0)]
      ∧ r2.reset.val = ((resetsAt 0x1ffffff).reset.val
            ||| spi_reset_bits rp2040Resets spi_inst_t.spi0)
          &&& not32 (spi_reset_bits rp2040Resets spi_inst_t.spi0)
      ∧ spi2.cr1.val &&& rp2040Spi.SPI_SSPCR1_SSE_BITS = rp2040Spi.SPI_SSPCR1_SSE_BITS
      ∧ (spi2.cr0.val &&& rp2040Spi.SPI_SSPCR0_DSS_BITS) >>> rp2040Spi.SPI_SSPCR0_DSS_LSB = 7
      ∧ spi2.cpsr.val = spi_prescale 125000000 125000 :=
  ⟨by decide, by decide,
   (spi_init_spec true rp2040Map rp2040Spi rp2040Resets 125000000
     (fun n => if n < 2 then 0 else 0x10000) 2 ⟨0, 0, 0, 0⟩ spi_inst_t.spi0
     (resetsAt 0x1ffffff) (spiAt 0xffff 0xf 0xff 0) 125000 (by decide) (by decide)
     (by decide) (by decide) (by decide) (by decide) (Or.inr ⟨by decide, by decide⟩)).imp
     (fun _ h => h.imp (fun _ h => h.imp (fun _ h =>
       ⟨h.1, h.2.1, h.2.2.1, h.2.2.2.2.2.2.2.2.2.1, h.2.2.2.2.2.2.2.2.2.2.2.2.1,
        h.2.2.2.2.2.2.2.2.2.2.2.2.2.2.2.1⟩)))⟩


/-! ### The context lock: callbacks never run concurrently -/

theorem CtxSys.setMode_mode (s : CtxSys) (p : Nat) (m : PartyMode) (q : Nat) :
    (s.setMode p m).mode q = if q = p then m else s.mode q := rfl

theorem PartyMode.inside_of_in_pass (m : PartyMode) (h : m.in_pass = true) :
    m.inside = true := by
  cases m <;> simp_all [PartyMode.in_pass, PartyMode.inside]

theorem PartyMode.inside_of_in_callback (m : PartyMode) (h : m.in_callback = true) :
    m.inside = true := by
  cases m <;> simp_all [PartyMode.in_callback, PartyMode.inside]

/-- Only the holder of the lock can be inside a pass or a callback. -/
theorem CtxSys.others_out (cfg : CtxConfig) (s : CtxSys) (p : Nat) (hs : s.Inv cfg)
    (hown : s.owner = none ∨ s.owner = some p) (q : Nat) (hq : q ≠ p) :
    (s.mode q).inside = false := by
  cases hin : (s.mode q).inside with
  | false => rfl
  | true =>
    have ho := (hs.2.2.1 q hin).1
    rcases hown with h | h
    · rw [h] at ho
      cases ho
    · rw [h] at ho
      exact absurd (Option.some.inj ho).symm hq

/-- A state in which the lock is well formed and only party `p` can be inside
satisfies the invariant when `p` does. -/
theorem CtxSys.inv_only (cfg : CtxConfig) (t : CtxSys) (p : Nat)
    (h1 : t.owner = none → t.depth = 0) (h2 : ∀ q, t.owner = some q → 1 ≤ t.depth)
    (hp : (t.mode p).inside = true →
      t.owner = some p ∧ 1 ≤ t.base ∧ t.base ≤ t.depth ∧ t.alive = true)
    (hc : (t.mode p).in_pass = true → cfg.onOwningCore p = true)
    (ho : ∀ q, q ≠ p → (t.mode q).inside = false) : t.Inv cfg := by
  refine ⟨h1, h2, fun q hq => ?_, fun q hq => ?_⟩
  · by_cases hqp : q = p
    · rw [hqp] at hq ⊢
      exact hp hq
    · rw [ho q hqp] at hq
      cases hq
  · by_cases hqp : q = p
    · rw [hqp] at hq ⊢
      exact hc hq
    · have := PartyMode.inside_of_in_pass _ hq
      rw [ho q hqp] at this
      cases this

/-- A step that leaves the lock and the modes alone keeps the invariant. -/
theorem CtxSys.inv_frame (cfg : CtxConfig) (s t : CtxSys) (hs : s.Inv cfg)
    (ho : t.owner = s.owner) (hd : t.depth = s.depth) (hb : t.base = s.base)
    (ha : t.alive = s.alive) (hm : t.mode = s.mode) : t.Inv cfg := by
  obtain ⟨h1, h2, h3, h4⟩ := hs
  unfold CtxSys.Inv
  rw [ho, hd, hb, ha, hm]
  exact ⟨h1, h2, h3, h4⟩

/-- A party that goes to a mode outside every pass and callback, the lock left
alone, keeps the invariant. -/
theorem CtxSys.inv_setMode_out (cfg : CtxConfig) (s : CtxSys) (p : Nat) (m : PartyMode)
    (hs : s.Inv cfg) (hm : m.inside = false) : (s.setMode p m).Inv cfg := by
  obtain ⟨h1, h2, h3, h4⟩ := hs
  refine ⟨h1, h2, fun q hq => ?_, fun q hq => ?_⟩
  · rw [CtxSys.setMode_mode] at hq
    by_cases hqp : q = p
    · rw [if_pos hqp, hm] at hq
      cases hq
    · rw [if_neg hqp] at hq
      exact h3 q hq
  · rw [CtxSys.setMode_mode] at hq
    by_cases hqp : q = p
    · rw [if_pos hqp] at hq
      have := PartyMode.inside_of_in_pass _ hq
      rw [hm] at this
      cases this
    · rw [if_neg hqp] at hq
      exact h4 q hq

/-- A party inside a pass that goes from one step of the pass to the next, the
lock left alone, keeps the invariant. -/
theorem CtxSys.inv_setMode_in (cfg : CtxConfig) (s t : CtxSys) (p : Nat) (m : PartyMode)
    (hs : s.Inv cfg) (ho : t.owner = s.owner) (hd : t.depth = s.depth) (hb : t.base = s.base)
    (ha : t.alive = s.alive) (hmo : t.mode = s.mode)
    (hp : (s.mode p).in_pass = true) : (t.setMode p m).Inv cfg := by
  obtain ⟨h1, h2, h3, h4⟩ := hs
  have hpin := h3 p (PartyMode.inside_of_in_pass _ hp)
  refine ⟨?_, ?_, fun q hq => ?_, fun q hq => ?_⟩
  · intro h
    show t.depth = 0
    rw [hd]
    exact h1 (by rw [← ho]; exact h)
  · intro q h
    show 1 ≤ t.depth
    rw [hd]
    exact h2 q (by rw [← ho]; exact h)
  · show t.owner = some q ∧ 1 ≤ t.base ∧ t.base ≤ t.depth ∧ t.alive = true
    rw [ho, hd, hb, ha]
    rw [CtxSys.setMode_mode] at hq
    by_cases hqp : q = p
    · rw [hqp]
      exact hpin
    · rw [if_neg hqp, hmo] at hq
      exact h3 q hq
  · rw [CtxSys.setMode_mode] at hq
    by_cases hqp : q = p
    · rw [hqp]
      exact h4 p hp
    · rw [if_neg hqp, hmo] at hq
      exact h4 q hq

theorem CtxSys.mayCall_spec (cfg : CtxConfig) (s : CtxSys) (p : Nat)
    (h : s.mayCall cfg p = true) :
    s.alive = true ∧ ((s.mode p).in_callback = true
      ∨ (cfg.interrupt p = false ∧ s.mode p = PartyMode.outside)) := by
  unfold CtxSys.mayCall at h
  simp only [Bool.and_eq_true, Bool.or_eq_true, Bool.not_eq_true', decide_eq_true_eq] at h
  exact h

theorem CtxSys.lockFreeFor_spec (s : CtxSys) (p : Nat) (h : s.lockFreeFor p = true) :
    s.owner = none ∨ s.owner = some p := by
  unfold CtxSys.lockFreeFor at h
  simpa using h

/-- Starting a dispatch pass keeps the invariant. -/
theorem CtxSys.inv_beginPass (cfg : CtxConfig) (s : CtxSys) (p : Nat) (hs : s.Inv cfg)
    (ha : s.alive = true) (hc : cfg.onOwningCore p = true) (hl : s.lockFreeFor p = true) :
    (s.beginPass p).Inv cfg := by
  have hown := CtxSys.lockFreeFor_spec s p hl
  refine CtxSys.inv_only cfg _ p ?_ ?_ ?_ ?_ ?_
  · intro h
    cases h
  · intro q _
    show 1 ≤ s.depth + 1
    omega
  · intro _
    exact ⟨rfl, by show 1 ≤ s.depth + 1; omega, le_refl _, ha⟩
  · intro _
    exact hc
  · intro q hq
    show ((s.beginPass p).mode q).inside = false
    unfold CtxSys.beginPass
    rw [CtxSys.setMode_mode, if_neg hq]
    exact CtxSys.others_out cfg s p hs hown q hq

/-- Ending a dispatch pass or an `execute_sync` keeps the invariant. -/
theorem CtxSys.inv_leave (cfg : CtxConfig) (s : CtxSys) (p : Nat) (hs : s.Inv cfg)
    (hin : (s.mode p).inside = true) : (s.leave p).Inv cfg := by
  obtain ⟨p1, p2, p3, p4⟩ := hs.2.2.1 p hin
  refine CtxSys.inv_only cfg _ p ?_ ?_ ?_ ?_ ?_
  · intro h
    show s.depth - 1 = 0
    by_cases hd : s.depth ≤ 1
    · omega
    · have h2 : (if s.depth ≤ 1 then none else s.owner) = none := h
      rw [if_neg hd, p1] at h2
      cases h2
  · intro q h
    show 1 ≤ s.depth - 1
    by_cases hd : s.depth ≤ 1
    · have h2 : (if s.depth ≤ 1 then none else s.owner) = some q := h
      rw [if_pos hd] at h2
      cases h2
    · omega
  · intro h
    unfold CtxSys.leave at h
    rw [CtxSys.setMode_mode, if_pos rfl] at h
    cases h
  · intro h
    unfold CtxSys.leave at h
    rw [CtxSys.setMode_mode, if_pos rfl] at h
    cases h
  · intro q hq
    unfold CtxSys.leave
    rw [CtxSys.setMode_mode, if_neg hq]
    exact CtxSys.others_out cfg s p hs (Or.inr p1) q hq

theorem CtxSys.ctx_inv_step (cfg : CtxConfig) (s : CtxSys) (p : Nat) (a : CtxAction)
    (h : s.Inv cfg) : (s.step cfg p a).Inv cfg := by
  have h1 := h.1
  have h2 := h.2.1
  have h3 := h.2.2.1
  have h4 := h.2.2.2
  cases a with
  | add_when_pending_worker w =>
    rw [CtxSys.step]
    split
    · exact CtxSys.inv_frame cfg s _ h rfl rfl rfl rfl rfl
    · exact h
  | remove_when_pending_worker w =>
    rw [CtxSys.step]
    split
    · exact CtxSys.inv_frame cfg s _ h rfl rfl rfl rfl rfl
    · exact h
  | set_work_pending w =>
    rw [CtxSys.step]
    split
    · exact CtxSys.inv_frame cfg s _ h rfl rfl rfl rfl rfl
    · exact h
  | add_at_time_worker w t =>
    rw [CtxSys.step]
    split
    · exact CtxSys.inv_frame cfg s _ h rfl rfl rfl rfl rfl
    · exact h
  | remove_at_time_worker w =>
    rw [CtxSys.step]
    split
    · exact CtxSys.inv_frame cfg s _ h rfl rfl rfl rfl rfl
    · exact h
  | acquire_lock =>
    rw [CtxSys.step]
    by_cases hg : s.mayCall cfg p = true
    · rw [if_pos hg]
      by_cases hn : s.owner = none
      · rw [if_pos hn]
        refine CtxSys.inv_only cfg _ p ?_ ?_ ?_ ?_ ?_
        · intro hc
          cases hc
        · intro q _
          exact le_refl _
        · intro hin
          have := (h3 p hin).1
          rw [hn] at this
          cases this
        · intro hin
          exact h4 p hin
        · intro q hq
          exact CtxSys.others_out cfg s p h (Or.inl hn) q hq
      · rw [if_neg hn]
        by_cases ho : s.owner = some p
        · rw [if_pos ho]
          refine CtxSys.inv_only cfg _ p ?_ ?_ ?_ ?_ ?_
          · intro hc
            exact absurd hc hn
          · intro q _
            show 1 ≤ s.depth + 1
            omega
          · intro hin
            obtain ⟨a1, a2, a3, a4⟩ := h3 p hin
            exact ⟨a1, a2, Nat.le_succ_of_le a3, a4⟩
          · intro hin
            exact h4 p hin
          · intro q hq
            exact CtxSys.others_out cfg s p h (Or.inr ho) q hq
        · rw [if_neg ho]
          exact h
    · rw [if_neg hg]
      exact h
  | release_lock =>
    rw [CtxSys.step]
    by_cases hg : s.mayCall cfg p = true ∧ s.owner = some p
    · rw [if_pos hg]
      obtain ⟨hcall, ho⟩ := hg
      obtain ⟨halive, hmode⟩ := CtxSys.mayCall_spec cfg s p hcall
      have hd := h2 p ho
      by_cases hcb : (s.mode p).in_callback = true
      · rw [if_pos hcb]
        by_cases hb : s.base < s.depth
        · rw [if_pos hb]
          refine CtxSys.inv_only cfg _ p ?_ ?_ ?_ ?_ ?_
          · intro hc
            rw [ho] at hc
            cases hc
          · intro q _
            obtain ⟨-, a2, -, -⟩ := h3 p (PartyMode.inside_of_in_callback _ hcb)
            show 1 ≤ s.depth - 1
            omega
          · intro hin
            obtain ⟨a1, a2, a3, a4⟩ := h3 p hin
            exact ⟨a1, a2, by show s.base ≤ s.depth - 1; omega, a4⟩
          · intro hin
            exact h4 p hin
          · intro q hq
            exact CtxSys.others_out cfg s p h (Or.inr ho) q hq
        · rw [if_neg hb]
          exact h
      · rw [if_neg hcb]
        have hout : s.mode p = PartyMode.outside := by
          rcases hmode with hm | hm
          · exact absurd hm hcb
          · exact hm.2
        by_cases h1d : 1 < s.depth
        · rw [if_pos h1d]
          refine CtxSys.inv_only cfg _ p ?_ ?_ ?_ ?_ ?_
          · intro hc
            rw [ho] at hc
            cases hc
          · intro q _
            show 1 ≤ s.depth - 1
            omega
          · intro hin
            have hin2 : (s.mode p).inside = true := hin
            rw [hout] at hin2
            cases hin2
          · intro hin
            exact h4 p hin
          · intro q hq
            exact CtxSys.others_out cfg s p h (Or.inr ho) q hq
        · rw [if_neg h1d]
          by_cases hin : cfg.onOwningCore p = true ∧ s.hasWork = true
          · rw [if_pos hin]
            refine CtxSys.inv_only cfg _ p ?_ ?_ ?_ ?_ ?_
            · exact h1
            · exact h2
            · intro _
              exact ⟨ho, hd, le_refl _, halive⟩
            · intro _
              exact hin.1
            · intro q hq
              show ((CtxSys.setMode _ p _).mode q).inside = false
              rw [CtxSys.setMode_mode, if_neg hq]
              exact CtxSys.others_out cfg s p h (Or.inr ho) q hq
          · rw [if_neg hin]
            refine CtxSys.inv_only cfg _ p ?_ ?_ ?_ ?_ ?_
            · intro _
              rfl
            · intro q hc
              cases hc
            · intro hin2
              have hin3 : (s.mode p).inside = true := hin2
              rw [hout] at hin3
              cases hin3
            · intro hin2
              exact h4 p hin2
            · intro q hq
              exact CtxSys.others_out cfg s p h (Or.inr ho) q hq
    · rw [if_neg hg]
      exact h
  | lock_check =>
    rw [CtxSys.step]
    exact h
  | execute_sync f =>
    rw [CtxSys.step]
    by_cases hg : s.alive = true ∧ cfg.interrupt p = false ∧ s.mode p = PartyMode.outside
        ∧ s.owner = none
    · rw [if_pos hg]
      obtain ⟨ga, -, -, gn⟩ := hg
      refine CtxSys.inv_only cfg _ p ?_ ?_ ?_ ?_ ?_
      · intro hc
        cases hc
      · intro q _
        exact le_refl _
      · intro _
        exact ⟨rfl, le_refl _, le_refl _, ga⟩
      · intro hin
        rw [CtxSys.setMode_mode, if_pos rfl] at hin
        cases hin
      · intro q hq
        rw [CtxSys.setMode_mode, if_neg hq]
        exact CtxSys.others_out cfg s p h (Or.inl gn) q hq
    · rw [if_neg hg]
      exact h
  | end_execute_sync =>
    rw [CtxSys.step]
    cases hm : s.mode p with
    | in_sync f =>
      simp only []
      by_cases hb : s.depth = s.base
      · rw [if_pos hb]
        exact CtxSys.inv_leave cfg s p h (by rw [hm]; rfl)
      · rw [if_neg hb]
        exact h
    | outside => exact h
    | waiting t => exact h
    | dispatching b => exact h
    | in_when_pending w => exact h
    | in_at_time w => exact h
  | poll =>
    rw [CtxSys.step]
    split
    · rename_i hg
      exact CtxSys.inv_beginPass cfg s p h hg.1 hg.2.2.2.1 hg.2.2.2.2.2
    · exact h
  | backend_dispatch =>
    rw [CtxSys.step]
    split
    · rename_i hg
      exact CtxSys.inv_beginPass cfg s p h hg.1 hg.2.2.1 hg.2.2.2.2
    · exact h
  | begin_when_pending w =>
    rw [CtxSys.step]
    split
    · rename_i hg
      exact CtxSys.inv_setMode_in cfg s _ p _ h rfl rfl rfl rfl rfl (by rw [hg.1]; rfl)
    · exact h
  | begin_at_time w =>
    rw [CtxSys.step]
    split
    · rename_i hg
      exact CtxSys.inv_setMode_in cfg s _ p _ h rfl rfl rfl rfl rfl hg.1
    · exact h
  | end_callback =>
    rw [CtxSys.step]
    cases hm : s.mode p with
    | in_when_pending w =>
      simp only []
      by_cases hb : s.depth = s.base
      · rw [if_pos hb]
        exact CtxSys.inv_setMode_in cfg s s p _ h rfl rfl rfl rfl rfl (by rw [hm]; rfl)
      · rw [if_neg hb]
        exact h
    | in_at_time w =>
      simp only []
      by_cases hb : s.depth = s.base
      · rw [if_pos hb]
        exact CtxSys.inv_setMode_in cfg s s p _ h rfl rfl rfl rfl rfl (by rw [hm]; rfl)
      · rw [if_neg hb]
        exact h
    | outside => exact h
    | waiting t => exact h
    | dispatching b => exact h
    | in_sync f => exact h
  | end_dispatch =>
    rw [CtxSys.step]
    cases hm : s.mode p with
    | dispatching b =>
      simp only []
      exact CtxSys.inv_leave cfg s p h (by rw [hm]; rfl)
    | outside => exact h
    | waiting t => exact h
    | in_when_pending w => exact h
    | in_at_time w => exact h
    | in_sync f => exact h
  | wait_until t =>
    rw [CtxSys.step]
    split
    · exact CtxSys.inv_setMode_out cfg s p _ h rfl
    · exact h
  | wait_for_work_until t =>
    rw [CtxSys.step]
    split
    · exact CtxSys.inv_setMode_out cfg s p _ h rfl
    · exact h
  | wake =>
    rw [CtxSys.step]
    cases hm : s.mode p with
    | waiting t =>
      simp only []
      split
      · exact CtxSys.inv_setMode_out cfg s p _ h rfl
      · exact h
    | outside => exact h
    | dispatching b => exact h
    | in_when_pending w => exact h
    | in_at_time w => exact h
    | in_sync f => exact h
  | tick =>
    rw [CtxSys.step]
    exact CtxSys.inv_frame cfg s _ h rfl rfl rfl rfl rfl
  | deinit =>
    rw [CtxSys.step]
    by_cases hg : s.alive = true ∧ cfg.interrupt p = false ∧ s.mode p = PartyMode.outside
        ∧ s.lockFreeFor p = true
    · rw [if_pos hg]
      obtain ⟨-, -, gm, gl⟩ := hg
      have hown := CtxSys.lockFreeFor_spec s p gl
      refine CtxSys.inv_only cfg _ p ?_ ?_ ?_ ?_ ?_
      · intro _
        rfl
      · intro q hc
        cases hc
      · intro hin
        have hin2 : (s.mode p).inside = true := hin
        rw [gm] at hin2
        cases hin2
      · intro hin
        exact h4 p hin
      · intro q hq
        exact CtxSys.others_out cfg s p h hown q hq
    · rw [if_neg hg]
      exact h

theorem CtxSys.ctx_inv_run (cfg : CtxConfig) (sched : List (Nat × CtxAction)) :
    ∀ s : CtxSys, s.Inv cfg → (s.run cfg sched).Inv cfg := by
  induction sched with
  | nil => intro s h; exact h
  | cons x rest ih =>
    intro s h
    obtain ⟨p, a⟩ := x
    exact ih _ (CtxSys.ctx_inv_step cfg s p a h)

/-- C20: no two callbacks of the same context execute concurrently.  In the
model of the context taken from the spec (worker registration and removal,
`set_work_pending`, the nested lock, `execute_sync`, `poll` and the dispatch of
the other backends, the pass over pending and timed workers, the waits, time
and `deinit`), for every assignment of parties to cores and to interrupt
handlers, either kind of backend, and every interleaving of calls from the
start: two parties that are executing a callback (the `do_work` of a
when-pending or of a timed worker, or the function given to `execute_sync`) are
the same party, in the same callback; a party executing a callback holds the
context lock, in a context that is alive; a party inside a dispatch pass runs on
the owning core; and once `deinit` has returned no party is inside a pass or a
callback. -/
theorem async_context_callbacks_exclusive (cfg : CtxConfig) (now : Nat)
    (sched : List (Nat × CtxAction)) (p q : Nat) :
    ((((CtxSys.init now).run cfg sched).mode p).in_callback = true →
      (((CtxSys.init now).run cfg sched).mode q).in_callback = true →
      p = q ∧ ((CtxSys.init now).run cfg sched).mode p
        = ((CtxSys.init now).run cfg sched).mode q)
    ∧ ((((CtxSys.init now).run cfg sched).mode p).in_callback = true →
      ((CtxSys.init now).run cfg sched).owner = some p
      ∧ 1 ≤ ((CtxSys.init now).run cfg sched).depth
      ∧ ((CtxSys.init now).run cfg sched).alive = true)
    ∧ ((((CtxSys.init now).run cfg sched).mode p).in_pass = true →
      cfg.onOwningCore p = true)
    ∧ (((CtxSys.init now).run cfg sched).alive = false →
      (((CtxSys.init now).run cfg sched).mode p).inside = false) := by
  have hinit : (CtxSys.init now).Inv cfg := by
    refine ⟨fun _ => rfl, fun p hc => ?_, fun p hp => ?_, fun p hp => ?_⟩
    · cases hc
    · cases hp
    · cases hp
  obtain ⟨-, h2, h3, h4⟩ := CtxSys.ctx_inv_run cfg sched _ hinit
  refine ⟨fun hp hq => ?_, fun hp => ?_, fun hp => h4 p hp, fun ha => ?_⟩
  · have op := (h3 p (PartyMode.inside_of_in_callback _ hp)).1
    have oq := (h3 q (PartyMode.inside_of_in_callback _ hq)).1
    rw [op] at oq
    have hpq : p = q := Option.some.inj oq
    subst hpq
    exact ⟨rfl, rfl⟩
  · obtain ⟨a1, -, -, a4⟩ := h3 p (PartyMode.inside_of_in_callback _ hp)
    exact ⟨a1, h2 p a1, a4⟩
  · cases hin : (((CtxSys.init now).run cfg sched).mode p).inside with
    | false => rfl
    | true =>
      have := (h3 p hin).2.2.2
      rw [ha] at this
      cases this

/-- A run of the model with a backend that dispatches on its own; party 0 is
its dispatcher on the owning core, party 1 runs on the other core, party 2 is an
interrupt handler.  Party 1 registers worker 5 and the timed worker 8 (deadline
3); the interrupt marks worker 5 pending; the dispatcher starts a pass and
enters the callback of worker 5; party 1 asks for `execute_sync` and has to
wait; after a tick the pass comes to the timed worker 8; when the pass is over,
party 1 gets its function run. -/
theorem async_context_dispatch_run :
    (((CtxSys.init 2).run ⟨fun p => decide (p = 0), fun p => decide (p = 2), false⟩
        [(1, CtxAction.add_when_pending_worker 5), (1, CtxAction.add_at_time_worker 8 3),
         (2, CtxAction.set_work_pending 5), (0, CtxAction.backend_dispatch),
         (0, CtxAction.begin_when_pending 5), (1, CtxAction.execute_sync 9)]).mode 0
        = PartyMode.in_when_pending 5)
    ∧ (((CtxSys.init 2).run ⟨fun p => decide (p = 0), fun p => decide (p = 2), false⟩
        [(1, CtxAction.add_when_pending_worker 5), (1, CtxAction.add_at_time_worker 8 3),
         (2, CtxAction.set_work_pending 5), (0, CtxAction.backend_dispatch),
         (0, CtxAction.begin_when_pending 5), (1, CtxAction.execute_sync 9)]).mode 1
        = PartyMode.outside)
    ∧ (((CtxSys.init 2).run ⟨fun p => decide (p = 0), fun p => decide (p = 2), false⟩
        [(1, CtxAction.add_when_pending_worker 5), (1, CtxAction.add_at_time_worker 8 3),
         (2, CtxAction.set_work_pending 5), (0, CtxAction.backend_dispatch),
         (0, CtxAction.begin_when_pending 5), (1, CtxAction.execute_sync 9),
         (0, CtxAction.begin_at_time 8), (0, CtxAction.end_callback), (0, CtxAction.tick),
         (0, CtxAction.begin_at_time 8)]).mode 0
        = PartyMode.in_at_time 8)
    ∧ (((CtxSys.init 2).run ⟨fun p => decide (p = 0), fun p => decide (p = 2), false⟩
        [(1, CtxAction.add_when_pending_worker 5), (1, CtxAction.add_at_time_worker 8 3),
         (2, CtxAction.set_work_pending 5), (0, CtxAction.backend_dispatch),
         (0, CtxAction.begin_when_pending 5), (1, CtxAction.execute_sync 9),
         (0, CtxAction.begin_at_time 8), (0, CtxAction.end_callback), (0, CtxAction.tick),
         (0, CtxAction.begin_at_time 8)]).at_time_list = [])
    ∧ (((CtxSys.init 2).run ⟨fun p => decide (p = 0), fun p => decide (p = 2), false⟩
        [(1, CtxAction.add_when_pending_worker 5), (1, CtxAction.add_at_time_worker 8 3),
         (2, CtxAction.set_work_pending 5), (0, CtxAction.backend_dispatch),
         (0, CtxAction.begin_when_pending 5), (1, CtxAction.execute_sync 9),
         (0, CtxAction.begin_at_time 8), (0, CtxAction.end_callback), (0, CtxAction.tick),
         (0, CtxAction.begin_at_time 8), (0, CtxAction.end_callback),
         (0, CtxAction.end_dispatch), (1, CtxAction.execute_sync 9)]).mode 1
        = PartyMode.in_sync 9)
    ∧ (((CtxSys.init 2).run ⟨fun p => decide (p = 0), fun p => decide (p = 2), false⟩
        [(1, CtxAction.add_when_pending_worker 5), (1, CtxAction.add_at_time_worker 8 3),
         (2, CtxAction.set_work_pending 5), (0, CtxAction.backend_dispatch),
         (0, CtxAction.begin_when_pending 5), (1, CtxAction.execute_sync 9),
         (0, CtxAction.begin_at_time 8), (0, CtxAction.end_callback), (0, CtxAction.tick),
         (0, CtxAction.begin_at_time 8), (0, CtxAction.end_callback),
         (0, CtxAction.end_dispatch), (1, CtxAction.execute_sync 9),
         (0, CtxAction.backend_dispatch)]).mode 0
        = PartyMode.outside) := by
  refine ⟨by decide, by decide, by decide, by decide, by decide, by decide⟩

/-! ### The post-divide chosen by `spi_set_baudrate` -/

/-- C23: for the prescale chosen by `spi_set_baudrate` and every `freq_in` and
`baudrate`: if some post-divide in 1..256 gives
`freq_in / (prescale * postdiv) <= baudrate`, the post-divide chosen is the
smallest such value, so the frequency returned is the highest one not exceeding
`baudrate` that this prescale can produce; if no post-divide in 1..256 does,
the post-divide chosen is 256.  The value returned is
`freq_in / (prescale * postdiv)` for the chosen pair. -/
theorem spi_postdiv_smallest (freq_in baudrate : Nat) :
    (∀ q, 1 ≤ q → q ≤ 256 → freq_in / (spi_prescale freq_in baudrate * q) ≤ baudrate →
        spi_postdiv freq_in baudrate ≤ q
        ∧ freq_in / (spi_prescale freq_in baudrate * spi_postdiv freq_in baudrate) ≤ baudrate
        ∧ freq_in / (spi_prescale freq_in baudrate * q)
            ≤ freq_in / (spi_prescale freq_in baudrate * spi_postdiv freq_in baudrate))
    ∧ ((∀ q, 1 ≤ q → q ≤ 256 →
          baudrate < freq_in / (spi_prescale freq_in baudrate * q)) →
        spi_postdiv freq_in baudrate = 256)
    ∧ 1 ≤ spi_postdiv freq_in baudrate ∧ spi_postdiv freq_in baudrate ≤ 256
    ∧ ∀ (am : AddressMap) (k : SpiConsts) (spi : SpiHw),
        (spi_set_baudrate false am k freq_in spi baudrate).map Prod.snd
          = some (freq_in / (spi_prescale freq_in baudrate * spi_postdiv freq_in baudrate)) := by
  obtain ⟨hs2, -⟩ := spi_prescale_spec freq_in baudrate
  obtain ⟨hq1, hq256, hbrk, hpass⟩ :=
    spi_postdiv_loop_spec freq_in baudrate (spi_prescale freq_in baudrate) 256 (by norm_num)
  change 1 ≤ spi_postdiv freq_in baudrate at hq1
  change spi_postdiv freq_in baudrate ≤ 256 at hq256
  change spi_postdiv freq_in baudrate = 1 ∨ baudrate < freq_in
    / (spi_prescale freq_in baudrate * (spi_postdiv freq_in baudrate - 1)) at hbrk
  change ∀ q, spi_postdiv freq_in baudrate ≤ q → q < 256 →
    freq_in / (spi_prescale freq_in baudrate * q) ≤ baudrate at hpass
  refine ⟨fun q h1 h256 hle => ?_, fun hnone => ?_, hq1, hq256, fun am k spi => ?_⟩
  · have hpq : spi_postdiv freq_in baudrate ≤ q := by
      by_contra hlt
      rcases hbrk with h | h
      · omega
      · have hmono : freq_in / (spi_prescale freq_in baudrate
              * (spi_postdiv freq_in baudrate - 1))
            ≤ freq_in / (spi_prescale freq_in baudrate * q) :=
          Nat.div_le_div_left (Nat.mul_le_mul_left _ (by omega))
            (Nat.mul_pos (by omega) (by omega))
        omega
    refine ⟨hpq, ?_, Nat.div_le_div_left (Nat.mul_le_mul_left _ hpq)
      (Nat.mul_pos (by omega) (by omega))⟩
    by_cases h : spi_postdiv freq_in baudrate < 256
    · exact hpass _ (le_refl _) h
    · have hq : q = spi_postdiv freq_in baudrate := by omega
      rw [← hq]
      exact hle
  · by_contra hne
    have hlt : spi_postdiv freq_in baudrate < 256 := by omega
    have h1 := hpass _ (le_refl _) hlt
    have h2 := hnone _ hq1 hq256
    omega
  · rw [spi_set_baudrate_eq false am k freq_in spi baudrate (Or.inl rfl)]
    rfl

/-- Witness for C23: peripheral clock 125 MHz, request 1 MHz.  The prescale is
2; the post-divide 63 gives 992063 Hz, and the post-divide chosen is 63, the
smallest one that does not exceed the request. -/
theorem spi_postdiv_smallest_witness :
    spi_prescale 125000000 1000000 = 2
    ∧ spi_postdiv 125000000 1000000 = 63
    ∧ 125000000 / (2 * 63) = 992063
    ∧ 1000000 < 125000000 / (2 * 62)
    ∧ (spi_postdiv 125000000 1000000 ≤ 63
      ∧ 125000000 / (spi_prescale 125000000 1000000 * spi_postdiv 125000000 1000000)
          ≤ 1000000
      ∧ 125000000 / (spi_prescale 125000000 1000000 * 63)
          ≤ 125000000
            / (spi_prescale 125000000 1000000 * spi_postdiv 125000000 1000000)) :=
  ⟨by decide, by set_option maxRecDepth 100000 in decide, by decide, by decide,
   (spi_postdiv_smallest 125000000 1000000).1 63 (by decide) (by decide) (by decide)⟩

/-! ### `irq_clear` -/

theorem and_31_eq_mod (x : Nat) : x &&& 0x1F = x % 32 := by
  have h := Nat.and_pow_two_sub_one_eq_mod x 5
  norm_num at h
  exact h

/-- The word `irq_clear` stores is `2 ^ (int_num % 32)`. -/
theorem irq_clear_word (int_num : Nat) :
    (1 <<< ((int_num % 2 ^ 32) &&& 0x1F)) % 2 ^ 32 = 2 ^ (int_num % 32) := by
  have h32 : int_num % 2 ^ 32 % 32 = int_num % 32 :=
    Nat.mod_mod_of_dvd int_num (by norm_num)
  rw [and_31_eq_mod, h32, Nat.one_shiftLeft]
  exact Nat.mod_eq_of_lt (Nat.pow_lt_pow_right (by norm_num) (by omega))

/-- C25: for every `int_num`, `irq_clear(int_num)` makes one store, to the NVIC
ICPR register, of a word with exactly one bit set, bit `int_num mod 32`; the
pending bit of that line is cleared and no other line's pending state changes.
An `int_num >= 32` is not rejected: it acts on line `int_num mod 32`. -/
theorem irq_clear_spec (c : PpbConsts) (n : Nvic) (int_num : Nat)
    (hp : n.pending < 2 ^ 32) :
    (irq_clear c n int_num).stores
        = n.stores ++ [((c.PPB_BASE + c.M0PLUS_NVIC_ICPR_OFFSET) % 2 ^ 32,
            2 ^ (int_num % 32))]
    ∧ (∀ i, (2 ^ (int_num % 32)).testBit i = decide (i = int_num % 32))
    ∧ (irq_clear c n int_num).pending.testBit (int_num % 32) = false
    ∧ (∀ i, i ≠ int_num % 32 →
        (irq_clear c n int_num).pending.testBit i = n.pending.testBit i)
    ∧ irq_clear c n int_num = irq_clear c n (int_num % 32) := by
  have hw := irq_clear_word int_num
  have hpend : (irq_clear c n int_num).pending
      = n.pending &&& not32 (2 ^ (int_num % 32)) := by
    simp only [irq_clear, Nvic.store, hw, if_true]
  refine ⟨?_, ?_, ?_, ?_, ?_⟩
  · simp only [irq_clear, Nvic.store, hw]
  · intro i
    rw [Nat.testBit_two_pow]
    by_cases h : i = int_num % 32
    · simp [h]
    · have h2 : ¬ (int_num % 32 = i) := fun e => h e.symm
      simp [h, h2]
  · rw [hpend, Nat.testBit_and, testBit_not32, Nat.testBit_two_pow_self]
    have : int_num % 32 < 32 := Nat.mod_lt _ (by norm_num)
    simp [this]
  · intro i hi
    rw [hpend, Nat.testBit_and, testBit_not32,
      Nat.testBit_two_pow_of_ne (fun e => hi e.symm)]
    by_cases h32 : i < 32
    · simp [h32]
    · simp [h32, testBit_high_of_lt hp (Nat.le_of_not_lt h32)]
  · have hw2 := irq_clear_word (int_num % 32)
    rw [Nat.mod_mod] at hw2
    simp only [irq_clear, hw, hw2]

/-- Witness for C25 on the RP2040 constants: with lines 3, 5 and 26 pending,
`irq_clear(58)` stores `0x04000000` to `0xe000e280` and leaves lines 3 and 5
pending. -/
theorem irq_clear_spec_witness :
    irq_clear rp2040Ppb ⟨0x04000028, []⟩ 58 = ⟨0x28, [(0xe000e280, 0x04000000)]⟩
    ∧ (irq_clear rp2040Ppb ⟨0x04000028, []⟩ 58).stores
        = (⟨0x04000028, []⟩ : Nvic).stores
          ++ [((rp2040Ppb.PPB_BASE + rp2040Ppb.M0PLUS_NVIC_ICPR_OFFSET) % 2 ^ 32,
              2 ^ (58 % 32))] :=
  ⟨by decide, (irq_clear_spec rp2040Ppb ⟨0x04000028, []⟩ 58 (by decide)).1⟩

/-! ### Delays reach the backend as absolute deadlines -/

/-- C26: `async_context_add_at_time_worker_in_ms(context, worker, ms)` stores
`make_timeout_time_ms(ms)` in `worker->next_time` and then makes the same
backend call as `async_context_add_at_time_worker` (and as
`async_context_add_at_time_worker_at` with that deadline);
`async_context_wait_for_work_ms(context, ms)` equals
`async_context_wait_for_work_until(context, make_timeout_time_ms(ms))`.  The one
backend call each of them makes carries the absolute deadline, not `ms`. -/
theorem async_context_delays_absolute {β : Type} (t : async_context_type_t β)
    (make_timeout_time_ms : Nat → Nat) (context worker ms : Nat) (m : AsyncMem β) :
    async_context_add_at_time_worker_in_ms t make_timeout_time_ms context worker ms m
        = async_context_add_at_time_worker t context worker
            (m.store_next_time worker (make_timeout_time_ms ms))
    ∧ async_context_add_at_time_worker_in_ms t make_timeout_time_ms context worker ms m
        = async_context_add_at_time_worker_at t context worker (make_timeout_time_ms ms) m
    ∧ ((m.store_next_time worker (make_timeout_time_ms ms)).at_time_workers worker).next_time
        = make_timeout_time_ms ms
    ∧ (async_context_add_at_time_worker_in_ms t make_timeout_time_ms context worker ms m).1
        = [BackendCall.add_at_time_worker context worker]
    ∧ async_context_wait_for_work_ms t make_timeout_time_ms context ms m
        = async_context_wait_for_work_until t context (make_timeout_time_ms ms) m
    ∧ (async_context_wait_for_work_ms t make_timeout_time_ms context ms m).1
        = [BackendCall.wait_for_work_until context (make_timeout_time_ms ms)]
    ∧ (async_context_wait_for_work_ms t make_timeout_time_ms context ms m).2
        = t.wait_for_work_until context (make_timeout_time_ms ms) m := by
  refine ⟨rfl, rfl, ?_, rfl, rfl, rfl, rfl⟩
  simp [AsyncMem.store_next_time]

/-- A run for C26: at time 1000 (in ms), adding worker 7 in 250 ms leaves the
deadline 1250 in the worker and registers it. -/
theorem async_context_delays_absolute_run :
    (async_context_add_at_time_worker_in_ms (listBackend false) (fun ms => 1000 + ms) 3 7 250
        (asyncMemAt 0 [])).2.1 = true
    ∧ ((async_context_add_at_time_worker_in_ms (listBackend false) (fun ms => 1000 + ms) 3 7
        250 (asyncMemAt 0 [])).2.2.at_time_workers 7).next_time = 1250
    ∧ (async_context_add_at_time_worker_in_ms (listBackend false) (fun ms => 1000 + ms) 3 7
        250 (asyncMemAt 0 [])).2.2.rest = [7] := by
  refine ⟨by decide, by decide, by decide⟩


/-! ### `spi_set_format` -/

theorem or_and_of_disjoint_right (x y f : Nat) (h : y &&& f = 0) :
    (x ||| y) &&& f = x &&& f := by
  apply Nat.eq_of_testBit_eq
  intro i
  have hb : (y &&& f).testBit i = false := by rw [h]; exact Nat.zero_testBit i
  simp only [Nat.testBit_and, Nat.testBit_or] at hb ⊢
  cases hx : x.testBit i <;> cases hy : y.testBit i <;> cases hf : f.testBit i <;> simp_all

theorem or_and_of_disjoint_left (x y f : Nat) (h : x &&& f = 0) :
    (x ||| y) &&& f = y &&& f := by
  rw [Nat.or_comm]
  exact or_and_of_disjoint_right y x f h

theorem and_zero_of_sub (x s f : Nat) (hx : x &&& s = x) (hsf : s &&& f = 0) :
    x &&& f = 0 := by
  rw [← hx, Nat.and_assoc, hsf, Nat.and_zero]

/-- A value that fits in `w` bits, shifted to a field, lies inside the field. -/
theorem shl_and_field (x w L : Nat) (hx : x < 2 ^ w) :
    (x <<< L) &&& ((2 ^ w - 1) <<< L) = x <<< L := by
  rw [shl_and, Nat.and_pow_two_sub_one_eq_mod, Nat.mod_eq_of_lt hx]

/-- Bits outside the mask are not changed by the XOR trick. -/
theorem masked_write_outside (c v m f : Nat) (hf : f &&& m = 0) :
    (c ^^^ ((c ^^^ v) &&& m)) &&& f = c &&& f := by
  apply Nat.eq_of_testBit_eq
  intro i
  have hb : (f &&& m).testBit i = false := by rw [hf]; exact Nat.zero_testBit i
  simp only [Nat.testBit_and, Nat.testBit_xor] at hb ⊢
  cases hfi : f.testBit i <;> cases hmi : m.testBit i <;> cases c.testBit i <;>
    cases v.testBit i <;> simp_all

/-- C24: `spi_set_format(spi, data_bits, cpol, cpha, SPI_MSB_FIRST)` with
`4 <= data_bits <= 16` returns and sets CR0.DSS = `data_bits - 1`, CR0.SPO =
`cpol` and CR0.SPH = `cpha`; every other bit of CR0 is unchanged, in particular
the SCR field, and CPSR is untouched, so `spi_get_baudrate` gives the same value
before and after; CR1.SSE is equal to its value on entry. -/
theorem spi_set_format_spec (pa : Bool) (am : AddressMap) (k : SpiConsts) (spi : SpiHw)
    (data_bits cpol cpha freq_in : Nat)
    (hs0 : am.Separates spi.cr0.addr) (hs1 : am.Separates spi.cr1.addr)
    (hfmt : k.FormatFields) (hfr : k.FormatFrame)
    (hd : 4 ≤ data_bits ∧ data_bits ≤ 16)
    (hpol : cpol = SPI_CPOL_0 ∨ cpol = SPI_CPOL_1)
    (hpha : cpha = SPI_CPHA_0 ∨ cpha = SPI_CPHA_1) :
    ∃ spi2 : SpiHw,
      spi_set_format pa am k spi data_bits cpol cpha SPI_MSB_FIRST = some spi2
      ∧ (spi2.cr0.val &&& k.SPI_SSPCR0_DSS_BITS) >>> k.SPI_SSPCR0_DSS_LSB = data_bits - 1
      ∧ (spi2.cr0.val &&& k.SPI_SSPCR0_SPO_BITS) >>> k.SPI_SSPCR0_SPO_LSB = cpol
      ∧ (spi2.cr0.val &&& k.SPI_SSPCR0_SPH_BITS) >>> k.SPI_SSPCR0_SPH_LSB = cpha
      ∧ (∀ i, (k.SPI_SSPCR0_DSS_BITS ||| k.SPI_SSPCR0_SPO_BITS
                ||| k.SPI_SSPCR0_SPH_BITS).testBit i = false →
            spi2.cr0.val.testBit i = spi.cr0.val.testBit i)
      ∧ spi2.cr0.val &&& k.SPI_SSPCR0_SCR_BITS = spi.cr0.val &&& k.SPI_SSPCR0_SCR_BITS
      ∧ spi2.cpsr = spi.cpsr
      ∧ spi_get_baudrate k freq_in spi2 = spi_get_baudrate k freq_in spi
      ∧ spi2.cr1.val &&& k.SPI_SSPCR1_SSE_BITS = spi.cr1.val &&& k.SPI_SSPCR1_SSE_BITS := by
  obtain ⟨hD, hDl, hO, hOl, hH, hHl, hDO, hDH⟩ := hfmt
  obtain ⟨hOH, hSCR⟩ := hfr
  have hOD : k.SPI_SSPCR0_SPO_BITS &&& k.SPI_SSPCR0_DSS_BITS = 0 := by
    rw [Nat.and_comm]; exact hDO
  have hHD : k.SPI_SSPCR0_SPH_BITS &&& k.SPI_SSPCR0_DSS_BITS = 0 := by
    rw [Nat.and_comm]; exact hDH
  have hHO : k.SPI_SSPCR0_SPH_BITS &&& k.SPI_SSPCR0_SPO_BITS = 0 := by
    rw [Nat.and_comm]; exact hOH
  have hpol1 : cpol < 2 ^ 1 := by
    rcases hpol with h | h <;> rw [h] <;> decide
  have hpha1 : cpha < 2 ^ 1 := by
    rcases hpha with h | h <;> rw [h] <;> decide
  have hd1 : (data_bits + 2 ^ 32 - 1) % 2 ^ 32 = data_bits - 1 := by omega
  have hd4 : data_bits - 1 < 2 ^ 4 := by omega
  -- the value written: the three fields side by side
  have hval : (((data_bits + 2 ^ 32 - 1) % 2 ^ 32) <<< k.SPI_SSPCR0_DSS_LSB) % 2 ^ 32
      ||| (cpol <<< k.SPI_SSPCR0_SPO_LSB) % 2 ^ 32
      ||| (cpha <<< k.SPI_SSPCR0_SPH_LSB) % 2 ^ 32
      = (data_bits - 1) <<< k.SPI_SSPCR0_DSS_LSB ||| cpol <<< k.SPI_SSPCR0_SPO_LSB
        ||| cpha <<< k.SPI_SSPCR0_SPH_LSB := by
    rw [hd1, shl_fits _ _ 4 hd4 (by omega), shl_fits _ _ 1 hpol1 (by omega),
      shl_fits _ _ 1 hpha1 (by omega)]
  have hAD : ((data_bits - 1) <<< k.SPI_SSPCR0_DSS_LSB) &&& k.SPI_SSPCR0_DSS_BITS
      = (data_bits - 1) <<< k.SPI_SSPCR0_DSS_LSB := by
    rw [hD]; exact shl_and_field _ 4 _ hd4
  have hBO : (cpol <<< k.SPI_SSPCR0_SPO_LSB) &&& k.SPI_SSPCR0_SPO_BITS
      = cpol <<< k.SPI_SSPCR0_SPO_LSB := by
    rw [hO]; exact shl_and_field _ 1 _ hpol1
  have hCH : (cpha <<< k.SPI_SSPCR0_SPH_LSB) &&& k.SPI_SSPCR0_SPH_BITS
      = cpha <<< k.SPI_SSPCR0_SPH_LSB := by
    rw [hH]; exact shl_and_field _ 1 _ hpha1
  have hAO := and_zero_of_sub _ _ _ hAD hDO
  have hAH := and_zero_of_sub _ _ _ hAD hDH
  have hBD := and_zero_of_sub _ _ _ hBO hOD
  have hBH := and_zero_of_sub _ _ _ hBO hOH
  have hCD := and_zero_of_sub _ _ _ hCH hHD
  have hCO := and_zero_of_sub _ _ _ hCH hHO
  -- each field lies inside the mask written
  have subD : k.SPI_SSPCR0_DSS_BITS
      &&& (k.SPI_SSPCR0_DSS_BITS ||| k.SPI_SSPCR0_SPO_BITS ||| k.SPI_SSPCR0_SPH_BITS)
      = k.SPI_SSPCR0_DSS_BITS := by
    apply Nat.eq_of_testBit_eq
    intro i
    simp only [Nat.testBit_and, Nat.testBit_or]
    cases k.SPI_SSPCR0_DSS_BITS.testBit i <;> cases k.SPI_SSPCR0_SPO_BITS.testBit i <;>
      cases k.SPI_SSPCR0_SPH_BITS.testBit i <;> rfl
  have subO : k.SPI_SSPCR0_SPO_BITS
      &&& (k.SPI_SSPCR0_DSS_BITS ||| k.SPI_SSPCR0_SPO_BITS ||| k.SPI_SSPCR0_SPH_BITS)
      = k.SPI_SSPCR0_SPO_BITS := by
    apply Nat.eq_of_testBit_eq
    intro i
    simp only [Nat.testBit_and, Nat.testBit_or]
    cases k.SPI_SSPCR0_DSS_BITS.testBit i <;> cases k.SPI_SSPCR0_SPO_BITS.testBit i <;>
      cases k.SPI_SSPCR0_SPH_BITS.testBit i <;> rfl
  have subH : k.SPI_SSPCR0_SPH_BITS
      &&& (k.SPI_SSPCR0_DSS_BITS ||| k.SPI_SSPCR0_SPO_BITS ||| k.SPI_SSPCR0_SPH_BITS)
      = k.SPI_SSPCR0_SPH_BITS := by
    apply Nat.eq_of_testBit_eq
    intro i
    simp only [Nat.testBit_and, Nat.testBit_or]
    cases k.SPI_SSPCR0_DSS_BITS.testBit i <;> cases k.SPI_SSPCR0_SPO_BITS.testBit i <;>
      cases k.SPI_SSPCR0_SPH_BITS.testBit i <;> rfl
  have hcr0 := write_masked_val am spi.cr0
    ((data_bits - 1) <<< k.SPI_SSPCR0_DSS_LSB ||| cpol <<< k.SPI_SSPCR0_SPO_LSB
      ||| cpha <<< k.SPI_SSPCR0_SPH_LSB)
    (k.SPI_SSPCR0_DSS_BITS ||| k.SPI_SSPCR0_SPO_BITS ||| k.SPI_SSPCR0_SPH_BITS) hs0
  have hscr : (hw_write_masked am spi.cr0 spi.cr0.addr
        ((data_bits - 1) <<< k.SPI_SSPCR0_DSS_LSB ||| cpol <<< k.SPI_SSPCR0_SPO_LSB
          ||| cpha <<< k.SPI_SSPCR0_SPH_LSB)
        (k.SPI_SSPCR0_DSS_BITS ||| k.SPI_SSPCR0_SPO_BITS ||| k.SPI_SSPCR0_SPH_BITS)).val
        &&& k.SPI_SSPCR0_SCR_BITS = spi.cr0.val &&& k.SPI_SSPCR0_SCR_BITS := by
    rw [hcr0]
    exact masked_write_outside _ _ _ _ hSCR
  have heq := spi_set_format_eq pa am k spi data_bits cpol cpha hd hpol hpha
  rw [hval] at heq
  refine ⟨_, heq, ?_, ?_, ?_, ?_, hscr, rfl, ?_, ?_⟩
  · -- DSS
    show ((hw_write_masked am spi.cr0 spi.cr0.addr _ _).val &&& _) >>> _ = _
    rw [hcr0, masked_write_and _ _ _ _ subD, or_and_of_disjoint_right _ _ _ hCD,
      or_and_of_disjoint_right _ _ _ hBD, hAD]
    exact Nat.shiftLeft_shiftRight _ _
  · -- SPO
    show ((hw_write_masked am spi.cr0 spi.cr0.addr _ _).val &&& _) >>> _ = _
    rw [hcr0, masked_write_and _ _ _ _ subO, or_and_of_disjoint_right _ _ _ hCO,
      or_and_of_disjoint_left _ _ _ hAO, hBO]
    exact Nat.shiftLeft_shiftRight _ _
  · -- SPH
    show ((hw_write_masked am spi.cr0 spi.cr0.addr _ _).val &&& _) >>> _ = _
    have hABH : ((data_bits - 1) <<< k.SPI_SSPCR0_DSS_LSB ||| cpol <<< k.SPI_SSPCR0_SPO_LSB)
        &&& k.SPI_SSPCR0_SPH_BITS = 0 := by
      rw [or_and_of_disjoint_right _ _ _ hBH, hAH]
    rw [hcr0, masked_write_and _ _ _ _ subH, or_and_of_disjoint_left _ _ _ hABH, hCH]
    exact Nat.shiftLeft_shiftRight _ _
  · -- the other bits of CR0
    intro i hi
    show (hw_write_masked am spi.cr0 spi.cr0.addr _ _).val.testBit i = _
    rw [hcr0]
    simp only [Nat.testBit_xor, Nat.testBit_and, hi, Bool.and_false, Bool.xor_false]
  · -- the baud rate read back
    unfold spi_get_baudrate
    simp only [IoReg.load]
    have haddr : (hw_write_masked am spi.cr0 spi.cr0.addr
        ((data_bits - 1) <<< k.SPI_SSPCR0_DSS_LSB ||| cpol <<< k.SPI_SSPCR0_SPO_LSB
          ||| cpha <<< k.SPI_SSPCR0_SPH_LSB)
        (k.SPI_SSPCR0_DSS_BITS ||| k.SPI_SSPCR0_SPO_BITS ||| k.SPI_SSPCR0_SPH_BITS)).addr
        = spi.cr0.addr := rfl
    simp only [haddr, if_true, hscr]
  · -- CR1.SSE
    show (hw_set_bits am (hw_clear_bits am (spi.cr1.load spi.cr1.addr).2 spi.cr1.addr _)
      spi.cr1.addr _).val &&& _ = _
    rw [store_set_val_at am _ _ _ hs1 ?_]
    · have hclr : (hw_clear_bits am (spi.cr1.load spi.cr1.addr).2 spi.cr1.addr
          k.SPI_SSPCR1_SSE_BITS).val = spi.cr1.val &&& not32 k.SPI_SSPCR1_SSE_BITS :=
        store_clr_val am (spi.cr1.load spi.cr1.addr).2 k.SPI_SSPCR1_SSE_BITS hs1
      have hld : (spi.cr1.load spi.cr1.addr).1 = spi.cr1.val := by simp [IoReg.load]
      rw [hclr, hld]
      apply Nat.eq_of_testBit_eq
      intro i
      simp only [Nat.testBit_and, Nat.testBit_or]
      cases spi.cr1.val.testBit i <;> cases k.SPI_SSPCR1_SSE_BITS.testBit i <;>
        cases (not32 k.SPI_SSPCR1_SSE_BITS).testBit i <;> rfl
    · rfl

/-- Witness for C24: SPI enabled, CR0 holding `0x1207` (SCR = 0x12, 8 data
bits), CPSR 2; setting 16 data bits, CPOL 1, CPHA 0 gives CR0 = `0x124f` and
leaves CR1 at `0x2`. -/
theorem spi_set_format_spec_witness :
    (spi_set_format true rp2040Map rp2040Spi (spiAt 0x1207 0x2 2 0) 16 SPI_CPOL_1 SPI_CPHA_0
        SPI_MSB_FIRST).map (fun s => (s.cr0.val, s.cr1.val, s.cpsr.val)) = some (0x124f, 0x2, 2)
    ∧ ∃ spi2 : SpiHw,
      spi_set_format true rp2040Map rp2040Spi (spiAt 0x1207 0x2 2 0) 16 SPI_CPOL_1 SPI_CPHA_0
        SPI_MSB_FIRST = some spi2
      ∧ (spi2.cr0.val &&& rp2040Spi.SPI_SSPCR0_DSS_BITS) >>> rp2040Spi.SPI_SSPCR0_DSS_LSB
          = 16 - 1
      ∧ (spi2.cr0.val &&& rp2040Spi.SPI_SSPCR0_SPO_BITS) >>> rp2040Spi.SPI_SSPCR0_SPO_LSB
          = SPI_CPOL_1
      ∧ (spi2.cr0.val &&& rp2040Spi.SPI_SSPCR0_SPH_BITS) >>> rp2040Spi.SPI_SSPCR0_SPH_LSB
          = SPI_CPHA_0
      ∧ (∀ i, (rp2040Spi.SPI_SSPCR0_DSS_BITS ||| rp2040Spi.SPI_SSPCR0_SPO_BITS
                ||| rp2040Spi.SPI_SSPCR0_SPH_BITS).testBit i = false →
            spi2.cr0.val.testBit i = (spiAt 0x1207 0x2 2 0).cr0.val.testBit i)
      ∧ spi2.cr0.val &&& rp2040Spi.SPI_SSPCR0_SCR_BITS
          = (spiAt 0x1207 0x2 2 0).cr0.val &&& rp2040Spi.SPI_SSPCR0_SCR_BITS
      ∧ spi2.cpsr = (spiAt 0x1207 0x2 2 0).cpsr
      ∧ spi_get_baudrate rp2040Spi 125000000 spi2
          = spi_get_baudrate rp2040Spi 125000000 (spiAt 0x1207 0x2 2 0)
      ∧ spi2.cr1.val &&& rp2040Spi.SPI_SSPCR1_SSE_BITS
          = (spiAt 0x1207 0x2 2 0).cr1.val &&& rp2040Spi.SPI_SSPCR1_SSE_BITS :=
  ⟨by decide,
   spi_set_format_spec true rp2040Map rp2040Spi (spiAt 0x1207 0x2 2 0) 16 SPI_CPOL_1 SPI_CPHA_0
     125000000 (by decide) (by decide) (by decide) (by decide) (by decide) (Or.inr rfl)
     (Or.inl rfl)⟩

/-! ### The dispatch pass: pending work first, timers fire once -/

/-- A fold of steps that each keep an invariant and only add events of one kind
keeps the invariant and only adds events of that kind. -/
theorem foldl_inv_trace {α : Type} (f : DispatchMem → α → DispatchMem)
    (Inv : DispatchMem → Prop) (p : DispatchEvent → Prop) :
    ∀ (l : List α),
      (∀ m x, x ∈ l → Inv m →
        Inv (f m x) ∧ ∃ tr, (f m x).trace = m.trace ++ tr ∧ ∀ e ∈ tr, p e) →
      ∀ m, Inv m →
        Inv (l.foldl f m) ∧ ∃ tr, (l.foldl f m).trace = m.trace ++ tr ∧ ∀ e ∈ tr, p e := by
  intro l
  induction l with
  | nil =>
    intro _ m hm
    exact ⟨hm, [], by simp, by simp⟩
  | cons x xs ih =>
    intro hstep m hm
    obtain ⟨h1, tr1, e1, p1⟩ := hstep m x (List.mem_cons_self x xs) hm
    obtain ⟨h2, tr2, e2, p2⟩ :=
      ih (fun m y hy hm => hstep m y (List.mem_cons_of_mem x hy) hm) (f m x) h1
    refine ⟨h2, tr1 ++ tr2, ?_, ?_⟩
    · rw [List.foldl_cons, e2, e1, List.append_assoc]
    · intro e he
      rcases List.mem_append.mp he with h | h
      · exact p1 e h
      · exact p2 e h

/-- An API call adds one event to the trace: the call with its result. -/
theorem apply_call_trace (m : DispatchMem) (c : WorkerCall) :
    ∃ r, (m.apply_call c).trace = m.trace ++ [DispatchEvent.call c r] := by
  cases c with
  | add_when_pending_worker w =>
    by_cases h : w ∈ m.when_pending_list
    · exact ⟨false, by simp [DispatchMem.apply_call, DispatchMem.log, h]⟩
    · exact ⟨true, by simp [DispatchMem.apply_call, DispatchMem.log, h]⟩
  | remove_when_pending_worker w =>
    by_cases h : w ∈ m.when_pending_list
    · exact ⟨true, by simp [DispatchMem.apply_call, DispatchMem.log, h]⟩
    · exact ⟨false, by simp [DispatchMem.apply_call, DispatchMem.log, h]⟩
  | set_work_pending w =>
    exact ⟨true, by simp [DispatchMem.apply_call, DispatchMem.log]⟩
  | add_at_time_worker_at w d =>
    by_cases h : w ∈ m.at_time_list
    · exact ⟨false, by simp [DispatchMem.apply_call, DispatchMem.log, h]⟩
    · exact ⟨true, by simp [DispatchMem.apply_call, DispatchMem.log, h]⟩
  | remove_at_time_worker w =>
    by_cases h : w ∈ m.at_time_list
    · exact ⟨true, by simp [DispatchMem.apply_call, DispatchMem.log, h]⟩
    · exact ⟨false, by simp [DispatchMem.apply_call, DispatchMem.log, h]⟩

/-- An API call keeps the lists free of duplicates. -/
theorem apply_call_wf (m : DispatchMem) (c : WorkerCall) (h : m.WF) : (m.apply_call c).WF := by
  obtain ⟨hp, ht⟩ := h
  cases c with
  | add_when_pending_worker w =>
    by_cases h : w ∈ m.when_pending_list
    · simpa [DispatchMem.apply_call, DispatchMem.log, DispatchMem.WF, h] using ⟨hp, ht⟩
    · simpa [DispatchMem.apply_call, DispatchMem.log, DispatchMem.WF, h] using ⟨hp, ht⟩
  | remove_when_pending_worker w =>
    by_cases h : w ∈ m.when_pending_list
    · simpa [DispatchMem.apply_call, DispatchMem.log, DispatchMem.WF, h] using
        ⟨hp.erase w, ht⟩
    · simpa [DispatchMem.apply_call, DispatchMem.log, DispatchMem.WF, h] using ⟨hp, ht⟩
  | set_work_pending w =>
    simpa [DispatchMem.apply_call, DispatchMem.log, DispatchMem.WF] using ⟨hp, ht⟩
  | add_at_time_worker_at w d =>
    by_cases h : w ∈ m.at_time_list
    · simpa [DispatchMem.apply_call, DispatchMem.log, DispatchMem.WF, h] using ⟨hp, ht⟩
    · simpa [DispatchMem.apply_call, DispatchMem.log, DispatchMem.WF, h] using ⟨hp, ht⟩
  | remove_at_time_worker w =>
    by_cases h : w ∈ m.at_time_list
    · simpa [DispatchMem.apply_call, DispatchMem.log, DispatchMem.WF, h] using
        ⟨hp, ht.erase w⟩
    · simpa [DispatchMem.apply_call, DispatchMem.log, DispatchMem.WF, h] using ⟨hp, ht⟩

/-- A call that does not act on the at-time worker `T` leaves it as it is:
in the list or not, with the same deadline. -/
theorem apply_call_at_time_frame (m : DispatchMem) (c : WorkerCall) (T : Nat)
    (h : c.touches_at_time T = false) :
    (T ∈ (m.apply_call c).at_time_list ↔ T ∈ m.at_time_list)
    ∧ (m.apply_call c).at_time_list.count T = m.at_time_list.count T
    ∧ (m.apply_call c).next_time T = m.next_time T := by
  cases c with
  | add_when_pending_worker w =>
    by_cases hw : w ∈ m.when_pending_list <;>
      simp [DispatchMem.apply_call, DispatchMem.log, hw]
  | remove_when_pending_worker w =>
    by_cases hw : w ∈ m.when_pending_list <;>
      simp [DispatchMem.apply_call, DispatchMem.log, hw]
  | set_work_pending w =>
    simp [DispatchMem.apply_call, DispatchMem.log]
  | add_at_time_worker_at w d =>
    have hne : ¬ w = T := by simpa [WorkerCall.touches_at_time] using h
    have hne2 : ¬ T = w := fun e => hne e.symm
    by_cases hw : w ∈ m.at_time_list
    · simp [DispatchMem.apply_call, DispatchMem.log, hw, hne2]
    · simp [DispatchMem.apply_call, DispatchMem.log, hw, hne2, List.count_cons, hne]
  | remove_at_time_worker w =>
    have hne : ¬ w = T := by simpa [WorkerCall.touches_at_time] using h
    have hne2 : T ≠ w := fun e => hne e.symm
    by_cases hw : w ∈ m.at_time_list
    · simp [DispatchMem.apply_call, DispatchMem.log, hw, List.mem_erase_of_ne hne2,
        List.count_erase_of_ne hne2]
    · simp [DispatchMem.apply_call, DispatchMem.log, hw]

/-- A call other than the removal of the when-pending worker `P` leaves `P` in
the list and its flag set. -/
theorem apply_call_keeps_pending (m : DispatchMem) (c : WorkerCall) (P : Nat)
    (h : c ≠ WorkerCall.remove_when_pending_worker P)
    (hP : P ∈ m.when_pending_list ∧ m.work_pending P = true) :
    P ∈ (m.apply_call c).when_pending_list ∧ (m.apply_call c).work_pending P = true := by
  obtain ⟨hin, hfl⟩ := hP
  cases c with
  | add_when_pending_worker w =>
    by_cases hw : w ∈ m.when_pending_list <;>
      simp [DispatchMem.apply_call, DispatchMem.log, hw, hin, hfl]
  | remove_when_pending_worker w =>
    have hne : P ≠ w := fun e => h (by rw [e])
    by_cases hw : w ∈ m.when_pending_list
    · simp [DispatchMem.apply_call, DispatchMem.log, hw, List.mem_erase_of_ne hne, hin, hfl]
    · simp [DispatchMem.apply_call, DispatchMem.log, hw, hin, hfl]
  | set_work_pending w =>
    by_cases hw : P = w
    · subst hw
      simp [DispatchMem.apply_call, DispatchMem.log, hin]
    · simp [DispatchMem.apply_call, DispatchMem.log, hw, hin, hfl]
  | add_at_time_worker_at w d =>
    by_cases hw : w ∈ m.at_time_list <;>
      simp [DispatchMem.apply_call, DispatchMem.log, hw, hin, hfl]
  | remove_at_time_worker w =>
    by_cases hw : w ∈ m.at_time_list <;>
      simp [DispatchMem.apply_call, DispatchMem.log, hw, hin, hfl]

theorem at_time_balance_refl (T : Nat) (m : DispatchMem) : AtTimeBalance T m m := by
  unfold AtTimeBalance
  omega

theorem at_time_balance_trans (T : Nat) (a b c : DispatchMem)
    (h1 : AtTimeBalance T a b) (h2 : AtTimeBalance T b c) : AtTimeBalance T a c := by
  unfold AtTimeBalance at *
  omega

theorem at_time_fires_append (T : Nat) (a b : List DispatchEvent) :
    at_time_fires T (a ++ b) = at_time_fires T a + at_time_fires T b := by
  simp [at_time_fires, List.countP_append]

theorem at_time_adds_append (T : Nat) (a b : List DispatchEvent) :
    at_time_adds T (a ++ b) = at_time_adds T a + at_time_adds T b := by
  simp [at_time_adds, List.countP_append]

theorem at_time_fires_call (T : Nat) (c : WorkerCall) (r : Bool) :
    at_time_fires T [DispatchEvent.call c r] = 0 := by
  simp [at_time_fires]

theorem at_time_adds_false (T : Nat) (c : WorkerCall) :
    at_time_adds T [DispatchEvent.call c false] = 0 := by
  simp [at_time_adds]

/-- An API call keeps the balance of the at-time worker `T`. -/
theorem apply_call_balance (T : Nat) (m : DispatchMem) (c : WorkerCall) :
    AtTimeBalance T m (m.apply_call c) := by
  unfold AtTimeBalance
  cases c with
  | add_when_pending_worker w =>
    by_cases hw : w ∈ m.when_pending_list <;>
      simp [DispatchMem.apply_call, DispatchMem.log, hw, at_time_fires_append,
        at_time_adds_append, at_time_fires_call, at_time_adds_false] <;> omega
  | remove_when_pending_worker w =>
    by_cases hw : w ∈ m.when_pending_list <;>
      simp [DispatchMem.apply_call, DispatchMem.log, hw, at_time_fires_append,
        at_time_adds_append, at_time_fires_call, at_time_adds_false] <;> omega
  | set_work_pending w =>
    simp [DispatchMem.apply_call, DispatchMem.log, at_time_fires_append,
      at_time_adds_append, at_time_fires_call]
    omega
  | add_at_time_worker_at w d =>
    by_cases hw : w ∈ m.at_time_list
    · simp [DispatchMem.apply_call, DispatchMem.log, hw, at_time_fires_append,
        at_time_adds_append, at_time_fires_call, at_time_adds_false]
      omega
    · by_cases hT : w = T
      · subst hT
        have h1 : at_time_adds w
            [DispatchEvent.call (WorkerCall.add_at_time_worker_at w d) true] = 1 := by
          simp [at_time_adds]
        have h0 : m.at_time_list.count w = 0 := List.count_eq_zero_of_not_mem hw
        simp [DispatchMem.apply_call, DispatchMem.log, hw, at_time_fires_append,
          at_time_adds_append, at_time_fires_call, h1, List.count_cons, h0]
        omega
      · have h1 : at_time_adds T
            [DispatchEvent.call (WorkerCall.add_at_time_worker_at w d) true] = 0 := by
          simp [at_time_adds, hT]
        simp [DispatchMem.apply_call, DispatchMem.log, hw, at_time_fires_append,
          at_time_adds_append, at_time_fires_call, h1, List.count_cons, hT]
        omega
  | remove_at_time_worker w =>
    have hle : (m.at_time_list.erase w).count T ≤ m.at_time_list.count T :=
      (List.erase_sublist w m.at_time_list).count_le T
    by_cases hw : w ∈ m.at_time_list
    · have h1 : at_time_adds T
          [DispatchEvent.call (WorkerCall.remove_at_time_worker w) true] = 0 := by
        simp [at_time_adds]
      simp [DispatchMem.apply_call, DispatchMem.log, hw, at_time_fires_append,
        at_time_adds_append, at_time_fires_call, h1]
      omega
    · simp [DispatchMem.apply_call, DispatchMem.log, hw, at_time_fires_append,
        at_time_adds_append, at_time_fires_call, at_time_adds_false]
      omega

/-- A sequence of API calls keeps what each of them keeps, and adds call events
only. -/
theorem apply_calls_inv (Inv : DispatchMem → Prop) (cs : List WorkerCall)
    (hstep : ∀ m c, c ∈ cs → Inv m → Inv (m.apply_call c)) (m : DispatchMem) (hm : Inv m) :
    Inv (m.apply_calls cs)
    ∧ ∃ tr, (m.apply_calls cs).trace = m.trace ++ tr
        ∧ ∀ e ∈ tr, ∃ c r, c ∈ cs ∧ e = DispatchEvent.call c r := by
  unfold DispatchMem.apply_calls
  suffices hgen : ∀ (l : List WorkerCall), (∀ c, c ∈ l → c ∈ cs) → ∀ m, Inv m →
      Inv (l.foldl DispatchMem.apply_call m)
      ∧ ∃ tr, (l.foldl DispatchMem.apply_call m).trace = m.trace ++ tr
          ∧ ∀ e ∈ tr, ∃ c r, c ∈ cs ∧ e = DispatchEvent.call c r from
    hgen cs (fun _ h => h) m hm
  intro l
  induction l with
  | nil =>
    intro _ m hm
    exact ⟨hm, [], by simp, by simp⟩
  | cons x xs ih =>
    intro hsub m hm
    have hx : x ∈ cs := hsub x (List.mem_cons_self x xs)
    obtain ⟨r, er⟩ := apply_call_trace m x
    obtain ⟨h2, tr2, e2, p2⟩ :=
      ih (fun c hc => hsub c (List.mem_cons_of_mem x hc)) (m.apply_call x) (hstep m x hx hm)
    refine ⟨h2, DispatchEvent.call x r :: tr2, ?_, ?_⟩
    · rw [List.foldl_cons, e2, er, List.append_assoc]
      rfl
    · intro e he
      rcases List.mem_cons.mp he with h | h
      · exact ⟨x, r, hx, h⟩
      · exact p2 e h

/-- The pass at a when-pending worker keeps an invariant that the clearing of
the flag, the calls of the worker and the return keep, and adds only events of
that worker and of calls. -/
theorem run_when_pending_worker_inv (W : Workers) (Inv : DispatchMem → Prop)
    (m : DispatchMem) (w : Nat)
    (hbegin : Inv m → w ∈ m.when_pending_list → m.work_pending w = true →
      Inv (DispatchMem.log
        { m with work_pending := fun x => if x = w then false else m.work_pending x }
        (DispatchEvent.when_pending_begin w)))
    (hcall : ∀ m1 m2 c, c ∈ W.when_pending_do_work w m1 → Inv m2 → Inv (m2.apply_call c))
    (hend : ∀ m2, Inv m2 → Inv (m2.log (DispatchEvent.when_pending_end w)))
    (hm : Inv m) :
    Inv (run_when_pending_worker W m w)
    ∧ ∃ tr, (run_when_pending_worker W m w).trace = m.trace ++ tr
        ∧ ∀ e ∈ tr, e = DispatchEvent.when_pending_begin w
            ∨ e = DispatchEvent.when_pending_end w ∨ ∃ c r, e = DispatchEvent.call c r := by
  unfold run_when_pending_worker
  split
  · rename_i hc
    obtain ⟨h2, tr2, e2, p2⟩ := apply_calls_inv Inv _ (hcall _) _ (hbegin hm hc.1 hc.2)
    refine ⟨hend _ h2,
      DispatchEvent.when_pending_begin w :: (tr2 ++ [DispatchEvent.when_pending_end w]), ?_, ?_⟩
    · show (DispatchMem.apply_calls _ _).trace ++ _ = _
      rw [e2]
      simp [DispatchMem.log]
    · intro e he
      rcases List.mem_cons.mp he with h | h
      · exact Or.inl h
      · rcases List.mem_append.mp h with h | h
        · obtain ⟨c, r, _, hcr⟩ := p2 e h
          exact Or.inr (Or.inr ⟨c, r, hcr⟩)
        · exact Or.inr (Or.inl (List.mem_singleton.mp h))
  · exact ⟨hm, [], by simp, by simp⟩

/-- The pass at an at-time worker keeps an invariant that the detaching of the
worker, its calls and the return keep, and adds only events of that worker and
of calls; the worker is called with the list it was detached from. -/
theorem run_at_time_worker_inv (W : Workers) (now : Nat) (Inv : DispatchMem → Prop)
    (m : DispatchMem) (w : Nat)
    (hbegin : Inv m → w ∈ m.at_time_list → m.next_time w ≤ now →
      Inv (DispatchMem.log { m with at_time_list := m.at_time_list.erase w }
        (DispatchEvent.at_time_begin w (m.at_time_list.erase w))))
    (hcall : ∀ m1 m2 c, c ∈ W.at_time_do_work w m1 → Inv m2 → Inv (m2.apply_call c))
    (hend : ∀ m2, Inv m2 → Inv (m2.log (DispatchEvent.at_time_end w)))
    (hm : Inv m) :
    Inv (run_at_time_worker W now m w)
    ∧ ∃ tr, (run_at_time_worker W now m w).trace = m.trace ++ tr
        ∧ ∀ e ∈ tr, e = DispatchEvent.at_time_begin w (m.at_time_list.erase w)
            ∨ e = DispatchEvent.at_time_end w ∨ ∃ c r, e = DispatchEvent.call c r := by
  unfold run_at_time_worker
  split
  · rename_i hc
    obtain ⟨h2, tr2, e2, p2⟩ := apply_calls_inv Inv _ (hcall _) _ (hbegin hm hc.1 hc.2)
    refine ⟨hend _ h2,
      DispatchEvent.at_time_begin w (m.at_time_list.erase w)
        :: (tr2 ++ [DispatchEvent.at_time_end w]), ?_, ?_⟩
    · show (DispatchMem.apply_calls _ _).trace ++ _ = _
      rw [e2]
      simp [DispatchMem.log]
    · intro e he
      rcases List.mem_cons.mp he with h | h
      · exact Or.inl h
      · rcases List.mem_append.mp h with h | h
        · obtain ⟨c, r, _, hcr⟩ := p2 e h
          exact Or.inr (Or.inr ⟨c, r, hcr⟩)
        · exact Or.inr (Or.inl (List.mem_singleton.mp h))
  · exact ⟨hm, [], by simp, by simp⟩

theorem dispatch_when_pending_inv (W : Workers) (Inv : DispatchMem → Prop)
    (p : DispatchEvent → Prop) (m : DispatchMem)
    (hstep : ∀ m1 w, w ∈ m.when_pending_list → Inv m1 →
      Inv (run_when_pending_worker W m1 w)
      ∧ ∃ tr, (run_when_pending_worker W m1 w).trace = m1.trace ++ tr ∧ ∀ e ∈ tr, p e)
    (hm : Inv m) :
    Inv (dispatch_when_pending W m)
    ∧ (dispatch_when_pending W m).trace = m.trace ++ dispatch_when_pending_events W m
    ∧ ∀ e ∈ dispatch_when_pending_events W m, p e := by
  obtain ⟨h1, tr, e1, p1⟩ :=
    foldl_inv_trace (run_when_pending_worker W) Inv p m.when_pending_list hstep m hm
  have hev : dispatch_when_pending_events W m = tr := by
    unfold dispatch_when_pending_events dispatch_when_pending
    rw [e1, List.drop_left]
  rw [hev]
  exact ⟨h1, e1, p1⟩

theorem dispatch_at_time_inv (W : Workers) (now : Nat) (Inv : DispatchMem → Prop)
    (p : DispatchEvent → Prop) (m : DispatchMem)
    (hstep : ∀ m1 w, w ∈ m.at_time_list → Inv m1 →
      Inv (run_at_time_worker W now m1 w)
      ∧ ∃ tr, (run_at_time_worker W now m1 w).trace = m1.trace ++ tr ∧ ∀ e ∈ tr, p e)
    (hm : Inv m) :
    Inv (dispatch_at_time W now m)
    ∧ (dispatch_at_time W now m).trace = m.trace ++ dispatch_at_time_events W now m
    ∧ ∀ e ∈ dispatch_at_time_events W now m, p e := by
  obtain ⟨h1, tr, e1, p1⟩ :=
    foldl_inv_trace (run_at_time_worker W now) Inv p m.at_time_list hstep m hm
  have hev : dispatch_at_time_events W now m = tr := by
    unfold dispatch_at_time_events dispatch_at_time
    rw [e1, List.drop_left]
  rw [hev]
  exact ⟨h1, e1, p1⟩

/-- The first part of a pass adds no event of an at-time worker. -/
theorem dispatch_when_pending_events_kind (W : Workers) (m : DispatchMem) :
    (dispatch_when_pending W m).trace = m.trace ++ dispatch_when_pending_events W m
    ∧ ∀ e ∈ dispatch_when_pending_events W m, e.isAtTime = false := by
  refine (dispatch_when_pending_inv W (fun _ => True) _ m ?_ trivial).2
  intro m1 w _ _
  obtain ⟨_, tr, e1, p1⟩ := run_when_pending_worker_inv W (fun _ => True) m1 w
    (fun _ _ _ => trivial) (fun _ _ _ _ _ => trivial) (fun _ _ => trivial) trivial
  refine ⟨trivial, tr, e1, ?_⟩
  intro e he
  rcases p1 e he with h | h | ⟨c, r, h⟩ <;> rw [h] <;> rfl

/-- The second part of a pass adds no event of a when-pending worker. -/
theorem dispatch_at_time_events_kind (W : Workers) (now : Nat) (m : DispatchMem) :
    (dispatch_at_time W now m).trace = m.trace ++ dispatch_at_time_events W now m
    ∧ ∀ e ∈ dispatch_at_time_events W now m, e.isWhenPending = false := by
  refine (dispatch_at_time_inv W now (fun _ => True) _ m ?_ trivial).2
  intro m1 w _ _
  obtain ⟨_, tr, e1, p1⟩ := run_at_time_worker_inv W now (fun _ => True) m1 w
    (fun _ _ _ => trivial) (fun _ _ _ _ _ => trivial) (fun _ _ => trivial) trivial
  refine ⟨trivial, tr, e1, ?_⟩
  intro e he
  rcases p1 e he with h | h | ⟨c, r, h⟩ <;> rw [h] <;> rfl

/-- The events of a pass are those of its first part followed by those of its
second part. -/
theorem dispatch_pass_events_eq (W : Workers) (now : Nat) (m : DispatchMem) :
    (dispatch_pass W now m).trace = m.trace ++ dispatch_pass_events W now m
    ∧ dispatch_pass_events W now m
      = dispatch_when_pending_events W m
        ++ dispatch_at_time_events W now (dispatch_when_pending W m) := by
  have h1 := (dispatch_when_pending_events_kind W m).1
  have h2 := (dispatch_at_time_events_kind W now (dispatch_when_pending W m)).1
  have h3 : (dispatch_pass W now m).trace = m.trace ++ (dispatch_when_pending_events W m
      ++ dispatch_at_time_events W now (dispatch_when_pending W m)) := by
    unfold dispatch_pass
    rw [h2, h1, List.append_assoc]
  have h4 : dispatch_pass_events W now m = dispatch_when_pending_events W m
      ++ dispatch_at_time_events W now (dispatch_when_pending W m) := by
    unfold dispatch_pass_events
    rw [h3, List.drop_left]
  rw [h4]
  exact ⟨h3, rfl⟩

/-- A when-pending worker that is in the list with its flag set is called, and
its `do_work` returns, when the pass comes to it. -/
theorem run_when_pending_worker_fires (W : Workers) (m : DispatchMem) (w : Nat)
    (hin : w ∈ m.when_pending_list) (hfl : m.work_pending w = true) :
    ∃ trc, (run_when_pending_worker W m w).trace
      = m.trace ++ DispatchEvent.when_pending_begin w
          :: (trc ++ [DispatchEvent.when_pending_end w]) := by
  have hc : w ∈ m.when_pending_list ∧ m.work_pending w = true := ⟨hin, hfl⟩
  unfold run_when_pending_worker
  rw [if_pos hc]
  obtain ⟨_, tr2, e2, _⟩ := apply_calls_inv (fun _ => True)
    (W.when_pending_do_work w (DispatchMem.log
      { m with work_pending := fun x => if x = w then false else m.work_pending x }
      (DispatchEvent.when_pending_begin w)))
    (fun _ _ _ _ => trivial)
    (DispatchMem.log
      { m with work_pending := fun x => if x = w then false else m.work_pending x }
      (DispatchEvent.when_pending_begin w)) trivial
  refine ⟨tr2, ?_⟩
  show (DispatchMem.apply_calls _ _).trace ++ _ = _
  rw [e2]
  simp [DispatchMem.log]

/-- An at-time worker that is in the list with its deadline reached is called
when the pass comes to it, detached; its calls are made on the context it was
called with, and then it returns. -/
theorem run_at_time_worker_fires (W : Workers) (now : Nat) (m : DispatchMem) (w : Nat)
    (hin : w ∈ m.at_time_list) (hel : m.next_time w ≤ now) :
    run_at_time_worker W now m w
      = DispatchMem.log
          (DispatchMem.apply_calls
            (DispatchMem.log { m with at_time_list := m.at_time_list.erase w }
              (DispatchEvent.at_time_begin w (m.at_time_list.erase w)))
            (W.at_time_do_work w
              (DispatchMem.log { m with at_time_list := m.at_time_list.erase w }
                (DispatchEvent.at_time_begin w (m.at_time_list.erase w)))))
          (DispatchEvent.at_time_end w) := by
  have hc : w ∈ m.at_time_list ∧ m.next_time w ≤ now := ⟨hin, hel⟩
  unfold run_at_time_worker
  rw [if_pos hc]

/-- The trace of an at-time worker that fires: the call, API calls, the
return. -/
theorem run_at_time_worker_fires_trace (W : Workers) (now : Nat) (m : DispatchMem) (w : Nat)
    (hin : w ∈ m.at_time_list) (hel : m.next_time w ≤ now) :
    ∃ trc, (run_at_time_worker W now m w).trace
      = m.trace ++ DispatchEvent.at_time_begin w (m.at_time_list.erase w)
          :: (trc ++ [DispatchEvent.at_time_end w])
      ∧ ∀ e ∈ trc, ∃ c r, e = DispatchEvent.call c r := by
  rw [run_at_time_worker_fires W now m w hin hel]
  obtain ⟨_, tr2, e2, p2⟩ := apply_calls_inv (fun _ => True)
    (W.at_time_do_work w
      (DispatchMem.log { m with at_time_list := m.at_time_list.erase w }
        (DispatchEvent.at_time_begin w (m.at_time_list.erase w))))
    (fun _ _ _ _ => trivial)
    (DispatchMem.log { m with at_time_list := m.at_time_list.erase w }
      (DispatchEvent.at_time_begin w (m.at_time_list.erase w))) trivial
  refine ⟨tr2, ?_, ?_⟩
  · show (DispatchMem.apply_calls _ _).trace ++ _ = _
    rw [e2]
    simp [DispatchMem.log]
  · intro e he
    obtain ⟨c, r, _, h⟩ := p2 e he
    exact ⟨c, r, h⟩

/-- The pass at a when-pending worker leaves an at-time worker alone that the
when-pending workers make no call on. -/
theorem run_when_pending_worker_frame (W : Workers) (T : Nat) (hla : W.LeavesAlone T)
    (m : DispatchMem) (w k d : Nat)
    (h : m.at_time_list.count T = k ∧ m.next_time T = d) :
    (run_when_pending_worker W m w).at_time_list.count T = k
    ∧ (run_when_pending_worker W m w).next_time T = d := by
  refine (run_when_pending_worker_inv W
    (fun m => m.at_time_list.count T = k ∧ m.next_time T = d) m w ?_ ?_ ?_ h).1
  · intro h _ _
    exact h
  · intro m1 m2 c hc h2
    obtain ⟨_, h3, h4⟩ := apply_call_at_time_frame m2 c T (hla.1 w m1 c hc)
    exact ⟨h3.trans h2.1, h4.trans h2.2⟩
  · intro m2 h2
    exact h2

/-- The pass at another at-time worker leaves an at-time worker alone that the
others make no call on, and does not call it. -/
theorem run_at_time_worker_frame (W : Workers) (now T : Nat) (hla : W.LeavesAlone T)
    (m : DispatchMem) (w k d : Nat) (hw : w ≠ T)
    (h : m.at_time_list.count T = k ∧ m.next_time T = d) :
    ((run_at_time_worker W now m w).at_time_list.count T = k
      ∧ (run_at_time_worker W now m w).next_time T = d)
    ∧ ∃ tr, (run_at_time_worker W now m w).trace = m.trace ++ tr
        ∧ ∀ e ∈ tr, ∀ lst, e ≠ DispatchEvent.at_time_begin T lst := by
  obtain ⟨h1, tr, e1, p1⟩ := run_at_time_worker_inv W now
    (fun m => m.at_time_list.count T = k ∧ m.next_time T = d) m w
    (fun h _ _ => by
      have hne : T ≠ w := fun e => hw e.symm
      exact ⟨by simpa [DispatchMem.log, List.count_erase_of_ne hne] using h.1, h.2⟩)
    (fun m1 m2 c hc h2 => by
      obtain ⟨_, h3, h4⟩ := apply_call_at_time_frame m2 c T (hla.2 w m1 c hw hc)
      exact ⟨h3.trans h2.1, h4.trans h2.2⟩)
    (fun m2 h2 => h2) h
  refine ⟨h1, tr, e1, ?_⟩
  intro e he lst hl
  rcases p1 e he with h | h | ⟨c, r, h⟩
  · rw [h] at hl
    injection hl with h5 _
    exact hw h5
  · rw [h] at hl
    cases hl
  · rw [h] at hl
    cases hl

/-- Pending work is not lost: a when-pending worker that is in the list with
its flag set, and that no other worker removes, is called in the first part of
the pass, and its `do_work` returns there. -/
theorem when_pending_fold_runs (W : Workers) (P : Nat)
    (hkeep : ∀ w m c, w ≠ P → c ∈ W.when_pending_do_work w m →
      c ≠ WorkerCall.remove_when_pending_worker P) :
    ∀ (l : List Nat) (m : DispatchMem), P ∈ l → P ∈ m.when_pending_list →
      m.work_pending P = true →
      ∃ tr, (l.foldl (run_when_pending_worker W) m).trace = m.trace ++ tr
        ∧ DispatchEvent.when_pending_begin P ∈ tr ∧ DispatchEvent.when_pending_end P ∈ tr := by
  intro l
  induction l with
  | nil =>
    intro m hP
    cases hP
  | cons x xs ih =>
    intro m hP hin hfl
    by_cases hx : x = P
    · subst hx
      obtain ⟨trc, e1⟩ := run_when_pending_worker_fires W m x hin hfl
      obtain ⟨_, tr2, e2, _⟩ := foldl_inv_trace (run_when_pending_worker W) (fun _ => True)
        (fun _ => True) xs (fun m1 w _ _ => by
          obtain ⟨_, tr, e, _⟩ := run_when_pending_worker_inv W (fun _ => True) m1 w
            (fun _ _ _ => trivial) (fun _ _ _ _ _ => trivial) (fun _ _ => trivial) trivial
          exact ⟨trivial, tr, e, fun _ _ => trivial⟩)
        (run_when_pending_worker W m x) trivial
      refine ⟨(DispatchEvent.when_pending_begin x
        :: (trc ++ [DispatchEvent.when_pending_end x])) ++ tr2, ?_, ?_, ?_⟩
      · rw [List.foldl_cons, e2, e1, List.append_assoc]
      · simp
      · simp
    · have hP2 : P ∈ xs := by
        rcases List.mem_cons.mp hP with h | h
        · exact absurd h.symm hx
        · exact h
      obtain ⟨hel, tr1, e1, _⟩ := run_when_pending_worker_inv W
        (fun m => P ∈ m.when_pending_list ∧ m.work_pending P = true) m x
        (fun h _ _ => by
          have hne : ¬ P = x := fun e => hx e.symm
          simpa [DispatchMem.log, hne] using h)
        (fun m1 m2 c hc h2 => apply_call_keeps_pending m2 c P (hkeep x m1 c hx hc) h2)
        (fun m2 h2 => h2) ⟨hin, hfl⟩
      obtain ⟨tr2, e2, hb, he⟩ := ih (run_when_pending_worker W m x) hP2 hel.1 hel.2
      refine ⟨tr1 ++ tr2, ?_, ?_, ?_⟩
      · rw [List.foldl_cons, e2, e1, List.append_assoc]
      · exact List.mem_append_right _ hb
      · exact List.mem_append_right _ he

/-- A timer is not lost: an at-time worker that is in the list with its
deadline reached, and that no other worker makes a call on, is called in the
second part of the pass. -/
theorem at_time_fold_fires (W : Workers) (now T : Nat) (hla : W.LeavesAlone T) :
    ∀ (l : List Nat) (m : DispatchMem), T ∈ l → T ∈ m.at_time_list →
      m.next_time T ≤ now →
      ∃ tr, (l.foldl (run_at_time_worker W now) m).trace = m.trace ++ tr
        ∧ ∃ lst, DispatchEvent.at_time_begin T lst ∈ tr := by
  intro l
  induction l with
  | nil =>
    intro m hT
    cases hT
  | cons x xs ih =>
    intro m hT hin hel
    by_cases hx : x = T
    · subst hx
      obtain ⟨trc, e1, _⟩ := run_at_time_worker_fires_trace W now m x hin hel
      obtain ⟨_, tr2, e2, _⟩ := foldl_inv_trace (run_at_time_worker W now) (fun _ => True)
        (fun _ => True) xs (fun m1 w _ _ => by
          obtain ⟨_, tr, e, _⟩ := run_at_time_worker_inv W now (fun _ => True) m1 w
            (fun _ _ _ => trivial) (fun _ _ _ _ _ => trivial) (fun _ _ => trivial) trivial
          exact ⟨trivial, tr, e, fun _ _ => trivial⟩)
        (run_at_time_worker W now m x) trivial
      refine ⟨(DispatchEvent.at_time_begin x (m.at_time_list.erase x)
        :: (trc ++ [DispatchEvent.at_time_end x])) ++ tr2, ?_, m.at_time_list.erase x, ?_⟩
      · rw [List.foldl_cons, e2, e1, List.append_assoc]
      · simp
    · have hT2 : T ∈ xs := by
        rcases List.mem_cons.mp hT with h | h
        · exact absurd h.symm hx
        · exact h
      obtain ⟨hfr, tr1, e1, _⟩ := run_at_time_worker_frame W now T hla m x
        (m.at_time_list.count T) (m.next_time T) hx ⟨rfl, rfl⟩
      have hin2 : T ∈ (run_at_time_worker W now m x).at_time_list := by
        rw [← List.count_pos_iff, hfr.1]
        exact List.count_pos_iff.mpr hin
      have hel2 : (run_at_time_worker W now m x).next_time T ≤ now := by
        rw [hfr.2]
        exact hel
      obtain ⟨tr2, e2, lst, hb⟩ := ih (run_at_time_worker W now m x) hT2 hin2 hel2
      refine ⟨tr1 ++ tr2, ?_, lst, ?_⟩
      · rw [List.foldl_cons, e2, e1, List.append_assoc]
      · exact List.mem_append_right _ hb

/-- In a list made of two parts, an event that is not in the second part comes
before an event that is not in the first part. -/
theorem append_order (A B : List DispatchEvent) (x y : DispatchEvent)
    (hx : ∀ e ∈ B, e ≠ x) (hy : ∀ e ∈ A, e ≠ y) (i j : Nat)
    (hi : (A ++ B)[i]? = some x) (hj : (A ++ B)[j]? = some y) : i < j := by
  have h1 : i < A.length := by
    by_contra hge
    rw [List.getElem?_append_right (Nat.le_of_not_lt hge)] at hi
    exact hx x (List.getElem?_mem hi) rfl
  have h2 : A.length ≤ j := by
    by_contra hlt
    rw [List.getElem?_append_left (Nat.lt_of_not_le hlt)] at hj
    exact hy y (List.getElem?_mem hj) rfl
  omega

/-- C21: within one dispatch pass the when-pending workers run before the
at-time workers.  The events of a pass are those of its first part, in which no
`do_work` of an at-time worker is called or returns, followed by those of its
second part, in which no `do_work` of a when-pending worker is called or
returns; so every return of the `do_work` of a when-pending worker `P` comes
before every call of the `do_work` of an at-time worker `T`.  A worker `P` that
is in the list with `work_pending` set when the pass starts, and that no other
worker removes, is called and returns in the first part; a worker `T` that is
in the list with `next_time` reached, and on which no other worker makes a
call, is called in the second part. -/
theorem dispatch_pass_pending_first (W : Workers) (now : Nat) (m : DispatchMem) (P T : Nat) :
    (dispatch_pass W now m).trace = m.trace ++ dispatch_pass_events W now m
    ∧ dispatch_pass_events W now m
        = dispatch_when_pending_events W m
          ++ dispatch_at_time_events W now (dispatch_when_pending W m)
    ∧ (∀ e ∈ dispatch_when_pending_events W m, e.isAtTime = false)
    ∧ (∀ e ∈ dispatch_at_time_events W now (dispatch_when_pending W m),
        e.isWhenPending = false)
    ∧ (∀ (i j : Nat) (lst : List Nat),
        (dispatch_pass_events W now m)[i]? = some (DispatchEvent.when_pending_end P) →
        (dispatch_pass_events W now m)[j]? = some (DispatchEvent.at_time_begin T lst) →
        i < j)
    ∧ (P ∈ m.when_pending_list → m.work_pending P = true →
        (∀ w m1 c, w ≠ P → c ∈ W.when_pending_do_work w m1 →
          c ≠ WorkerCall.remove_when_pending_worker P) →
        DispatchEvent.when_pending_begin P ∈ dispatch_when_pending_events W m
        ∧ DispatchEvent.when_pending_end P ∈ dispatch_when_pending_events W m)
    ∧ (T ∈ m.at_time_list → m.next_time T ≤ now → W.LeavesAlone T →
        ∃ lst, DispatchEvent.at_time_begin T lst
          ∈ dispatch_at_time_events W now (dispatch_when_pending W m)) := by
  obtain ⟨htr, hsplit⟩ := dispatch_pass_events_eq W now m
  obtain ⟨hA, hkA⟩ := dispatch_when_pending_events_kind W m
  obtain ⟨hB, hkB⟩ := dispatch_at_time_events_kind W now (dispatch_when_pending W m)
  refine ⟨htr, hsplit, hkA, hkB, ?_, ?_, ?_⟩
  · intro i j lst hi hj
    rw [hsplit] at hi hj
    refine append_order _ _ _ _ ?_ ?_ i j hi hj
    · intro e he hee
      have h := hkB e he
      rw [hee] at h
      cases h
    · intro e he hee
      have h := hkA e he
      rw [hee] at h
      cases h
  · intro hP hPf hkeep
    obtain ⟨tr, e1, hb, he⟩ := when_pending_fold_runs W P hkeep m.when_pending_list m hP hP hPf
    have hev : dispatch_when_pending_events W m = tr := by
      unfold dispatch_when_pending_events dispatch_when_pending
      rw [e1, List.drop_left]
    rw [hev]
    exact ⟨hb, he⟩
  · intro hT hTe hla
    -- the first part leaves `T` as it is
    have hfr : (dispatch_when_pending W m).at_time_list.count T = m.at_time_list.count T
        ∧ (dispatch_when_pending W m).next_time T = m.next_time T :=
      (dispatch_when_pending_inv W
        (fun m1 => m1.at_time_list.count T = m.at_time_list.count T
          ∧ m1.next_time T = m.next_time T) (fun _ => True) m
        (fun m1 w _ h1 => by
          refine ⟨run_when_pending_worker_frame W T hla m1 w _ _ h1, ?_⟩
          obtain ⟨_, tr, e, _⟩ := run_when_pending_worker_inv W (fun _ => True) m1 w
            (fun _ _ _ => trivial) (fun _ _ _ _ _ => trivial) (fun _ _ => trivial) trivial
          exact ⟨tr, e, fun _ _ => trivial⟩)
        ⟨rfl, rfl⟩).1
    have hin2 : T ∈ (dispatch_when_pending W m).at_time_list := by
      rw [← List.count_pos_iff, hfr.1]
      exact List.count_pos_iff.mpr hT
    have hel2 : (dispatch_when_pending W m).next_time T ≤ now := by
      rw [hfr.2]
      exact hTe
    obtain ⟨tr, e1, lst, hb⟩ := at_time_fold_fires W now T hla
      (dispatch_when_pending W m).at_time_list (dispatch_when_pending W m) hin2 hin2 hel2
    have hev : dispatch_at_time_events W now (dispatch_when_pending W m) = tr := by
      unfold dispatch_at_time_events dispatch_at_time
      rw [e1, List.drop_left]
    rw [hev]
    exact ⟨lst, hb⟩

/-- Witness for C21: the when-pending workers 1 (flag set) and 2, the at-time
workers 10 and 11 (deadline 40) and 12 (deadline 60), a pass at the time 50.
Worker 1 runs first, then the at-time workers 10 and 11. -/
theorem dispatch_pass_pending_first_witness :
    dispatch_pass_events demoWorkers 50
        (dispatchMemAt [1, 2] [1] [10, 11, 12] (fun w => if w = 12 then 60 else 40))
      = [DispatchEvent.when_pending_begin 1,
         DispatchEvent.call (WorkerCall.add_at_time_worker_at 20 5) true,
         DispatchEvent.call (WorkerCall.set_work_pending 1) true,
         DispatchEvent.when_pending_end 1,
         DispatchEvent.at_time_begin 20 [10, 11, 12],
         DispatchEvent.at_time_end 20,
         DispatchEvent.at_time_begin 10 [11, 12],
         DispatchEvent.call (WorkerCall.add_at_time_worker_at 10 140) true,
         DispatchEvent.at_time_end 10,
         DispatchEvent.at_time_begin 11 [10, 12],
         DispatchEvent.call (WorkerCall.set_work_pending 2) true,
         DispatchEvent.at_time_end 11]
    ∧ (∀ (i j : Nat) (lst : List Nat),
        (dispatch_pass_events demoWorkers 50
          (dispatchMemAt [1, 2] [1] [10, 11, 12] (fun w => if w = 12 then 60 else 40)))[i]?
            = some (DispatchEvent.when_pending_end 1) →
        (dispatch_pass_events demoWorkers 50
          (dispatchMemAt [1, 2] [1] [10, 11, 12] (fun w => if w = 12 then 60 else 40)))[j]?
            = some (DispatchEvent.at_time_begin 10 lst) →
        i < j)
    ∧ (DispatchEvent.when_pending_begin 1 ∈ dispatch_when_pending_events demoWorkers
          (dispatchMemAt [1, 2] [1] [10, 11, 12] (fun w => if w = 12 then 60 else 40))
        ∧ DispatchEvent.when_pending_end 1 ∈ dispatch_when_pending_events demoWorkers
          (dispatchMemAt [1, 2] [1] [10, 11, 12] (fun w => if w = 12 then 60 else 40)))
    ∧ ∃ lst, DispatchEvent.at_time_begin 10 lst
        ∈ dispatch_at_time_events demoWorkers 50 (dispatch_when_pending demoWorkers
          (dispatchMemAt [1, 2] [1] [10, 11, 12] (fun w => if w = 12 then 60 else 40))) :=
  have h := dispatch_pass_pending_first demoWorkers 50
    (dispatchMemAt [1, 2] [1] [10, 11, 12] (fun w => if w = 12 then 60 else 40)) 1 10
  ⟨by decide, h.2.2.2.2.1,
   h.2.2.2.2.2.1 (by decide) (by decide) (fun w m1 c hw hc => by
     simp [demoWorkers, hw] at hc),
   h.2.2.2.2.2.2 (by decide) (by decide)
     ⟨fun w m1 c hc => by
        by_cases hw : w = 1
        · simp [demoWorkers, hw] at hc
          rcases hc with h | h <;> rw [h] <;> rfl
        · simp [demoWorkers, hw] at hc,
      fun w m1 c hw hc => by
        by_cases hw2 : w = 11
        · simp [demoWorkers, hw2] at hc
          rw [hc]
          rfl
        · simp [demoWorkers, hw, hw2] at hc⟩⟩

/-! ### Timers fire once -/

theorem at_time_fires_eq_zero (T : Nat) (tr : List DispatchEvent)
    (h : ∀ e ∈ tr, ∀ lst, e ≠ DispatchEvent.at_time_begin T lst) : at_time_fires T tr = 0 := by
  unfold at_time_fires
  rw [List.countP_eq_zero]
  intro e he
  cases e with
  | at_time_begin w lst =>
    have hne : w ≠ T := fun hw => h _ he lst (by rw [hw])
    simp [hne]
  | call c r => simp
  | when_pending_begin w => simp
  | when_pending_end w => simp
  | at_time_end w => simp

/-- The trace of an at-time worker that fires has one call of its `do_work`. -/
theorem at_time_fires_of_run (T : Nat) (lst : List Nat) (trc : List DispatchEvent)
    (h : ∀ e ∈ trc, ∃ c r, e = DispatchEvent.call c r) :
    at_time_fires T (DispatchEvent.at_time_begin T lst :: (trc ++ [DispatchEvent.at_time_end T]))
      = 1 := by
  have h0 : at_time_fires T trc = 0 := by
    apply at_time_fires_eq_zero
    intro e he lst2 hl
    obtain ⟨c, r, hcr⟩ := h e he
    rw [hcr] at hl
    cases hl
  have h1 : at_time_fires T (DispatchEvent.at_time_begin T lst
      :: (trc ++ [DispatchEvent.at_time_end T]))
      = at_time_fires T [DispatchEvent.at_time_begin T lst]
        + (at_time_fires T trc + at_time_fires T [DispatchEvent.at_time_end T]) := by
    rw [← at_time_fires_append, ← at_time_fires_append]
    rfl
  rw [h1, h0]
  simp [at_time_fires]

/-- The pass at the at-time workers of a list without `T` keeps what the pass at
each of them keeps, and does not call `T`. -/
theorem at_time_fold_others (W : Workers) (now T : Nat) (Q : DispatchMem → Prop)
    (hQ : ∀ mb x, x ≠ T → Q mb → Q (run_at_time_worker W now mb x))
    (l : List Nat) (hT : T ∉ l) (m : DispatchMem) (hm : Q m) :
    Q (l.foldl (run_at_time_worker W now) m)
    ∧ ∃ tr, (l.foldl (run_at_time_worker W now) m).trace = m.trace ++ tr
        ∧ at_time_fires T tr = 0 := by
  obtain ⟨h1, tr, e1, p1⟩ := foldl_inv_trace (run_at_time_worker W now) Q
    (fun e => ∀ lst, e ≠ DispatchEvent.at_time_begin T lst) l
    (fun mb x hx hmb => by
      have hne : x ≠ T := fun e => hT (e ▸ hx)
      refine ⟨hQ mb x hne hmb, ?_⟩
      obtain ⟨_, tr, e, p⟩ := run_at_time_worker_inv W now (fun _ => True) mb x
        (fun _ _ _ => trivial) (fun _ _ _ _ _ => trivial) (fun _ _ => trivial) trivial
      refine ⟨tr, e, ?_⟩
      intro ev hev lst hl
      rcases p ev hev with h | h | ⟨c, r, h⟩
      · rw [h] at hl
        injection hl with h5 _
        exact hne h5
      · rw [h] at hl
        cases hl
      · rw [h] at hl
        cases hl) m hm
  exact ⟨h1, tr, e1, at_time_fires_eq_zero T tr p1⟩

/-- An at-time worker that is once in the list, with its deadline reached, and
on which no other worker makes a call, is called exactly once in the second
part of a pass; what the pass at `T` sets up and the pass at the others keeps
holds at the end. -/
theorem at_time_fold_once (W : Workers) (now T : Nat) (hla : W.LeavesAlone T)
    (Q : DispatchMem → Prop)
    (hQ : ∀ mb x, x ≠ T → Q mb → Q (run_at_time_worker W now mb x))
    (d : Nat) (hd : d ≤ now)
    (hrun : ∀ ma, ma.at_time_list.count T = 1 → ma.next_time T = d →
      Q (run_at_time_worker W now ma T))
    (m : DispatchMem) (hc : m.at_time_list.count T = 1) (hdm : m.next_time T = d) :
    Q (dispatch_at_time W now m) ∧ at_time_fires T (dispatch_at_time_events W now m) = 1 := by
  have hin : T ∈ m.at_time_list := List.count_pos_iff.mp (by omega)
  obtain ⟨s, t, hst⟩ := List.append_of_mem hin
  have hcnt : s.count T + (t.count T + 1) = 1 := by
    have h := hc
    rw [hst, List.count_append, List.count_cons_self] at h
    exact h
  have hs : T ∉ s := fun h => by
    have := List.count_pos_iff.mpr h
    omega
  have ht : T ∉ t := fun h => by
    have := List.count_pos_iff.mpr h
    omega
  -- the workers before `T`
  obtain ⟨⟨hc1, hd1⟩, tr1, e1, f1⟩ := at_time_fold_others W now T
    (fun mb => mb.at_time_list.count T = 1 ∧ mb.next_time T = d)
    (fun mb x hx h => (run_at_time_worker_frame W now T hla mb x 1 d hx h).1) s hs m ⟨hc, hdm⟩
  -- `T` itself
  have hin1 : T ∈ (s.foldl (run_at_time_worker W now) m).at_time_list :=
    List.count_pos_iff.mp (by omega)
  obtain ⟨trc, e2, p2⟩ := run_at_time_worker_fires_trace W now
    (s.foldl (run_at_time_worker W now) m) T hin1 (by omega)
  have hq2 := hrun (s.foldl (run_at_time_worker W now) m) hc1 hd1
  -- the workers after `T`
  obtain ⟨hq3, tr3, e3, f3⟩ := at_time_fold_others W now T Q hQ t ht _ hq2
  have hfold : dispatch_at_time W now m
      = t.foldl (run_at_time_worker W now)
          (run_at_time_worker W now (s.foldl (run_at_time_worker W now) m) T) := by
    unfold dispatch_at_time
    rw [hst, List.foldl_append, List.foldl_cons]
  have hev : dispatch_at_time_events W now m
      = tr1 ++ ((DispatchEvent.at_time_begin T
          ((s.foldl (run_at_time_worker W now) m).at_time_list.erase T)
          :: (trc ++ [DispatchEvent.at_time_end T])) ++ tr3) := by
    unfold dispatch_at_time_events
    rw [hfold, e3, e2, e1, List.append_assoc, List.append_assoc, List.drop_left]
  refine ⟨?_, ?_⟩
  · rw [hfold]
    exact hq3
  · rw [hev, at_time_fires_append, at_time_fires_append, f1, f3,
      at_time_fires_of_run T _ trc p2]

/-- An at-time worker whose deadline is not reached, and on which no other
worker makes a call, is not called in the second part of a pass and stays as
it is. -/
theorem at_time_fold_not_due (W : Workers) (now T : Nat) (hla : W.LeavesAlone T)
    (m : DispatchMem) (k d : Nat) (hd : now < d)
    (h : m.at_time_list.count T = k ∧ m.next_time T = d) :
    ((dispatch_at_time W now m).at_time_list.count T = k
      ∧ (dispatch_at_time W now m).next_time T = d)
    ∧ at_time_fires T (dispatch_at_time_events W now m) = 0 := by
  obtain ⟨h1, _, p1⟩ := dispatch_at_time_inv W now
    (fun mb => mb.at_time_list.count T = k ∧ mb.next_time T = d)
    (fun e => ∀ lst, e ≠ DispatchEvent.at_time_begin T lst) m
    (fun mb x _ hmb => by
      by_cases hx : x = T
      · have hno : ¬ (x ∈ mb.at_time_list ∧ mb.next_time x ≤ now) := by
          rw [hx, hmb.2]
          omega
        have he : run_at_time_worker W now mb x = mb := by
          unfold run_at_time_worker
          rw [if_neg hno]
        rw [he]
        exact ⟨hmb, [], by simp, by simp⟩
      · exact run_at_time_worker_frame W now T hla mb x k d hx hmb) h
  exact ⟨h1, at_time_fires_eq_zero T _ p1⟩

/-- Adding an at-time worker that is not in the list puts it in, once, with
the deadline given. -/
theorem apply_call_add_at_time (m : DispatchMem) (T d2 : Nat)
    (h : m.at_time_list.count T = 0) :
    (m.apply_call (WorkerCall.add_at_time_worker_at T d2)).at_time_list.count T = 1
    ∧ (m.apply_call (WorkerCall.add_at_time_worker_at T d2)).next_time T = d2 := by
  have hnot : T ∉ m.at_time_list := fun hin => by
    have := List.count_pos_iff.mpr hin
    omega
  simp [DispatchMem.apply_call, DispatchMem.log, hnot, List.count_cons, h]

/-- Calls that are not on the at-time worker `T` leave it as it is. -/
theorem apply_calls_at_time_frame (T : Nat) (cs : List WorkerCall)
    (hcs : ∀ c ∈ cs, c.touches_at_time T = false) (m : DispatchMem) (k d : Nat)
    (h : m.at_time_list.count T = k ∧ m.next_time T = d) :
    (m.apply_calls cs).at_time_list.count T = k ∧ (m.apply_calls cs).next_time T = d :=
  (apply_calls_inv (fun m => m.at_time_list.count T = k ∧ m.next_time T = d) cs
    (fun m2 c hc h2 => by
      obtain ⟨_, h3, h4⟩ := apply_call_at_time_frame m2 c T (hcs c hc)
      exact ⟨h3.trans h2.1, h4.trans h2.2⟩) m h).1

/-- An at-time worker that adds itself again in its `do_work` is in the list
once after the pass has come to it, with the new deadline. -/
theorem run_at_time_worker_readd (W : Workers) (now T d d2 : Nat) (hre : W.Readds T d d2)
    (ma : DispatchMem) (hc : ma.at_time_list.count T = 1) (hd : ma.next_time T = d)
    (hel : d ≤ now) :
    (run_at_time_worker W now ma T).at_time_list.count T = 1
    ∧ (run_at_time_worker W now ma T).next_time T = d2 := by
  have hin : T ∈ ma.at_time_list := List.count_pos_iff.mp (by omega)
  rw [run_at_time_worker_fires W now ma T hin (by omega)]
  have hc0 : (ma.at_time_list.erase T).count T = 0 := by
    rw [List.count_erase_self, hc]
  have hnot : T ∉ ma.at_time_list.erase T := fun h => by
    have := List.count_pos_iff.mpr h
    omega
  obtain ⟨pre, post, heq, hpre, hpost⟩ := hre
    (DispatchMem.log { ma with at_time_list := ma.at_time_list.erase T }
      (DispatchEvent.at_time_begin T (ma.at_time_list.erase T))) hd hnot
  rw [heq]
  have h1 := apply_calls_at_time_frame T pre hpre
    (DispatchMem.log { ma with at_time_list := ma.at_time_list.erase T }
      (DispatchEvent.at_time_begin T (ma.at_time_list.erase T))) 0 d ⟨hc0, hd⟩
  have h2 := apply_call_add_at_time _ T d2 h1.1
  have h3 := apply_calls_at_time_frame T post hpost _ 1 d2 h2
  have hsplit : ∀ m0 : DispatchMem,
      m0.apply_calls (pre ++ WorkerCall.add_at_time_worker_at T d2 :: post)
        = ((m0.apply_calls pre).apply_call (WorkerCall.add_at_time_worker_at T d2)).apply_calls
            post := by
    intro m0
    simp [DispatchMem.apply_calls, List.foldl_append]
  rw [hsplit]
  exact h3

/-- An event that is not the call of an at-time worker keeps the balance. -/
theorem balance_of_log (T : Nat) (m0 m1 m2 : DispatchMem) (e : DispatchEvent)
    (hl : m2.at_time_list = m1.at_time_list) (ht : m2.trace = m1.trace ++ [e])
    (he : at_time_fires T [e] = 0) (h : AtTimeBalance T m0 m1) : AtTimeBalance T m0 m2 := by
  unfold AtTimeBalance at *
  rw [hl, ht, at_time_fires_append, at_time_adds_append, he]
  omega

/-- Detaching an at-time worker and calling it keeps the balance. -/
theorem balance_of_detach (T : Nat) (m0 m1 : DispatchMem) (w : Nat) (hw : w ∈ m1.at_time_list)
    (h : AtTimeBalance T m0 m1) :
    AtTimeBalance T m0 (DispatchMem.log { m1 with at_time_list := m1.at_time_list.erase w }
      (DispatchEvent.at_time_begin w (m1.at_time_list.erase w))) := by
  unfold AtTimeBalance at *
  have ha : at_time_adds T [DispatchEvent.at_time_begin w (m1.at_time_list.erase w)] = 0 := by
    simp [at_time_adds]
  by_cases hT : w = T
  · subst hT
    have hf : at_time_fires w [DispatchEvent.at_time_begin w (m1.at_time_list.erase w)] = 1 := by
      simp [at_time_fires]
    have hpos : 0 < m1.at_time_list.count w := List.count_pos_iff.mpr hw
    have hcnt : (m1.at_time_list.erase w).count w = m1.at_time_list.count w - 1 :=
      List.count_erase_self w _
    show at_time_fires w (m1.trace ++ _) + (m1.at_time_list.erase w).count w + _
      ≤ at_time_adds w (m1.trace ++ _) + _ + _
    rw [at_time_fires_append, at_time_adds_append, hf, ha, hcnt]
    omega
  · have hne : T ≠ w := fun e => hT e.symm
    have hf : at_time_fires T [DispatchEvent.at_time_begin w (m1.at_time_list.erase w)] = 0 := by
      simp [at_time_fires, hT]
    have hcnt : (m1.at_time_list.erase w).count T = m1.at_time_list.count T :=
      List.count_erase_of_ne hne _
    show at_time_fires T (m1.trace ++ _) + (m1.at_time_list.erase w).count T + _
      ≤ at_time_adds T (m1.trace ++ _) + _ + _
    rw [at_time_fires_append, at_time_adds_append, hf, ha, hcnt]
    omega

/-- A dispatch pass keeps the balance of every at-time worker. -/
theorem dispatch_pass_balance (W : Workers) (now T : Nat) (m0 m : DispatchMem)
    (h : AtTimeBalance T m0 m) : AtTimeBalance T m0 (dispatch_pass W now m) := by
  have h1 : AtTimeBalance T m0 (dispatch_when_pending W m) :=
    (dispatch_when_pending_inv W (AtTimeBalance T m0) (fun _ => True) m
      (fun m1 w _ hm1 => by
        obtain ⟨hb, tr, e, _⟩ := run_when_pending_worker_inv W (AtTimeBalance T m0) m1 w
          (fun hb _ _ => balance_of_log T m0 m1 _ _ rfl rfl (by simp [at_time_fires]) hb)
          (fun _ m2 c _ h2 => at_time_balance_trans T _ _ _ h2 (apply_call_balance T m2 c))
          (fun m2 h2 => balance_of_log T m0 m2 _ _ rfl rfl (by simp [at_time_fires]) h2) hm1
        exact ⟨hb, tr, e, fun _ _ => trivial⟩) h).1
  exact (dispatch_at_time_inv W now (AtTimeBalance T m0) (fun _ => True)
    (dispatch_when_pending W m)
    (fun m1 w _ hm1 => by
      obtain ⟨hb, tr, e, _⟩ := run_at_time_worker_inv W now (AtTimeBalance T m0) m1 w
        (fun hb hw _ => balance_of_detach T m0 m1 w hw hb)
        (fun _ m2 c _ h2 => at_time_balance_trans T _ _ _ h2 (apply_call_balance T m2 c))
        (fun m2 h2 => balance_of_log T m0 m2 _ _ rfl rfl (by simp [at_time_fires]) h2) hm1
      exact ⟨hb, tr, e, fun _ _ => trivial⟩) h1).1

/-- API calls and dispatch passes in any order keep the balance of every
at-time worker. -/
theorem run_balance (W : Workers) (T : Nat) (m0 : DispatchMem) :
    ∀ (steps : List ContextStep) (m : DispatchMem), AtTimeBalance T m0 m →
      AtTimeBalance T m0 (m.run W steps) := by
  intro steps
  induction steps with
  | nil =>
    intro m h
    exact h
  | cons x xs ih =>
    intro m h
    have h1 : AtTimeBalance T m0 (m.step W x) := by
      cases x with
      | call c => exact at_time_balance_trans T _ _ _ h (apply_call_balance T m c)
      | pass now => exact dispatch_pass_balance W now T m0 m h
    exact ih (m.step W x) h1

/-- A dispatch pass keeps the lists free of duplicates, and every at-time
worker is called with a list it is not in. -/
theorem dispatch_pass_detached (W : Workers) (now : Nat) (m : DispatchMem) (hwf : m.WF) :
    (dispatch_pass W now m).WF
    ∧ ∀ w lst, DispatchEvent.at_time_begin w lst ∈ dispatch_pass_events W now m → w ∉ lst := by
  obtain ⟨hwf1, _, _⟩ := dispatch_when_pending_inv W DispatchMem.WF (fun _ => True) m
    (fun m1 w _ hm1 => by
      obtain ⟨hb, tr, e, _⟩ := run_when_pending_worker_inv W DispatchMem.WF m1 w
        (fun hb _ _ => hb) (fun _ m2 c _ h2 => apply_call_wf m2 c h2) (fun m2 h2 => h2) hm1
      exact ⟨hb, tr, e, fun _ _ => trivial⟩) hwf
  obtain ⟨hwf2, _, hp2⟩ := dispatch_at_time_inv W now DispatchMem.WF
    (fun e => ∀ w lst, e = DispatchEvent.at_time_begin w lst → w ∉ lst)
    (dispatch_when_pending W m)
    (fun m1 w _ hm1 => by
      obtain ⟨hb, tr, e, p⟩ := run_at_time_worker_inv W now DispatchMem.WF m1 w
        (fun hb _ _ => ⟨hb.1, hb.2.erase w⟩) (fun _ m2 c _ h2 => apply_call_wf m2 c h2)
        (fun m2 h2 => h2) hm1
      refine ⟨hb, tr, e, ?_⟩
      intro ev hev w2 lst hl
      rcases p ev hev with h | h | ⟨c, r, h⟩
      · rw [h] at hl
        injection hl with h5 h6
        rw [← h5, ← h6]
        exact hm1.2.not_mem_erase
      · rw [h] at hl
        cases hl
      · rw [h] at hl
        cases hl) hwf1
  refine ⟨hwf2, ?_⟩
  intro w lst hmem
  rw [(dispatch_pass_events_eq W now m).2] at hmem
  rcases List.mem_append.mp hmem with h | h
  · have hk := (dispatch_when_pending_events_kind W m).2 _ h
    cases hk
  · exact hp2 _ h w lst rfl

/-- The first part of a pass leaves an at-time worker alone that the
when-pending workers make no call on, and does not call it. -/
theorem dispatch_when_pending_frame (W : Workers) (T : Nat) (hla : W.LeavesAlone T)
    (m : DispatchMem) (k d : Nat) (h : m.at_time_list.count T = k ∧ m.next_time T = d) :
    ((dispatch_when_pending W m).at_time_list.count T = k
      ∧ (dispatch_when_pending W m).next_time T = d)
    ∧ at_time_fires T (dispatch_when_pending_events W m) = 0 := by
  have h1 := (dispatch_when_pending_inv W
    (fun m1 => m1.at_time_list.count T = k ∧ m1.next_time T = d) (fun _ => True) m
    (fun m1 w _ h1 => by
      refine ⟨run_when_pending_worker_frame W T hla m1 w _ _ h1, ?_⟩
      obtain ⟨_, tr, e, _⟩ := run_when_pending_worker_inv W (fun _ => True) m1 w
        (fun _ _ _ => trivial) (fun _ _ _ _ _ => trivial) (fun _ _ => trivial) trivial
      exact ⟨tr, e, fun _ _ => trivial⟩) h).1
  refine ⟨h1, at_time_fires_eq_zero T _ ?_⟩
  intro e he lst hl
  have hk := (dispatch_when_pending_events_kind W m).2 e he
  rw [hl] at hk
  cases hk

/-- An at-time worker that is once in the list, with its deadline reached, and
on which no other worker makes a call, is called exactly once in a pass. -/
theorem dispatch_pass_once (W : Workers) (now T : Nat) (hla : W.LeavesAlone T)
    (Q : DispatchMem → Prop)
    (hQ : ∀ mb x, x ≠ T → Q mb → Q (run_at_time_worker W now mb x))
    (d : Nat) (hd : d ≤ now)
    (hrun : ∀ ma, ma.at_time_list.count T = 1 → ma.next_time T = d →
      Q (run_at_time_worker W now ma T))
    (m : DispatchMem) (hc : m.at_time_list.count T = 1) (hdm : m.next_time T = d) :
    Q (dispatch_pass W now m) ∧ at_time_fires T (dispatch_pass_events W now m) = 1 := by
  obtain ⟨⟨hc1, hd1⟩, f1⟩ := dispatch_when_pending_frame W T hla m 1 d ⟨hc, hdm⟩
  obtain ⟨hq, f2⟩ := at_time_fold_once W now T hla Q hQ d hd hrun
    (dispatch_when_pending W m) hc1 hd1
  refine ⟨hq, ?_⟩
  rw [(dispatch_pass_events_eq W now m).2, at_time_fires_append, f1, f2]

/-- An at-time worker whose deadline is not reached, and on which no other
worker makes a call, is not called in a pass and stays as it is. -/
theorem dispatch_pass_not_due (W : Workers) (now T : Nat) (hla : W.LeavesAlone T)
    (m : DispatchMem) (k d : Nat) (hd : now < d)
    (h : m.at_time_list.count T = k ∧ m.next_time T = d) :
    ((dispatch_pass W now m).at_time_list.count T = k
      ∧ (dispatch_pass W now m).next_time T = d)
    ∧ at_time_fires T (dispatch_pass_events W now m) = 0 := by
  obtain ⟨h1, f1⟩ := dispatch_when_pending_frame W T hla m k d h
  obtain ⟨h2, f2⟩ := at_time_fold_not_due W now T hla (dispatch_when_pending W m) k d hd h1
  refine ⟨h2, ?_⟩
  rw [(dispatch_pass_events_eq W now m).2, at_time_fires_append, f1, f2]

/-- The workers for concrete evaluation make no call on the at-time worker 10
other than its own. -/
theorem demoWorkers_leaves_alone : demoWorkers.LeavesAlone 10 := by
  refine ⟨fun w m1 c hc => ?_, fun w m1 c hw hc => ?_⟩
  · by_cases hw : w = 1
    · simp [demoWorkers, hw] at hc
      rcases hc with h | h <;> rw [h] <;> rfl
    · simp [demoWorkers, hw] at hc
  · by_cases hw2 : w = 11
    · simp [demoWorkers, hw2] at hc
      rw [hc]
      rfl
    · simp [demoWorkers, hw, hw2] at hc

/-- The at-time worker 10 for concrete evaluation, called with the deadline 40,
adds itself again for the time 140. -/
theorem demoWorkers_readds : demoWorkers.Readds 10 40 140 := by
  intro m1 h1 _
  refine ⟨[], [], ?_, ?_, ?_⟩
  · simp [demoWorkers, h1]
  · intro c hc
    cases hc
  · intro c hc
    cases hc

/-- C22: a timed worker fires at most once per add.  In a context whose lists
have no duplicates, every `do_work` of an at-time worker is called with an
`at_time_list` the worker is no longer in, and the lists stay free of
duplicates.  Over any sequence of API calls and dispatch passes, the calls of
the `do_work` of `T` plus its entries in the list at the end are at most its
entries at the start (at most one) plus the successful adds of `T`.  A worker
`T` in the list with `next_time` reached, on which no other worker makes a
call, is called exactly once in the pass; when its `do_work` adds `T` again for
the time `d2`, `T` is in the list once with `next_time = d2` after the pass, a
later pass at a time before `d2` does not call it and leaves it so (none at the
old deadline), and a later pass at a time from `d2` on calls it exactly once. -/
theorem at_time_worker_fires_once (W : Workers) (now : Nat) (m : DispatchMem) (T : Nat)
    (hwf : m.WF) :
    (∀ w lst, DispatchEvent.at_time_begin w lst ∈ dispatch_pass_events W now m → w ∉ lst)
    ∧ (dispatch_pass W now m).WF
    ∧ m.at_time_list.count T ≤ 1
    ∧ (∀ steps, AtTimeBalance T m (m.run W steps))
    ∧ (at_time_adds T (dispatch_pass_events W now m) = 0 →
        at_time_fires T (dispatch_pass_events W now m) ≤ 1
        ∧ (at_time_fires T (dispatch_pass_events W now m) = 1 →
            T ∉ (dispatch_pass W now m).at_time_list))
    ∧ (T ∈ m.at_time_list → m.next_time T ≤ now → W.LeavesAlone T →
        at_time_fires T (dispatch_pass_events W now m) = 1
        ∧ ∀ d2, W.Readds T (m.next_time T) d2 →
            (dispatch_pass W now m).at_time_list.count T = 1
            ∧ (dispatch_pass W now m).next_time T = d2
            ∧ ∀ (W2 : Workers) (now2 : Nat), W2.LeavesAlone T →
                (now2 < d2 →
                  at_time_fires T (dispatch_pass_events W2 now2 (dispatch_pass W now m)) = 0
                  ∧ (dispatch_pass W2 now2 (dispatch_pass W now m)).at_time_list.count T = 1
                  ∧ (dispatch_pass W2 now2 (dispatch_pass W now m)).next_time T = d2)
                ∧ (d2 ≤ now2 →
                  at_time_fires T (dispatch_pass_events W2 now2 (dispatch_pass W now m))
                    = 1)) := by
  obtain ⟨hwf2, hdet⟩ := dispatch_pass_detached W now m hwf
  have hle : m.at_time_list.count T ≤ 1 := List.nodup_iff_count_le_one.mp hwf.2 T
  refine ⟨hdet, hwf2, hle, fun steps => run_balance W T m steps m (at_time_balance_refl T m),
    ?_, ?_⟩
  · intro hadd
    have hb := dispatch_pass_balance W now T m m (at_time_balance_refl T m)
    unfold AtTimeBalance at hb
    rw [(dispatch_pass_events_eq W now m).1, at_time_fires_append, at_time_adds_append,
      hadd] at hb
    refine ⟨by omega, fun h1 hin => ?_⟩
    have := List.count_pos_iff.mpr hin
    omega
  · intro hT hTe hla
    have hc : m.at_time_list.count T = 1 := by
      have := List.count_pos_iff.mpr hT
      omega
    refine ⟨(dispatch_pass_once W now T hla (fun _ => True) (fun _ _ _ _ => trivial)
      (m.next_time T) hTe (fun _ _ _ => trivial) m hc rfl).2, ?_⟩
    intro d2 hre
    obtain ⟨⟨hc2, hd2⟩, _⟩ := dispatch_pass_once W now T hla
      (fun mb => mb.at_time_list.count T = 1 ∧ mb.next_time T = d2)
      (fun mb x hx h => (run_at_time_worker_frame W now T hla mb x 1 d2 hx h).1)
      (m.next_time T) hTe
      (fun ma hca hda => run_at_time_worker_readd W now T (m.next_time T) d2 hre ma hca hda hTe)
      m hc rfl
    refine ⟨hc2, hd2, ?_⟩
    intro W2 now2 hla2
    refine ⟨fun hlt => ?_, fun hge => ?_⟩
    · obtain ⟨⟨h3, h4⟩, f⟩ := dispatch_pass_not_due W2 now2 T hla2 (dispatch_pass W now m) 1 d2
        hlt ⟨hc2, hd2⟩
      exact ⟨f, h3, h4⟩
    · exact (dispatch_pass_once W2 now2 T hla2 (fun _ => True) (fun _ _ _ _ => trivial)
        d2 hge (fun _ _ _ => trivial) (dispatch_pass W now m) hc2 hd2).2

/-- Witness for C22: the at-time workers 10 and 11 (deadline 40) and 12
(deadline 60), a pass at the time 50.  Worker 10 is called once, with the list
`[11, 12]`, and adds itself again for the time 140; a pass at the time 100 does
not call it, a pass at the time 150 calls it once. -/
theorem at_time_worker_fires_once_witness :
    (dispatchMemAt [1, 2] [1] [10, 11, 12] (fun w => if w = 12 then 60 else 40)).WF
    ∧ (dispatch_pass demoWorkers 50
        (dispatchMemAt [1, 2] [1] [10, 11, 12] (fun w => if w = 12 then 60 else 40))).at_time_list
        = [10, 12]
    ∧ (∀ w lst, DispatchEvent.at_time_begin w lst ∈ dispatch_pass_events demoWorkers 50
          (dispatchMemAt [1, 2] [1] [10, 11, 12] (fun w => if w = 12 then 60 else 40)) →
        w ∉ lst)
    ∧ at_time_fires 10 (dispatch_pass_events demoWorkers 50
        (dispatchMemAt [1, 2] [1] [10, 11, 12] (fun w => if w = 12 then 60 else 40))) = 1
    ∧ (dispatch_pass demoWorkers 50
        (dispatchMemAt [1, 2] [1] [10, 11, 12]
          (fun w => if w = 12 then 60 else 40))).at_time_list.count 10 = 1
    ∧ (dispatch_pass demoWorkers 50
        (dispatchMemAt [1, 2] [1] [10, 11, 12]
          (fun w => if w = 12 then 60 else 40))).next_time 10 = 140
    ∧ at_time_fires 10 (dispatch_pass_events demoWorkers 100 (dispatch_pass demoWorkers 50
        (dispatchMemAt [1, 2] [1] [10, 11, 12] (fun w => if w = 12 then 60 else 40)))) = 0
    ∧ at_time_fires 10 (dispatch_pass_events demoWorkers 150 (dispatch_pass demoWorkers 50
        (dispatchMemAt [1, 2] [1] [10, 11, 12] (fun w => if w = 12 then 60 else 40)))) = 1 :=
  have hwf : (dispatchMemAt [1, 2] [1] [10, 11, 12]
      (fun w => if w = 12 then 60 else 40)).WF := by
    simp [DispatchMem.WF, dispatchMemAt]
  have h := at_time_worker_fires_once demoWorkers 50
    (dispatchMemAt [1, 2] [1] [10, 11, 12] (fun w => if w = 12 then 60 else 40)) 10 hwf
  have h6 := h.2.2.2.2.2 (by decide) (by decide) demoWorkers_leaves_alone
  have h7 := h6.2 140 demoWorkers_readds
  ⟨hwf, by decide, h.1, h6.1, h7.1, h7.2.1,
   ((h7.2.2 demoWorkers 100 demoWorkers_leaves_alone).1 (by decide)).1,
   (h7.2.2 demoWorkers 150 demoWorkers_leaves_alone).2 (by decide)⟩
end PicoSdk
